import Mathlib

set_option linter.unnecessarySeqFocus false

/-!
Shallow embedding of `function_maxima.h` (class `FunctionMaxima<A, V>`),
instantiated at `A = Int`, `V = Int`.

The C++ class keeps two ordered containers:
 * `points`  : a `std::multiset<point_type, compare_points>` ordered by argument
   (modelled as a `List Pt` kept sorted strictly ascending by first component);
 * `maxima`  : a `std::set<point_type, compare_maxima>` ordered by value
   descending with ties broken by argument ascending (modelled as a `List Pt`
   kept strictly sorted by `cmpMaxP`).

Iterators are modelled as indices into the points list, `points.end()` being
`points.length`.  `std::prev` / `std::next` become `i - 1` / `i + 1`; the one
place the source decrements a `begin()` iterator feeds the result straight
into a guard that compares it against `previous` or `end`, and truncated `Nat`
subtraction reproduces exactly that observable no-op.

Two renderings of the update engine appear below:
 * the plain functions (`custom_insert`, `erase`, ...) run with the ordinary
   total comparison on values — the behaviour of the C++ when no user
   comparison throws;
 * the `E`-suffixed functions thread an invocation counter through every
   value comparison and raise an exception (`Except.error`) on the `k`-th
   invocation, mirroring a user-supplied `operator<` on `V` that throws;
   the `catch`-block rollback of the source is rendered explicitly, and the
   error carries the exception identity together with the rolled-back state
   that the caller observes.
Bridge lemmas prove that with a never-throwing comparator the instrumented
functions return exactly the plain ones.
-/

/-- A `point_type`: `(argument, value)` with `A = V = Int`. -/
abbrev Pt := Int × Int

/-- Default point used for total `getD` indexing (never read in range). -/
def dpt : Pt := (0, 0)

/-- Value stored at index `i` of a points list (`(*p).value()`). -/
def valAt (l : List Pt) (i : Nat) : Int := (l.getD i dpt).2

/-- `compare_maxima`: `lhs` before `rhs` iff `rhs.value() < lhs.value()`, or the
values are equivalent and `lhs.arg() < rhs.arg()`. -/
def cmpMaxP (l r : Pt) : Bool :=
  if r.2 < l.2 then true
  else if l.2 < r.2 then false
  else decide (l.1 < r.1)

/-- `equivalent`: neither value `<` the other. -/
def equivalentP (v1 v2 : Int) : Bool := !decide (v1 < v2) && !decide (v2 < v1)

/-- `points.find(a)` on the multiset ordered by argument: index of the first
element whose argument is equivalent to `a`, or `length` (the end iterator). -/
def find_arg : List Pt → Int → Nat
  | [], _ => 0
  | p :: rest, a => if p.1 = a then 0 else find_arg rest a + 1

/-- `points.insert(point_type(a, v))` on the multiset: inserts at the upper
bound of the equal-argument range, returning the iterator (index) of the new
element together with the new list. -/
def insertUB : List Pt → Pt → Nat × List Pt
  | [], p => (0, [p])
  | q :: rest, p =>
      if p.1 < q.1 then (0, p :: q :: rest)
      else
        let r := insertUB rest p
        (r.1 + 1, q :: r.2)

/-- `multi_prev`: the iterator before `p`, skipping `to_be_erased`. -/
def multi_prev (p prev : Nat) : Nat :=
  if p - 1 = prev then p - 2 else p - 1

/-- `multi_next`: the iterator after `p`, skipping `previous`;
`len` is `points.length`, i.e. the end iterator. -/
def multi_next (len p prev : Nat) : Nat :=
  if p = len || p + 1 = len then len
  else if p + 1 = prev then p + 2 else p + 1

/-- `multi_is_beginning`. -/
def multi_is_beginning (p prev : Nat) : Bool :=
  if p = 0 then true
  else if p - 1 = prev && p - 1 = 0 then true
  else false

/-- `multi_is_ending`. -/
def multi_is_ending (len p prev : Nat) : Bool :=
  if p = len - 1 then true
  else if p + 1 = prev && p + 1 = len - 1 then true
  else false

/-- `greater_than_next` with the total value comparison. -/
def greater_than_nextP (l : List Pt) (p prev : Nat) : Bool :=
  if multi_is_ending l.length p prev then true
  else !decide (valAt l p < valAt l (multi_next l.length p prev))

/-- `greater_than_prev` with the total value comparison. -/
def greater_than_prevP (l : List Pt) (p prev : Nat) : Bool :=
  if multi_is_beginning p prev then true
  else !decide (valAt l p < valAt l (multi_prev p prev))

/-- `is_maximum` (short-circuit `&&` of the two neighbour checks). -/
def is_maximumP (l : List Pt) (p prev : Nat) : Bool :=
  greater_than_prevP l p prev && greater_than_nextP l p prev

/-- `maxima.find(p) != maxima.end()` (`present_in_maxima_set`): scan for an
element equal to `p` under the `compare_maxima` equivalence. -/
def maxFindP (m : List Pt) (p : Pt) : Bool :=
  m.any fun q => !cmpMaxP q p && !cmpMaxP p q

/-- `maxima.insert(p)`: ordered insertion by `compare_maxima`. -/
def maxInsertP : List Pt → Pt → List Pt
  | [], p => [p]
  | q :: rest, p => if cmpMaxP p q then p :: q :: rest else q :: maxInsertP rest p

/-- The bookkeeping buffers of the class (`to_erase` / `to_rollback` with
their `if_erase` / `if_rollback` flags folded into `Option`), plus the maxima
set they act on. -/
structure MB where
  maxima : List Pt
  to_erase : List (Option Pt)
  to_rollback : List (Option Pt)
  deriving DecidableEq, Repr

/-- The loop body shared by `erase_from_maxima` and `rollback_maxima`: erase
every recorded element from the maxima set (no comparisons). -/
def applyErase (buf : List (Option Pt)) (m : List Pt) : List Pt :=
  buf.foldl (fun acc o => match o with | some p => acc.erase p | none => acc) m

/-- `conditional_add_new_maximum` with the total value comparison: classify the
point at `it` (skipping `prev`) and stage the maxima update in slot `i`. -/
def conditional_addP (pts : List Pt) (it prev i : Nat) (st : MB) : MB :=
  if it = pts.length || it = prev then st
  else
    let q := pts.getD it dpt
    if is_maximumP pts it prev then
      if !maxFindP st.maxima q then
        { st with maxima := maxInsertP st.maxima q,
                  to_rollback := st.to_rollback.set i (some q) }
      else st
    else
      if maxFindP st.maxima q then { st with to_erase := st.to_erase.set i (some q) }
      else st

/-- The `FunctionMaxima` object state: the two containers (the rollback
buffers are always cleared between public calls). -/
structure FunctionMaxima where
  points : List Pt
  maxima : List Pt
  deriving DecidableEq, Repr

namespace FunctionMaxima

/-- The default-constructed object: empty function, empty maxima. -/
def empty : FunctionMaxima := ⟨[], []⟩

/-- `custom_insert(a, v)` with the total value comparison (the behaviour of
the C++ call when no comparison throws). -/
def custom_insert (s : FunctionMaxima) (a v : Int) : FunctionMaxima :=
  let j := find_arg s.points a
  let found := decide (j ≠ s.points.length)
  if found && equivalentP v (valAt s.points j) then s
  else
    let r := insertUB s.points (a, v)
    let it := r.1
    let pts := r.2
    let prevI := if found then j else pts.length
    let st0 : MB := ⟨s.maxima, List.replicate 5 none, List.replicate 4 none⟩
    let st1 := conditional_addP pts it prevI 1 st0
    let st2 := conditional_addP pts (multi_next pts.length it prevI) prevI 2 st1
    let st3 := if it ≠ 0 then conditional_addP pts (multi_prev it prevI) prevI 3 st2 else st2
    let st4 :=
      if found then
        let p := pts.getD j dpt
        if maxFindP st3.maxima p then { st3 with to_erase := st3.to_erase.set 4 (some p) }
        else st3
      else st3
    let ptsF := if found then pts.eraseIdx j else pts
    ⟨ptsF, applyErase st4.to_erase st4.maxima⟩

/-- `set_value(a, v)`. -/
def set_value (s : FunctionMaxima) (a v : Int) : FunctionMaxima :=
  custom_insert s a v

/-- `erase(a)` with the total value comparison. -/
def erase (s : FunctionMaxima) (a : Int) : FunctionMaxima :=
  let it := find_arg s.points a
  if it = s.points.length then s
  else
    let p := s.points.getD it dpt
    let f2 := maxFindP s.maxima p
    let te0 := if f2 then (List.replicate 5 (none : Option Pt)).set 0 (some p)
               else List.replicate 5 none
    let st1 : MB := ⟨s.maxima, te0, List.replicate 4 none⟩
    let st2 := conditional_addP s.points (it + 1) it 2 st1
    let st3 := conditional_addP s.points (it - 1) it 3 st2
    ⟨s.points.eraseIdx it, applyErase st3.to_erase st3.maxima⟩

/-- `size()`. -/
def size (s : FunctionMaxima) : Nat := s.points.length

/-- The `InvalidArg` exception thrown by `value_at`. -/
inductive InvalidArg where
  | mk
  deriving DecidableEq, Repr

/-- `value_at(a)`: throws `InvalidArg` when the argument is absent; otherwise
returns the stored value.  It reads the structure and never mutates it. -/
def value_at (s : FunctionMaxima) (a : Int) : Except InvalidArg Int :=
  let j := find_arg s.points a
  if j = s.points.length then Except.error InvalidArg.mk
  else Except.ok (valAt s.points j)

instance {e a : Type} [DecidableEq e] [DecidableEq a] : DecidableEq (Except e a) := by
  intro x y
  cases x with
  | ok v =>
    cases y with
    | ok v' =>
      by_cases h : v = v'
      · exact Decidable.isTrue (by rw [h])
      · exact Decidable.isFalse (fun hh => h (Except.ok.inj hh))
    | error f => exact Decidable.isFalse (fun hh => Except.noConfusion hh)
  | error f =>
    cases y with
    | ok v' => exact Decidable.isFalse (fun hh => Except.noConfusion hh)
    | error f' =>
      by_cases h : f = f'
      · exact Decidable.isTrue (by rw [h])
      · exact Decidable.isFalse (fun hh => h (Except.error.inj hh))

/-- States reachable from the default-constructed object by completed public
mutating calls (with non-throwing comparisons). -/
inductive Reachable : FunctionMaxima → Prop where
  | empty : Reachable FunctionMaxima.empty
  | step_set (s : FunctionMaxima) (a v : Int) :
      Reachable s → Reachable (set_value s a v)
  | step_erase (s : FunctionMaxima) (a : Int) :
      Reachable s → Reachable (erase s a)

end FunctionMaxima

/-- Left/right-neighbour local-maximum test at index `i` of the argument-sorted
points list, as the specification states it: the left neighbour is absent or
not greater, and the right neighbour is absent or not greater. -/
def isMaxSpec (l : List Pt) (i : Nat) : Bool :=
  (decide (i = 0) || !decide (valAt l i < valAt l (i - 1))) &&
  (decide (i = l.length - 1) || !decide (valAt l i < valAt l (i + 1)))

/-- `p` is a stored point classified as a local maximum of `l`. -/
def MaxSpecMem (l : List Pt) (p : Pt) : Prop :=
  ∃ i, i < l.length ∧ l.getD i dpt = p ∧ isMaxSpec l i = true

instance (l : List Pt) (p : Pt) : Decidable (MaxSpecMem l p) := by
  unfold MaxSpecMem
  infer_instance

/-!
Instrumented rendering: every `<` on a value goes through `vltE`, which
threads the number of value comparisons performed so far during the current
public call and throws (returns `Except.error n`) on the `k`-th invocation.
`k = none` is a comparator that never throws.  The error payload `n` is the
identity of the thrown exception, so that surfacing it verbatim is visible in
the theorems.
-/

/-- One invocation of the user-supplied `operator<` on `V`: throws iff this is
the `k`-th invocation of the current call, otherwise returns the comparison
together with the bumped invocation counter. -/
def vltE (k : Option Nat) (v w : Int) (n : Nat) : Except Nat (Bool × Nat) :=
  if k = some n then Except.error n else Except.ok (decide (v < w), n + 1)

/-- `equivalent` under the throwing comparator (two sequential `<` calls,
short-circuiting like the source). -/
def equivalentE (k : Option Nat) (v w : Int) (n : Nat) : Except Nat (Bool × Nat) :=
  match vltE k v w n with
  | Except.error e => Except.error e
  | Except.ok (true, n1) => Except.ok (false, n1)
  | Except.ok (false, n1) =>
    match vltE k w v n1 with
    | Except.error e => Except.error e
    | Except.ok (true, n2) => Except.ok (false, n2)
    | Except.ok (false, n2) => Except.ok (true, n2)

/-- `greater_than_next` under the throwing comparator. -/
def greater_than_nextE (k : Option Nat) (l : List Pt) (p prev : Nat) (n : Nat) :
    Except Nat (Bool × Nat) :=
  if multi_is_ending l.length p prev then Except.ok (true, n)
  else
    match vltE k (valAt l p) (valAt l (multi_next l.length p prev)) n with
    | Except.error e => Except.error e
    | Except.ok (b, n1) => Except.ok (!b, n1)

/-- `greater_than_prev` under the throwing comparator. -/
def greater_than_prevE (k : Option Nat) (l : List Pt) (p prev : Nat) (n : Nat) :
    Except Nat (Bool × Nat) :=
  if multi_is_beginning p prev then Except.ok (true, n)
  else
    match vltE k (valAt l p) (valAt l (multi_prev p prev)) n with
    | Except.error e => Except.error e
    | Except.ok (b, n1) => Except.ok (!b, n1)

/-- `is_maximum` under the throwing comparator (`&&` short-circuits, so the
next-neighbour check runs only when the prev-neighbour check succeeded). -/
def is_maximumE (k : Option Nat) (l : List Pt) (p prev : Nat) (n : Nat) :
    Except Nat (Bool × Nat) :=
  match greater_than_prevE k l p prev n with
  | Except.error e => Except.error e
  | Except.ok (false, n1) => Except.ok (false, n1)
  | Except.ok (true, n1) => greater_than_nextE k l p prev n1

/-- One `compare_maxima` invocation under the throwing comparator (at most two
value comparisons; the argument comparison cannot throw). -/
def cmpMaxE (k : Option Nat) (l r : Pt) (n : Nat) : Except Nat (Bool × Nat) :=
  match vltE k r.2 l.2 n with
  | Except.error e => Except.error e
  | Except.ok (true, n1) => Except.ok (true, n1)
  | Except.ok (false, n1) =>
    match vltE k l.2 r.2 n1 with
    | Except.error e => Except.error e
    | Except.ok (true, n2) => Except.ok (false, n2)
    | Except.ok (false, n2) => Except.ok (decide (l.1 < r.1), n2)

/-- `maxima.find(p) != maxima.end()` under the throwing comparator: scan for an
element equal to `p` under the `compare_maxima` equivalence.  `std::set::find`
performs no mutation; on a throw the maxima set is unchanged. -/
def maxFindE (k : Option Nat) (m : List Pt) (p : Pt) (n : Nat) : Except Nat (Bool × Nat) :=
  match m with
  | [] => Except.ok (false, n)
  | q :: rest =>
    match cmpMaxE k q p n with
    | Except.error e => Except.error e
    | Except.ok (c1, n1) =>
      match cmpMaxE k p q n1 with
      | Except.error e => Except.error e
      | Except.ok (c2, n2) =>
        if !c1 && !c2 then Except.ok (true, n2) else maxFindE k rest p n2

/-- `maxima.insert(p)` under the throwing comparator: ordered insertion; a
throw happens before the new node is linked, so (like `std::set::insert` under
the strong guarantee) the error leaves the maxima set unchanged. -/
def maxInsertE (k : Option Nat) (m : List Pt) (p : Pt) (n : Nat) :
    Except Nat (List Pt × Nat) :=
  match m with
  | [] => Except.ok ([p], n)
  | q :: rest =>
    match cmpMaxE k p q n with
    | Except.error e => Except.error e
    | Except.ok (true, n1) => Except.ok (p :: q :: rest, n1)
    | Except.ok (false, n1) =>
      match maxInsertE k rest p n1 with
      | Except.error e => Except.error e
      | Except.ok (rest1, n2) => Except.ok (q :: rest1, n2)

/-- `conditional_add_new_maximum` under the throwing comparator.  On a throw
nothing of the staged update has happened (classification and the two finds do
not mutate, and a throwing insert leaves the set unchanged), so the error need
not carry state: the caller's state at entry is the state at the throw. -/
def conditional_addE (k : Option Nat) (pts : List Pt) (it prev i : Nat) (st : MB) (n : Nat) :
    Except Nat (MB × Nat) :=
  if it = pts.length || it = prev then Except.ok (st, n)
  else
    let q := pts.getD it dpt
    match is_maximumE k pts it prev n with
    | Except.error e => Except.error e
    | Except.ok (true, n1) =>
      match maxFindE k st.maxima q n1 with
      | Except.error e => Except.error e
      | Except.ok (true, n2) => Except.ok (st, n2)
      | Except.ok (false, n2) =>
        match maxInsertE k st.maxima q n2 with
        | Except.error e => Except.error e
        | Except.ok (m1, n3) =>
          Except.ok ({ st with maxima := m1, to_rollback := st.to_rollback.set i (some q) }, n3)
    | Except.ok (false, n1) =>
      match maxFindE k st.maxima q n1 with
      | Except.error e => Except.error e
      | Except.ok (false, n2) => Except.ok (st, n2)
      | Except.ok (true, n2) =>
        match maxFindE k st.maxima q n2 with
        | Except.error e => Except.error e
        | Except.ok (_, n3) =>
          Except.ok ({ st with to_erase := st.to_erase.set i (some q) }, n3)

/-- The `catch`-block of `custom_insert`: erase the freshly inserted point
from the points multiset and roll back the staged maxima insertions. -/
def catchRB (pts : List Pt) (it : Nat) (st : MB) : FunctionMaxima :=
  ⟨pts.eraseIdx it, applyErase st.to_rollback st.maxima⟩

/-- `custom_insert(a, v)` under the throwing comparator.  An error carries the
exception identity (which invocation threw) and the state the caller observes
after the `catch`-block rollback. -/
def custom_insertE (k : Option Nat) (s : FunctionMaxima) (a v : Int) :
    Except (Nat × FunctionMaxima) FunctionMaxima :=
  let j := find_arg s.points a
  let found := decide (j ≠ s.points.length)
  match (if found then equivalentE k v (valAt s.points j) 0 else Except.ok (false, 0)) with
  | Except.error e => Except.error (e, s)
  | Except.ok (true, _) => Except.ok s
  | Except.ok (false, n0) =>
    let r := insertUB s.points (a, v)
    let it := r.1
    let pts := r.2
    let prevI := if found then j else pts.length
    let st0 : MB := ⟨s.maxima, List.replicate 5 none, List.replicate 4 none⟩
    match conditional_addE k pts it prevI 1 st0 n0 with
    | Except.error e => Except.error (e, catchRB pts it st0)
    | Except.ok (st1, n1) =>
      match conditional_addE k pts (multi_next pts.length it prevI) prevI 2 st1 n1 with
      | Except.error e => Except.error (e, catchRB pts it st1)
      | Except.ok (st2, n2) =>
        match (if it ≠ 0 then conditional_addE k pts (multi_prev it prevI) prevI 3 st2 n2
               else Except.ok (st2, n2)) with
        | Except.error e => Except.error (e, catchRB pts it st2)
        | Except.ok (st3, n3) =>
          match (if found then
                   match maxFindE k st3.maxima (pts.getD j dpt) n3 with
                   | Except.error e => Except.error e
                   | Except.ok (b, n4) =>
                     Except.ok
                       ((if b then
                           { st3 with to_erase := st3.to_erase.set 4 (some (pts.getD j dpt)) }
                         else st3), n4)
                 else Except.ok (st3, n3)) with
          | Except.error e => Except.error (e, catchRB pts it st3)
          | Except.ok (st4, _) =>
            let ptsF := if found then pts.eraseIdx j else pts
            Except.ok ⟨ptsF, applyErase st4.to_erase st4.maxima⟩

/-- `set_value(a, v)` under the throwing comparator. -/
def set_valueE (k : Option Nat) (s : FunctionMaxima) (a v : Int) :
    Except (Nat × FunctionMaxima) FunctionMaxima :=
  custom_insertE k s a v

/-- `erase(a)` under the throwing comparator.  The `maxima.find` that locates
the erased point's index entry runs before the `try`-block; the `catch`-block
only rolls back staged maxima insertions (the points multiset is untouched
until the no-throw commit phase). -/
def eraseE (k : Option Nat) (s : FunctionMaxima) (a : Int) :
    Except (Nat × FunctionMaxima) FunctionMaxima :=
  let it := find_arg s.points a
  if it = s.points.length then Except.ok s
  else
    let p := s.points.getD it dpt
    match maxFindE k s.maxima p 0 with
    | Except.error e => Except.error (e, s)
    | Except.ok (f2, n0) =>
      let te0 := if f2 then (List.replicate 5 (none : Option Pt)).set 0 (some p)
                 else List.replicate 5 none
      let st1 : MB := ⟨s.maxima, te0, List.replicate 4 none⟩
      match conditional_addE k s.points (it + 1) it 2 st1 n0 with
      | Except.error e => Except.error (e, ⟨s.points, applyErase st1.to_rollback st1.maxima⟩)
      | Except.ok (st2, n2) =>
        match conditional_addE k s.points (it - 1) it 3 st2 n2 with
        | Except.error e => Except.error (e, ⟨s.points, applyErase st2.to_rollback st2.maxima⟩)
        | Except.ok (st3, _) =>
          Except.ok ⟨s.points.eraseIdx it, applyErase st3.to_erase st3.maxima⟩

/-- The strict order underlying `compare_maxima`, as a proposition. -/
def MaxLt (p q : Pt) : Prop := cmpMaxP p q = true

/-- The points multiset is strictly ascending by argument (so arguments are
pairwise distinct: at most one value per argument). -/
def ArgSorted (l : List Pt) : Prop := l.Pairwise (fun p q => p.1 < q.1)

/-- The maxima set is strictly sorted by `compare_maxima`. -/
def MaxSorted (m : List Pt) : Prop := m.Pairwise MaxLt

/-- The representation invariant of a `FunctionMaxima` object between public
calls: points strictly sorted by argument, maxima strictly sorted by
`compare_maxima`, and the maxima set holding exactly the stored points whose
defined argument-adjacent neighbours are not greater. -/
def RepInv (s : FunctionMaxima) : Prop :=
  ArgSorted s.points ∧ MaxSorted s.maxima ∧
    ∀ x : Pt, x ∈ s.maxima ↔ MaxSpecMem s.points x

/-! ### Order facts about `compare_maxima` -/

theorem cmpMaxP_iff {l r : Pt} :
    cmpMaxP l r = true ↔ (r.2 < l.2 ∨ (l.2 = r.2 ∧ l.1 < r.1)) := by
  unfold cmpMaxP
  split_ifs with h1 h2
  · simp [h1]
  · simp
    omega
  · simp
    omega

theorem maxLt_irrefl (p : Pt) : ¬ MaxLt p p := by
  simp [MaxLt, cmpMaxP_iff]

theorem maxLt_asymm {p q : Pt} : MaxLt p q → ¬ MaxLt q p := by
  simp only [MaxLt, cmpMaxP_iff]
  omega

theorem maxLt_trans {p q r : Pt} : MaxLt p q → MaxLt q r → MaxLt p r := by
  simp only [MaxLt, cmpMaxP_iff]
  omega

theorem maxLt_total {p q : Pt} (h : p ≠ q) : MaxLt p q ∨ MaxLt q p := by
  have hne : p.1 ≠ q.1 ∨ p.2 ≠ q.2 := by
    by_contra hc
    push_neg at hc
    exact h (Prod.ext hc.1 hc.2)
  simp only [MaxLt, cmpMaxP_iff]
  omega

theorem maxLt_ne {p q : Pt} (h : MaxLt p q) : p ≠ q := by
  rintro rfl
  exact maxLt_irrefl p h

theorem maxSorted_nodup {m : List Pt} (h : MaxSorted m) : m.Nodup := by
  exact h.imp maxLt_ne

/-- Strictly `compare_maxima`-sorted lists with the same members are equal. -/
theorem maxSorted_ext {m1 m2 : List Pt} (h1 : MaxSorted m1) (h2 : MaxSorted m2)
    (hmem : ∀ x, x ∈ m1 ↔ x ∈ m2) : m1 = m2 := by
  have hperm : m1.Perm m2 :=
    (List.perm_ext_iff_of_nodup (maxSorted_nodup h1) (maxSorted_nodup h2)).mpr hmem
  have hanti : IsAntisymm Pt MaxLt := ⟨fun _ _ hab hba => absurd hba (maxLt_asymm hab)⟩
  exact @List.eq_of_perm_of_sorted _ _ hanti _ _ hperm h1 h2

/-! ### `maxima.find` and `maxima.insert` -/

theorem maxFindP_iff {m : List Pt} {p : Pt} : maxFindP m p = true ↔ p ∈ m := by
  unfold maxFindP
  simp only [List.any_eq_true, Bool.and_eq_true, Bool.not_eq_true']
  constructor
  · rintro ⟨q, hq, h1, h2⟩
    by_cases hpq : q = p
    · exact hpq ▸ hq
    · rcases maxLt_total hpq with h | h
      · exact absurd h (by simp [MaxLt, h1])
      · exact absurd h (by simp [MaxLt, h2])
  · intro hp
    refine ⟨p, hp, ?_, ?_⟩
    · have := maxLt_irrefl p
      simpa [MaxLt] using this
    · have := maxLt_irrefl p
      simpa [MaxLt] using this

theorem mem_maxInsertP {m : List Pt} {p x : Pt} :
    x ∈ maxInsertP m p ↔ x = p ∨ x ∈ m := by
  induction m with
  | nil => simp [maxInsertP]
  | cons q rest ih =>
    unfold maxInsertP
    split_ifs with h
    · simp [or_comm, or_assoc, or_left_comm]
    · simp only [List.mem_cons, ih]
      tauto

theorem maxSorted_maxInsertP {m : List Pt} {p : Pt} (hs : MaxSorted m) (hp : p ∉ m) :
    MaxSorted (maxInsertP m p) := by
  induction m with
  | nil => simp [maxInsertP, MaxSorted]
  | cons q rest ih =>
    rw [MaxSorted, List.pairwise_cons] at hs
    unfold maxInsertP
    split_ifs with h
    · refine List.Pairwise.cons ?_ (List.Pairwise.cons hs.1 hs.2)
      intro b hb
      rcases List.mem_cons.mp hb with rfl | hb
      · exact h
      · exact maxLt_trans h (hs.1 b hb)
    · have hpq : p ≠ q := fun hh => hp (hh ▸ List.mem_cons_self _ _)
      have hqp : MaxLt q p := by
        rcases maxLt_total hpq with h' | h'
        · exact absurd h' h
        · exact h'
      refine List.Pairwise.cons ?_ (ih hs.2 (fun hh => hp (List.mem_cons_of_mem _ hh)))
      intro b hb
      rcases mem_maxInsertP.mp hb with rfl | hb
      · exact hqp
      · exact hs.1 b hb

/-! ### `erase_from_maxima` / `rollback_maxima` -/

theorem applyErase_sublist (buf : List (Option Pt)) (m : List Pt) :
    (applyErase buf m).Sublist m := by
  induction buf generalizing m with
  | nil => simp [applyErase]
  | cons o buf ih =>
    rcases o with _ | p
    · simpa [applyErase] using ih m
    · exact List.Sublist.trans (by simpa [applyErase] using ih (m.erase p)) (List.erase_sublist p m)

theorem maxSorted_applyErase {buf : List (Option Pt)} {m : List Pt} (hs : MaxSorted m) :
    MaxSorted (applyErase buf m) :=
  List.Pairwise.sublist (applyErase_sublist buf m) hs

theorem mem_applyErase {buf : List (Option Pt)} {m : List Pt} (hn : m.Nodup) {x : Pt} :
    x ∈ applyErase buf m ↔ x ∈ m ∧ ∀ p : Pt, some p ∈ buf → x ≠ p := by
  induction buf generalizing m with
  | nil => simp [applyErase]
  | cons o buf ih =>
    rcases o with _ | p
    · rw [show applyErase (none :: buf) m = applyErase buf m from rfl, ih hn]
      simp
    · rw [show applyErase (some p :: buf) m = applyErase buf (m.erase p) from rfl,
        ih (hn.erase p)]
      rw [hn.mem_erase_iff]
      constructor
      · rintro ⟨⟨hxp, hxm⟩, hrest⟩
        refine ⟨hxm, ?_⟩
        intro q hq
        rcases List.mem_cons.mp hq with hq | hq
        · cases hq
          exact hxp
        · exact hrest q hq
      · rintro ⟨hxm, hall⟩
        exact ⟨⟨hall p (List.mem_cons_self _ _), hxm⟩, fun q hq => hall q (List.mem_cons_of_mem _ hq)⟩

/-! ### `points.find` and `points.insert` on the argument-sorted multiset -/

theorem find_arg_le (l : List Pt) (a : Int) : find_arg l a ≤ l.length := by
  induction l with
  | nil => simp [find_arg]
  | cons p rest ih =>
    unfold find_arg
    split_ifs
    · simp
    · simp
      omega

theorem find_arg_eq_length {l : List Pt} {a : Int} :
    find_arg l a = l.length ↔ ∀ p ∈ l, p.1 ≠ a := by
  induction l with
  | nil => simp [find_arg]
  | cons p rest ih =>
    unfold find_arg
    split_ifs with h
    · simp [h]
    · have hle := find_arg_le rest a
      simp only [List.length_cons, List.mem_cons]
      constructor
      · intro heq
        have : find_arg rest a = rest.length := by omega
        intro q hq
        rcases hq with rfl | hq
        · exact h
        · exact (ih.mp this) q hq
      · intro hall
        have : find_arg rest a = rest.length := ih.mpr (fun q hq => hall q (Or.inr hq))
        omega

theorem find_arg_lt_decomp {l : List Pt} {a : Int} (h : find_arg l a < l.length) :
    ∃ L1 p L2, l = L1 ++ p :: L2 ∧ p.1 = a ∧ find_arg l a = L1.length := by
  induction l with
  | nil => simp at h
  | cons q rest ih =>
    by_cases hq : q.1 = a
    · exact ⟨[], q, rest, by simp, hq, by simp [find_arg, hq]⟩
    · have h' : find_arg rest a < rest.length := by
        have := h
        unfold find_arg at this
        rw [if_neg hq] at this
        simpa using this
      obtain ⟨L1, p, L2, rfl, hp, hfind⟩ := ih h'
      refine ⟨q :: L1, p, L2, by simp, hp, ?_⟩
      unfold find_arg
      rw [if_neg hq, hfind]
      simp

theorem find_arg_append {L1 rest : List Pt} {a : Int} (h : ∀ q ∈ L1, q.1 ≠ a) :
    find_arg (L1 ++ rest) a = L1.length + find_arg rest a := by
  induction L1 with
  | nil => simp
  | cons q L1 ih =>
    have hq : q.1 ≠ a := h q (List.mem_cons_self _ _)
    simp only [List.cons_append]
    rw [show find_arg (q :: (L1 ++ rest)) a
        = if q.1 = a then 0 else find_arg (L1 ++ rest) a + 1 from rfl]
    rw [if_neg hq, ih (fun x hx => h x (List.mem_cons_of_mem _ hx))]
    simp only [List.length_cons]
    omega

theorem find_arg_cons_eq {p : Pt} {L2 : List Pt} {a : Int} (h : p.1 = a) :
    find_arg (p :: L2) a = 0 := by
  unfold find_arg
  rw [if_pos h]

theorem split_not_mem {l : List Pt} {a : Int} (hs : ArgSorted l) (h : ∀ q ∈ l, q.1 ≠ a) :
    ∃ L1 L2, l = L1 ++ L2 ∧ (∀ q ∈ L1, q.1 < a) ∧ (∀ q ∈ L2, a < q.1) := by
  induction l with
  | nil => exact ⟨[], [], by simp, by simp, by simp⟩
  | cons q rest ih =>
    rw [ArgSorted, List.pairwise_cons] at hs
    have hq : q.1 ≠ a := h q (List.mem_cons_self _ _)
    rcases lt_or_gt_of_ne hq with hlt | hgt
    · obtain ⟨L1, L2, rfl, h1, h2⟩ := ih hs.2 (fun x hx => h x (List.mem_cons_of_mem _ hx))
      refine ⟨q :: L1, L2, by simp, ?_, h2⟩
      intro x hx
      rcases List.mem_cons.mp hx with rfl | hx
      · exact hlt
      · exact h1 x hx
    · refine ⟨[], q :: rest, by simp, by simp, ?_⟩
      intro x hx
      rcases List.mem_cons.mp hx with rfl | hx
      · exact hgt
      · exact lt_trans hgt (hs.1 x hx)

theorem insertUB_skip {L1 rest : List Pt} {p : Pt} (h : ∀ q ∈ L1, ¬(p.1 < q.1)) :
    insertUB (L1 ++ rest) p = ((insertUB rest p).1 + L1.length, L1 ++ (insertUB rest p).2) := by
  induction L1 with
  | nil => simp
  | cons q L1 ih =>
    have hq := h q (List.mem_cons_self _ _)
    simp only [List.cons_append]
    have hstep : insertUB (q :: (L1 ++ rest)) p
        = ((insertUB (L1 ++ rest) p).1 + 1, q :: (insertUB (L1 ++ rest) p).2) := by
      conv_lhs => unfold insertUB
      rw [if_neg hq]
    rw [hstep, ih (fun x hx => h x (List.mem_cons_of_mem _ hx))]
    simp only [List.length_cons, Prod.mk.injEq]
    constructor
    · omega
    · trivial

theorem insertUB_head {L2 : List Pt} {p : Pt} (h : ∀ q ∈ L2, p.1 < q.1) :
    insertUB L2 p = (0, p :: L2) := by
  cases L2 with
  | nil => rfl
  | cons q rest =>
    unfold insertUB
    rw [if_pos (h q (List.mem_cons_self _ _))]

theorem insertUB_found {L1 L2 : List Pt} {pold : Pt} {a v : Int}
    (hL1 : ∀ q ∈ L1, q.1 < a) (hL2 : ∀ q ∈ L2, a < q.1) (hp : pold.1 = a) :
    insertUB (L1 ++ pold :: L2) (a, v) = (L1.length + 1, L1 ++ pold :: (a, v) :: L2) := by
  have hskip : ∀ q ∈ L1 ++ [pold], ¬((a : Int) < q.1) := by
    intro q hq
    rcases List.mem_append.mp hq with hq | hq
    · exact not_lt_of_gt (hL1 q hq)
    · simp at hq
      subst hq
      rw [hp]
      exact lt_irrefl a
  have h1 : L1 ++ pold :: L2 = (L1 ++ [pold]) ++ L2 := by simp
  rw [h1, insertUB_skip hskip, insertUB_head hL2]
  simp

theorem insertUB_notfound {L1 L2 : List Pt} {a v : Int}
    (hL1 : ∀ q ∈ L1, q.1 < a) (hL2 : ∀ q ∈ L2, a < q.1) :
    insertUB (L1 ++ L2) (a, v) = (L1.length, L1 ++ (a, v) :: L2) := by
  have hskip : ∀ q ∈ L1, ¬((a : Int) < q.1) := fun q hq => not_lt_of_gt (hL1 q hq)
  rw [insertUB_skip hskip, insertUB_head hL2]
  simp

theorem eraseIdx_append_length {L1 rest : List Pt} {z : Pt} :
    (L1 ++ z :: rest).eraseIdx L1.length = L1 ++ rest := by
  induction L1 with
  | nil => simp
  | cons q L1 ih => simp [List.eraseIdx, ih]

/-! ### Facts about `ArgSorted` around a decomposition -/

theorem argSorted_mid {L1 L2 : List Pt} {p : Pt} (h : ArgSorted (L1 ++ p :: L2)) :
    (∀ q ∈ L1, q.1 < p.1) ∧ (∀ q ∈ L2, p.1 < q.1) := by
  rw [ArgSorted, List.pairwise_append] at h
  obtain ⟨h1, h2, hx⟩ := h
  rw [List.pairwise_cons] at h2
  exact ⟨fun q hq => hx q hq p (List.mem_cons_self _ _), h2.1⟩

theorem argSorted_replace {L1 L2 : List Pt} {p p' : Pt} (h : ArgSorted (L1 ++ p :: L2))
    (hp : p'.1 = p.1) : ArgSorted (L1 ++ p' :: L2) := by
  rw [ArgSorted, List.pairwise_append] at h ⊢
  obtain ⟨h1, h2, hx⟩ := h
  rw [List.pairwise_cons] at h2 ⊢
  refine ⟨h1, ⟨by rw [hp]; exact h2.1, h2.2⟩, ?_⟩
  intro x hx1 y hy
  rcases List.mem_cons.mp hy with rfl | hy
  · rw [hp]
    exact hx x hx1 p (List.mem_cons_self _ _)
  · exact hx x hx1 y (List.mem_cons_of_mem _ hy)

theorem argSorted_drop_mid {L1 L2 : List Pt} {p : Pt} (h : ArgSorted (L1 ++ p :: L2)) :
    ArgSorted (L1 ++ L2) := by
  rw [ArgSorted, List.pairwise_append] at h ⊢
  obtain ⟨h1, h2, hx⟩ := h
  rw [List.pairwise_cons] at h2
  exact ⟨h1, h2.2, fun x hx1 y hy => hx x hx1 y (List.mem_cons_of_mem _ hy)⟩

theorem argSorted_insert_mid {L1 L2 : List Pt} {a v : Int}
    (hL1 : ∀ q ∈ L1, q.1 < a) (hL2 : ∀ q ∈ L2, a < q.1) (h : ArgSorted (L1 ++ L2)) :
    ArgSorted (L1 ++ (a, v) :: L2) := by
  rw [ArgSorted, List.pairwise_append] at h ⊢
  obtain ⟨h1, h2, hx⟩ := h
  rw [List.pairwise_cons]
  refine ⟨h1, ⟨hL2, h2⟩, ?_⟩
  intro x hx1 y hy
  rcases List.mem_cons.mp hy with rfl | hy
  · exact hL1 x hx1
  · exact hx x hx1 y hy

/-! ### Buffer slot lemmas -/

theorem some_mem_set {l : List (Option Pt)} {i : Nat} {q : Pt}
    (hi : i < l.length) (hnone : l.getD i none = none) {x : Pt} :
    some x ∈ l.set i (some q) ↔ x = q ∨ some x ∈ l := by
  induction l generalizing i with
  | nil => simp at hi
  | cons o rest ih =>
    cases i with
    | zero =>
      simp only [List.getD_cons_zero] at hnone
      subst hnone
      simp [List.set]
    | succ i =>
      simp only [List.getD_cons_succ] at hnone
      simp only [List.length_cons, Nat.succ_lt_succ_iff] at hi
      simp [List.set, ih hi hnone]
      tauto

theorem getD_set_ne_slot {l : List (Option Pt)} {i j : Nat} {v : Option Pt} (h : i ≠ j) :
    (l.set i v).getD j none = l.getD j none := by
  induction l generalizing i j with
  | nil => simp
  | cons o rest ih =>
    cases i with
    | zero =>
      cases j with
      | zero => omega
      | succ j => simp [List.set]
    | succ i =>
      cases j with
      | zero => simp [List.set]
      | succ j =>
        simp only [List.set, List.getD_cons_succ]
        exact ih (by omega)

theorem some_not_mem_replicate {n : Nat} {x : Pt} :
    ¬ (some x ∈ List.replicate n (none : Option Pt)) := by
  simp [List.mem_replicate]

theorem getD_replicate_none {n j : Nat} :
    (List.replicate n (none : Option Pt)).getD j none = none := by
  induction n generalizing j with
  | zero => simp
  | succ n ih =>
    cases j with
    | zero => simp [List.replicate]
    | succ j => simp [List.replicate, ih]

/-! ### The effect of one `conditional_add_new_maximum` call -/

theorem conditional_addP_spec (pts : List Pt) (it prev i : Nat) (st : MB)
    (hsort : MaxSorted st.maxima)
    (hi_e : i < st.to_erase.length) (hi_r : i < st.to_rollback.length)
    (hnone_e : st.to_erase.getD i none = none) (hnone_r : st.to_rollback.getD i none = none) :
    MaxSorted (conditional_addP pts it prev i st).maxima ∧
    (∀ x, x ∈ (conditional_addP pts it prev i st).maxima ↔
      (x ∈ st.maxima ∨ (¬(it = pts.length ∨ it = prev) ∧ x = pts.getD it dpt ∧
        is_maximumP pts it prev = true ∧ x ∉ st.maxima))) ∧
    (∀ x, some x ∈ (conditional_addP pts it prev i st).to_erase ↔
      (some x ∈ st.to_erase ∨ (¬(it = pts.length ∨ it = prev) ∧ x = pts.getD it dpt ∧
        is_maximumP pts it prev = false ∧ x ∈ st.maxima))) ∧
    (∀ x, some x ∈ (conditional_addP pts it prev i st).to_rollback ↔
      (some x ∈ st.to_rollback ∨ (¬(it = pts.length ∨ it = prev) ∧ x = pts.getD it dpt ∧
        is_maximumP pts it prev = true ∧ x ∉ st.maxima))) ∧
    (conditional_addP pts it prev i st).to_erase.length = st.to_erase.length ∧
    (conditional_addP pts it prev i st).to_rollback.length = st.to_rollback.length ∧
    (∀ j, j ≠ i →
      (conditional_addP pts it prev i st).to_erase.getD j none = st.to_erase.getD j none) ∧
    (∀ j, j ≠ i →
      (conditional_addP pts it prev i st).to_rollback.getD j none = st.to_rollback.getD j none) := by
  have hgetd : pts[it]?.getD dpt = pts.getD it dpt := (List.getD_eq_getElem?_getD pts it dpt).symm
  unfold conditional_addP
  by_cases hguard : it = pts.length ∨ it = prev
  · rw [if_pos (by simpa using hguard)]
    refine ⟨hsort, ?_, ?_, ?_, rfl, rfl, fun j _ => rfl, fun j _ => rfl⟩
    all_goals intro x
    all_goals simp [hguard]
  · rw [if_neg (by simpa using hguard)]
    simp only [hgetd]
    by_cases hmax : is_maximumP pts it prev = true
    · rw [if_pos hmax]
      by_cases hfind : maxFindP st.maxima (pts.getD it dpt) = true
      · rw [if_neg (by rw [hfind]; decide)]
        have hmem := maxFindP_iff.mp hfind
        refine ⟨hsort, ?_, ?_, ?_, rfl, rfl, fun j _ => rfl, fun j _ => rfl⟩
        · intro x
          constructor
          · exact fun hx => Or.inl hx
          · rintro (hx | ⟨_, rfl, _, hnot⟩)
            · exact hx
            · exact absurd hmem hnot
        · intro x
          simp [hmax]
        · intro x
          constructor
          · exact fun hx => Or.inl hx
          · rintro (hx | ⟨_, rfl, _, hnot⟩)
            · exact hx
            · exact absurd hmem hnot
      · have hf : maxFindP st.maxima (pts.getD it dpt) = false := (Bool.not_eq_true _) ▸ hfind
        rw [if_pos (by rw [hf]; rfl)]
        have hmem : pts.getD it dpt ∉ st.maxima := fun hm => hfind (maxFindP_iff.mpr hm)
        refine ⟨?_, ?_, ?_, ?_, rfl, ?_, fun j hj => rfl, fun j hj => ?_⟩
        · exact maxSorted_maxInsertP hsort hmem
        · intro x
          show x ∈ maxInsertP st.maxima (pts.getD it dpt) ↔ _
          simp only [mem_maxInsertP]
          constructor
          · rintro (rfl | hx)
            · by_cases hxm : pts.getD it dpt ∈ st.maxima
              · exact Or.inl hxm
              · exact Or.inr ⟨hguard, rfl, hmax, hxm⟩
            · exact Or.inl hx
          · rintro (hx | ⟨_, rfl, _, _⟩)
            · exact Or.inr hx
            · exact Or.inl rfl
        · intro x
          simp [hmax]
        · intro x
          show some x ∈ st.to_rollback.set i (some (pts.getD it dpt)) ↔ _
          rw [some_mem_set hi_r hnone_r]
          constructor
          · rintro (rfl | hx)
            · exact Or.inr ⟨hguard, rfl, hmax, hmem⟩
            · exact Or.inl hx
          · rintro (hx | ⟨_, rfl, _, _⟩)
            · exact Or.inr hx
            · exact Or.inl rfl
        · show (st.to_rollback.set i (some (pts.getD it dpt))).length = st.to_rollback.length
          simp
        · show (st.to_rollback.set i (some (pts.getD it dpt))).getD j none = st.to_rollback.getD j none
          exact getD_set_ne_slot (fun hh => hj hh.symm)
    · rw [if_neg hmax]
      rw [Bool.not_eq_true] at hmax
      by_cases hfind : maxFindP st.maxima (pts.getD it dpt) = true
      · rw [if_pos hfind]
        have hmem := maxFindP_iff.mp hfind
        refine ⟨hsort, ?_, ?_, ?_, ?_, rfl, fun j hj => ?_, fun j _ => rfl⟩
        · intro x
          simp [hmax]
        · intro x
          show some x ∈ st.to_erase.set i (some (pts.getD it dpt)) ↔ _
          rw [some_mem_set hi_e hnone_e]
          constructor
          · rintro (rfl | hx)
            · exact Or.inr ⟨hguard, rfl, hmax, hmem⟩
            · exact Or.inl hx
          · rintro (hx | ⟨_, rfl, _, _⟩)
            · exact Or.inr hx
            · exact Or.inl rfl
        · intro x
          simp [hmax]
        · show (st.to_erase.set i (some (pts.getD it dpt))).length = st.to_erase.length
          simp
        · show (st.to_erase.set i (some (pts.getD it dpt))).getD j none = st.to_erase.getD j none
          exact getD_set_ne_slot (fun hh => hj hh.symm)
      · rw [if_neg hfind]
        have hmem : pts.getD it dpt ∉ st.maxima := fun hm => hfind (maxFindP_iff.mpr hm)
        refine ⟨hsort, ?_, ?_, ?_, rfl, rfl, fun j _ => rfl, fun j _ => rfl⟩
        · intro x
          simp [hmax]
        · intro x
          constructor
          · exact fun hx => Or.inl hx
          · rintro (hx | ⟨_, rfl, _, hxm⟩)
            · exact hx
            · exact absurd hxm hmem
        · intro x
          simp [hmax]

/-! ### Evaluating the neighbour checks over list decompositions -/

theorem valAt_append_left {L X : List Pt} {i : Nat} (h : i < L.length) :
    valAt (L ++ X) i = valAt L i := by
  unfold valAt
  rw [List.getD_append _ _ _ _ h]

theorem valAt_append_right {L X : List Pt} {n j : Nat} (h : n = L.length + j) :
    valAt (L ++ X) n = valAt X j := by
  unfold valAt
  rw [List.getD_append_right _ _ _ _ (by omega)]
  congr 2
  omega

theorem getD_append_left_pt {L X : List Pt} {i : Nat} (h : i < L.length) :
    (L ++ X).getD i dpt = L.getD i dpt := List.getD_append _ _ _ _ h

theorem getD_append_right_pt {L X : List Pt} {n j : Nat} (h : n = L.length + j) :
    (L ++ X).getD n dpt = X.getD j dpt := by
  rw [List.getD_append_right _ _ _ _ (by omega)]
  congr 1
  omega

/-- Canonical form of the specification-side local-maximum test at the
decomposition point. -/
theorem isMaxSpec_mid (L1 L2 : List Pt) (p : Pt) :
    isMaxSpec (L1 ++ p :: L2) L1.length = true ↔
      ((L1.length = 0 ∨ ¬ p.2 < valAt L1 (L1.length - 1)) ∧
       (L2.length = 0 ∨ ¬ p.2 < valAt L2 0)) := by
  unfold isMaxSpec
  have hvp : valAt (L1 ++ p :: L2) L1.length = p.2 := by
    rw [valAt_append_right (j := 0) (by omega)]
    simp [valAt]
  have hlen : (L1 ++ p :: L2).length = L1.length + L2.length + 1 := by simp; omega
  simp only [Bool.and_eq_true, Bool.or_eq_true, decide_eq_true_eq, Bool.not_eq_true',
    decide_eq_false_iff_not, hvp]
  constructor
  · rintro ⟨h1, h2⟩
    constructor
    · rcases h1 with h1 | h1
      · exact Or.inl h1
      · by_cases hL1 : L1.length = 0
        · exact Or.inl hL1
        · refine Or.inr ?_
          rw [valAt_append_left (by omega)] at h1
          exact h1
    · rcases h2 with h2 | h2
      · rw [hlen] at h2
        left
        omega
      · by_cases hL2 : L2.length = 0
        · exact Or.inl hL2
        · refine Or.inr ?_
          rw [valAt_append_right (j := 1) (by omega)] at h2
          simpa [valAt] using h2
  · rintro ⟨h1, h2⟩
    constructor
    · rcases h1 with h1 | h1
      · exact Or.inl h1
      · by_cases hL1 : L1.length = 0
        · exact Or.inl hL1
        · refine Or.inr ?_
          rw [valAt_append_left (by omega)]
          exact h1
    · rcases h2 with h2 | h2
      · rw [hlen]
        left
        omega
      · refine Or.inr ?_
        rw [valAt_append_right (j := 1) (by omega)]
        simpa [valAt] using h2

theorem multi_is_beginning_iff {p prev : Nat} :
    multi_is_beginning p prev = true ↔ (p = 0 ∨ (p - 1 = prev ∧ p - 1 = 0)) := by
  unfold multi_is_beginning
  split_ifs with h1 h2 <;> simp_all <;> omega

theorem multi_is_ending_iff {len p prev : Nat} :
    multi_is_ending len p prev = true ↔ (p = len - 1 ∨ (p + 1 = prev ∧ p + 1 = len - 1)) := by
  unfold multi_is_ending
  split_ifs with h1 h2 <;> simp_all <;> omega

/-- Classifying the freshly inserted point during an overwriting
`custom_insert`: the transient list still holds the superseded old point
immediately before the new one, and the computed status coincides with the
specification-side status on the final list. -/
theorem ismax_found_new (L1 L2 : List Pt) (pold pnew : Pt) :
    (is_maximumP (L1 ++ pold :: pnew :: L2) (L1.length + 1) L1.length = true)
      ↔ (isMaxSpec (L1 ++ pnew :: L2) L1.length = true) := by
  have hlen : (L1 ++ pold :: pnew :: L2).length = L1.length + L2.length + 2 := by
    simp only [List.length_append, List.length_cons]
    omega
  rw [isMaxSpec_mid]
  unfold is_maximumP
  rw [Bool.and_eq_true]
  apply and_congr
  · unfold greater_than_prevP
    by_cases h0 : L1.length = 0
    · rw [if_pos (multi_is_beginning_iff.mpr (Or.inr ⟨by omega, by omega⟩))]
      simp [h0]
    · rw [if_neg (by rw [multi_is_beginning_iff]; omega)]
      have hmp : multi_prev (L1.length + 1) L1.length = L1.length - 1 := by
        unfold multi_prev
        rw [if_pos (by omega)]
        omega
      have hv1 : valAt (L1 ++ pold :: pnew :: L2) (L1.length + 1) = pnew.2 := by
        rw [valAt_append_right (j := 1) (by omega)]
        simp [valAt]
      have hv2 : valAt (L1 ++ pold :: pnew :: L2) (L1.length - 1) = valAt L1 (L1.length - 1) :=
        valAt_append_left (by omega)
      rw [hmp, hv1, hv2]
      simp [h0]
  · unfold greater_than_nextP
    by_cases h2 : L2.length = 0
    · rw [if_pos (multi_is_ending_iff.mpr (Or.inl (by rw [hlen]; omega)))]
      simp [h2]
    · rw [if_neg (by rw [multi_is_ending_iff, hlen]; omega)]
      have hmn : multi_next (L1 ++ pold :: pnew :: L2).length (L1.length + 1) L1.length
          = L1.length + 2 := by
        unfold multi_next
        rw [if_neg (by rw [hlen]; simp only [Bool.or_eq_true, decide_eq_true_eq]; omega),
          if_neg (by omega)]
      have hv1 : valAt (L1 ++ pold :: pnew :: L2) (L1.length + 1) = pnew.2 := by
        rw [valAt_append_right (j := 1) (by omega)]
        simp [valAt]
      have hv2 : valAt (L1 ++ pold :: pnew :: L2) (L1.length + 2) = valAt L2 0 := by
        rw [valAt_append_right (j := 2) (by omega)]
        simp [valAt]
      rw [hmn, hv1, hv2]
      simp [h2]

/-- Classifying the right neighbour of the freshly inserted point during an
overwriting `custom_insert`. -/
theorem ismax_found_right (L1 L2 : List Pt) (pold pnew y : Pt) :
    (is_maximumP (L1 ++ pold :: pnew :: y :: L2) (L1.length + 2) L1.length = true)
      ↔ (isMaxSpec (L1 ++ pnew :: y :: L2) (L1.length + 1) = true) := by
  have hlen : (L1 ++ pold :: pnew :: y :: L2).length = L1.length + L2.length + 3 := by
    simp only [List.length_append, List.length_cons]
    omega
  rw [show L1 ++ pnew :: y :: L2 = (L1 ++ [pnew]) ++ y :: L2 by simp,
    show L1.length + 1 = (L1 ++ [pnew]).length by simp]
  rw [isMaxSpec_mid]
  unfold is_maximumP
  rw [Bool.and_eq_true]
  apply and_congr
  · unfold greater_than_prevP
    rw [if_neg (by rw [multi_is_beginning_iff]; omega)]
    have hmp : multi_prev (L1.length + 2) L1.length = L1.length + 1 := by
      unfold multi_prev
      rw [if_neg (by omega)]
      omega
    have hv1 : valAt (L1 ++ pold :: pnew :: y :: L2) (L1.length + 2) = y.2 := by
      rw [valAt_append_right (j := 2) (by omega)]
      simp [valAt]
    have hv2 : valAt (L1 ++ pold :: pnew :: y :: L2) (L1.length + 1) = pnew.2 := by
      rw [valAt_append_right (j := 1) (by omega)]
      simp [valAt]
    have hv3 : valAt (L1 ++ [pnew]) ((L1 ++ [pnew]).length - 1) = pnew.2 := by
      rw [show (L1 ++ [pnew]).length - 1 = L1.length + 0 by simp]
      rw [valAt_append_right (j := 0) rfl]
      simp [valAt]
    rw [hmp, hv1, hv2, hv3]
    simp
  · unfold greater_than_nextP
    by_cases h2 : L2.length = 0
    · rw [if_pos (multi_is_ending_iff.mpr (Or.inl (by rw [hlen]; omega)))]
      simp [h2]
    · rw [if_neg (by rw [multi_is_ending_iff, hlen]; omega)]
      have hmn : multi_next (L1 ++ pold :: pnew :: y :: L2).length (L1.length + 2) L1.length
          = L1.length + 3 := by
        unfold multi_next
        rw [if_neg (by rw [hlen]; simp only [Bool.or_eq_true, decide_eq_true_eq]; omega),
          if_neg (by omega)]
      have hv1 : valAt (L1 ++ pold :: pnew :: y :: L2) (L1.length + 2) = y.2 := by
        rw [valAt_append_right (j := 2) (by omega)]
        simp [valAt]
      have hv2 : valAt (L1 ++ pold :: pnew :: y :: L2) (L1.length + 3) = valAt L2 0 := by
        rw [valAt_append_right (j := 3) (by omega)]
        simp [valAt]
      rw [hmn, hv1, hv2]
      simp [h2]

/-- Classifying the left neighbour of the freshly inserted point during an
overwriting `custom_insert`. -/
theorem ismax_found_left (L1 L2 : List Pt) (x pold pnew : Pt) :
    (is_maximumP (L1 ++ x :: pold :: pnew :: L2) L1.length (L1.length + 1) = true)
      ↔ (isMaxSpec (L1 ++ x :: pnew :: L2) L1.length = true) := by
  have hlen : (L1 ++ x :: pold :: pnew :: L2).length = L1.length + L2.length + 3 := by
    simp only [List.length_append, List.length_cons]
    omega
  rw [show L1 ++ x :: pnew :: L2 = L1 ++ x :: (pnew :: L2) from rfl, isMaxSpec_mid]
  unfold is_maximumP
  rw [Bool.and_eq_true]
  apply and_congr
  · unfold greater_than_prevP
    by_cases h0 : L1.length = 0
    · rw [if_pos (multi_is_beginning_iff.mpr (Or.inl h0))]
      simp [h0]
    · rw [if_neg (by rw [multi_is_beginning_iff]; omega)]
      have hmp : multi_prev L1.length (L1.length + 1) = L1.length - 1 := by
        unfold multi_prev
        rw [if_neg (by omega)]
      have hv1 : valAt (L1 ++ x :: pold :: pnew :: L2) L1.length = x.2 := by
        rw [valAt_append_right (j := 0) (by omega)]
        simp [valAt]
      have hv2 : valAt (L1 ++ x :: pold :: pnew :: L2) (L1.length - 1) = valAt L1 (L1.length - 1) :=
        valAt_append_left (by omega)
      rw [hmp, hv1, hv2]
      simp [h0]
  · unfold greater_than_nextP
    rw [if_neg (by rw [multi_is_ending_iff, hlen]; omega)]
    have hmn : multi_next (L1 ++ x :: pold :: pnew :: L2).length L1.length (L1.length + 1)
        = L1.length + 2 := by
      unfold multi_next
      rw [if_neg (by rw [hlen]; simp only [Bool.or_eq_true, decide_eq_true_eq]; omega),
        if_pos (by omega)]
    have hv1 : valAt (L1 ++ x :: pold :: pnew :: L2) L1.length = x.2 := by
      rw [valAt_append_right (j := 0) (by omega)]
      simp [valAt]
    have hv2 : valAt (L1 ++ x :: pold :: pnew :: L2) (L1.length + 2) = pnew.2 := by
      rw [valAt_append_right (j := 2) (by omega)]
      simp [valAt]
    rw [hmn, hv1, hv2]
    simp [valAt]

/-- Classifying the freshly inserted point during a fresh-argument
`custom_insert` (the `previous` iterator is `end`, i.e. the list length). -/
theorem ismax_notfound_new (L1 L2 : List Pt) (pnew : Pt) :
    (is_maximumP (L1 ++ pnew :: L2) L1.length (L1 ++ pnew :: L2).length = true)
      ↔ (isMaxSpec (L1 ++ pnew :: L2) L1.length = true) := by
  have hlen : (L1 ++ pnew :: L2).length = L1.length + L2.length + 1 := by
    simp only [List.length_append, List.length_cons]
    omega
  rw [isMaxSpec_mid]
  unfold is_maximumP
  rw [Bool.and_eq_true]
  apply and_congr
  · unfold greater_than_prevP
    by_cases h0 : L1.length = 0
    · rw [if_pos (multi_is_beginning_iff.mpr (Or.inl h0))]
      simp [h0]
    · rw [if_neg (by rw [multi_is_beginning_iff, hlen]; omega)]
      have hmp : multi_prev L1.length (L1 ++ pnew :: L2).length = L1.length - 1 := by
        unfold multi_prev
        rw [if_neg (by rw [hlen]; omega)]
      have hv1 : valAt (L1 ++ pnew :: L2) L1.length = pnew.2 := by
        rw [valAt_append_right (j := 0) (by omega)]
        simp [valAt]
      have hv2 : valAt (L1 ++ pnew :: L2) (L1.length - 1) = valAt L1 (L1.length - 1) :=
        valAt_append_left (by omega)
      rw [hmp, hv1, hv2]
      simp [h0]
  · unfold greater_than_nextP
    by_cases h2 : L2.length = 0
    · rw [if_pos (multi_is_ending_iff.mpr (Or.inl (by rw [hlen]; omega)))]
      simp [h2]
    · rw [if_neg (by rw [multi_is_ending_iff, hlen]; omega)]
      have hmn : multi_next (L1 ++ pnew :: L2).length L1.length (L1 ++ pnew :: L2).length
          = L1.length + 1 := by
        unfold multi_next
        rw [if_neg (by rw [hlen]; simp only [Bool.or_eq_true, decide_eq_true_eq]; omega),
          if_neg (by rw [hlen]; omega)]
      have hv1 : valAt (L1 ++ pnew :: L2) L1.length = pnew.2 := by
        rw [valAt_append_right (j := 0) (by omega)]
        simp [valAt]
      have hv2 : valAt (L1 ++ pnew :: L2) (L1.length + 1) = valAt L2 0 := by
        rw [valAt_append_right (j := 1) (by omega)]
        simp [valAt]
      rw [hmn, hv1, hv2]
      simp [h2]

/-- Classifying the right neighbour during a fresh-argument `custom_insert`. -/
theorem ismax_notfound_right (L1 L2 : List Pt) (pnew y : Pt) :
    (is_maximumP (L1 ++ pnew :: y :: L2) (L1.length + 1) (L1 ++ pnew :: y :: L2).length = true)
      ↔ (isMaxSpec (L1 ++ pnew :: y :: L2) (L1.length + 1) = true) := by
  have hlen : (L1 ++ pnew :: y :: L2).length = L1.length + L2.length + 2 := by
    simp only [List.length_append, List.length_cons]
    omega
  have hv3 : valAt (L1 ++ [pnew]) ((L1 ++ [pnew]).length - 1) = pnew.2 := by
    rw [show (L1 ++ [pnew]).length - 1 = L1.length + 0 by simp]
    rw [valAt_append_right (j := 0) rfl]
    simp [valAt]
  have hRHS : (isMaxSpec (L1 ++ pnew :: y :: L2) (L1.length + 1) = true)
      ↔ ((¬ y.2 < pnew.2) ∧ (L2.length = 0 ∨ ¬ y.2 < valAt L2 0)) := by
    rw [show L1 ++ pnew :: y :: L2 = (L1 ++ [pnew]) ++ y :: L2 by simp,
      show L1.length + 1 = (L1 ++ [pnew]).length by simp, isMaxSpec_mid, hv3]
    simp
  rw [hRHS]
  unfold is_maximumP
  rw [Bool.and_eq_true]
  apply and_congr
  · unfold greater_than_prevP
    rw [if_neg (by rw [multi_is_beginning_iff, hlen]; omega)]
    have hmp : multi_prev (L1.length + 1) (L1 ++ pnew :: y :: L2).length = L1.length := by
      unfold multi_prev
      rw [if_neg (by rw [hlen]; omega)]
      omega
    have hv1 : valAt (L1 ++ pnew :: y :: L2) (L1.length + 1) = y.2 := by
      rw [valAt_append_right (j := 1) (by omega)]
      simp [valAt]
    have hv2 : valAt (L1 ++ pnew :: y :: L2) L1.length = pnew.2 := by
      rw [valAt_append_right (j := 0) (by omega)]
      simp [valAt]
    rw [hmp, hv1, hv2]
    simp
  · unfold greater_than_nextP
    by_cases h2 : L2.length = 0
    · rw [if_pos (multi_is_ending_iff.mpr (Or.inl (by rw [hlen]; omega)))]
      simp [h2]
    · rw [if_neg (by rw [multi_is_ending_iff, hlen]; omega)]
      have hmn : multi_next (L1 ++ pnew :: y :: L2).length (L1.length + 1)
          (L1 ++ pnew :: y :: L2).length = L1.length + 2 := by
        unfold multi_next
        rw [if_neg (by rw [hlen]; simp only [Bool.or_eq_true, decide_eq_true_eq]; omega),
          if_neg (by rw [hlen]; omega)]
      have hv1 : valAt (L1 ++ pnew :: y :: L2) (L1.length + 1) = y.2 := by
        rw [valAt_append_right (j := 1) (by omega)]
        simp [valAt]
      have hv2 : valAt (L1 ++ pnew :: y :: L2) (L1.length + 2) = valAt L2 0 := by
        rw [valAt_append_right (j := 2) (by omega)]
        simp [valAt]
      rw [hmn, hv1, hv2]
      simp [h2]

/-- Classifying the left neighbour during a fresh-argument `custom_insert`. -/
theorem ismax_notfound_left (L1 L2 : List Pt) (x pnew : Pt) :
    (is_maximumP (L1 ++ x :: pnew :: L2) L1.length (L1 ++ x :: pnew :: L2).length = true)
      ↔ (isMaxSpec (L1 ++ x :: pnew :: L2) L1.length = true) := by
  have hlen : (L1 ++ x :: pnew :: L2).length = L1.length + L2.length + 2 := by
    simp only [List.length_append, List.length_cons]
    omega
  rw [show L1 ++ x :: pnew :: L2 = L1 ++ x :: (pnew :: L2) from rfl, isMaxSpec_mid]
  unfold is_maximumP
  rw [Bool.and_eq_true]
  apply and_congr
  · unfold greater_than_prevP
    by_cases h0 : L1.length = 0
    · rw [if_pos (multi_is_beginning_iff.mpr (Or.inl h0))]
      simp [h0]
    · rw [if_neg (by rw [multi_is_beginning_iff, hlen]; omega)]
      have hmp : multi_prev L1.length (L1 ++ x :: pnew :: L2).length = L1.length - 1 := by
        unfold multi_prev
        rw [if_neg (by rw [hlen]; omega)]
      have hv1 : valAt (L1 ++ x :: pnew :: L2) L1.length = x.2 := by
        rw [valAt_append_right (j := 0) (by omega)]
        simp [valAt]
      have hv2 : valAt (L1 ++ x :: pnew :: L2) (L1.length - 1) = valAt L1 (L1.length - 1) :=
        valAt_append_left (by omega)
      rw [hmp, hv1, hv2]
      simp [h0]
  · unfold greater_than_nextP
    rw [if_neg (by rw [multi_is_ending_iff, hlen]; omega)]
    have hmn : multi_next (L1 ++ x :: pnew :: L2).length L1.length
        (L1 ++ x :: pnew :: L2).length = L1.length + 1 := by
      unfold multi_next
      rw [if_neg (by rw [hlen]; simp only [Bool.or_eq_true, decide_eq_true_eq]; omega),
        if_neg (by rw [hlen]; omega)]
    have hv1 : valAt (L1 ++ x :: pnew :: L2) L1.length = x.2 := by
      rw [valAt_append_right (j := 0) (by omega)]
      simp [valAt]
    have hv2 : valAt (L1 ++ x :: pnew :: L2) (L1.length + 1) = pnew.2 := by
      rw [valAt_append_right (j := 1) (by omega)]
      simp [valAt]
    rw [hmn, hv1, hv2]
    simp [valAt]

/-- Classifying the right neighbour of the erased point during `erase`:
the computed status coincides with the status on the list with the point
removed. -/
theorem ismax_erase_right (L1 L2 : List Pt) (p0 y : Pt) :
    (is_maximumP (L1 ++ p0 :: y :: L2) (L1.length + 1) L1.length = true)
      ↔ (isMaxSpec (L1 ++ y :: L2) L1.length = true) := by
  have hlen : (L1 ++ p0 :: y :: L2).length = L1.length + L2.length + 2 := by
    simp only [List.length_append, List.length_cons]
    omega
  rw [isMaxSpec_mid]
  unfold is_maximumP
  rw [Bool.and_eq_true]
  apply and_congr
  · unfold greater_than_prevP
    by_cases h0 : L1.length = 0
    · rw [if_pos (multi_is_beginning_iff.mpr (Or.inr ⟨by omega, by omega⟩))]
      simp [h0]
    · rw [if_neg (by rw [multi_is_beginning_iff]; omega)]
      have hmp : multi_prev (L1.length + 1) L1.length = L1.length - 1 := by
        unfold multi_prev
        rw [if_pos (by omega)]
        omega
      have hv1 : valAt (L1 ++ p0 :: y :: L2) (L1.length + 1) = y.2 := by
        rw [valAt_append_right (j := 1) (by omega)]
        simp [valAt]
      have hv2 : valAt (L1 ++ p0 :: y :: L2) (L1.length - 1) = valAt L1 (L1.length - 1) :=
        valAt_append_left (by omega)
      rw [hmp, hv1, hv2]
      simp [h0]
  · unfold greater_than_nextP
    by_cases h2 : L2.length = 0
    · rw [if_pos (multi_is_ending_iff.mpr (Or.inl (by rw [hlen]; omega)))]
      simp [h2]
    · rw [if_neg (by rw [multi_is_ending_iff, hlen]; omega)]
      have hmn : multi_next (L1 ++ p0 :: y :: L2).length (L1.length + 1) L1.length
          = L1.length + 2 := by
        unfold multi_next
        rw [if_neg (by rw [hlen]; simp only [Bool.or_eq_true, decide_eq_true_eq]; omega),
          if_neg (by omega)]
      have hv1 : valAt (L1 ++ p0 :: y :: L2) (L1.length + 1) = y.2 := by
        rw [valAt_append_right (j := 1) (by omega)]
        simp [valAt]
      have hv2 : valAt (L1 ++ p0 :: y :: L2) (L1.length + 2) = valAt L2 0 := by
        rw [valAt_append_right (j := 2) (by omega)]
        simp [valAt]
      rw [hmn, hv1, hv2]
      simp [h2]

/-- Classifying the left neighbour of the erased point during `erase`. -/
theorem ismax_erase_left (L1 L2 : List Pt) (x p0 : Pt) :
    (is_maximumP (L1 ++ x :: p0 :: L2) L1.length (L1.length + 1) = true)
      ↔ (isMaxSpec (L1 ++ x :: L2) L1.length = true) := by
  have hlen : (L1 ++ x :: p0 :: L2).length = L1.length + L2.length + 2 := by
    simp only [List.length_append, List.length_cons]
    omega
  rw [show L1 ++ x :: L2 = L1 ++ x :: L2 from rfl, isMaxSpec_mid]
  unfold is_maximumP
  rw [Bool.and_eq_true]
  apply and_congr
  · unfold greater_than_prevP
    by_cases h0 : L1.length = 0
    · rw [if_pos (multi_is_beginning_iff.mpr (Or.inl h0))]
      simp [h0]
    · rw [if_neg (by rw [multi_is_beginning_iff]; omega)]
      have hmp : multi_prev L1.length (L1.length + 1) = L1.length - 1 := by
        unfold multi_prev
        rw [if_neg (by omega)]
      have hv1 : valAt (L1 ++ x :: p0 :: L2) L1.length = x.2 := by
        rw [valAt_append_right (j := 0) (by omega)]
        simp [valAt]
      have hv2 : valAt (L1 ++ x :: p0 :: L2) (L1.length - 1) = valAt L1 (L1.length - 1) :=
        valAt_append_left (by omega)
      rw [hmp, hv1, hv2]
      simp [h0]
  · unfold greater_than_nextP
    by_cases h2 : L2.length = 0
    · rw [if_pos (multi_is_ending_iff.mpr (Or.inr ⟨by omega, by rw [hlen]; omega⟩))]
      simp [h2]
    · rw [if_neg (by rw [multi_is_ending_iff, hlen]; omega)]
      have hmn : multi_next (L1 ++ x :: p0 :: L2).length L1.length (L1.length + 1)
          = L1.length + 2 := by
        unfold multi_next
        rw [if_neg (by rw [hlen]; simp only [Bool.or_eq_true, decide_eq_true_eq]; omega),
          if_pos (by omega)]
      have hv1 : valAt (L1 ++ x :: p0 :: L2) L1.length = x.2 := by
        rw [valAt_append_right (j := 0) (by omega)]
        simp [valAt]
      have hv2 : valAt (L1 ++ x :: p0 :: L2) (L1.length + 2) = valAt L2 0 := by
        rw [valAt_append_right (j := 2) (by omega)]
        simp [valAt]
      rw [hmn, hv1, hv2]
      simp [h2]

/-! ### Index uniqueness and status transfer for untouched points -/

theorem argSorted_getD_inj {l : List Pt} (hs : ArgSorted l) {i j : Nat}
    (hi : i < l.length) (hj : j < l.length)
    (h : (l.getD i dpt).1 = (l.getD j dpt).1) : i = j := by
  rcases lt_trichotomy i j with hlt | heq | hgt
  · have := (List.pairwise_iff_getElem.mp hs) i j hi hj hlt
    rw [List.getD_eq_getElem _ _ hi, List.getD_eq_getElem _ _ hj] at h
    omega
  · exact heq
  · have := (List.pairwise_iff_getElem.mp hs) j i hj hi hgt
    rw [List.getD_eq_getElem _ _ hi, List.getD_eq_getElem _ _ hj] at h
    omega

theorem maxSpecMem_mem {l : List Pt} {x : Pt} (h : MaxSpecMem l x) : x ∈ l := by
  obtain ⟨i, hi, hx, _⟩ := h
  rw [← hx, List.getD_eq_getElem _ _ hi]
  exact List.getElem_mem _

theorem maxSpecMem_iff_idx {l : List Pt} (hs : ArgSorted l) {i : Nat} (hi : i < l.length)
    {x : Pt} (hx : l.getD i dpt = x) : MaxSpecMem l x ↔ isMaxSpec l i = true := by
  constructor
  · rintro ⟨i', hi', hx', hmax⟩
    have : i' = i := argSorted_getD_inj hs hi' hi (by rw [hx', hx])
    exact this ▸ hmax
  · intro h
    exact ⟨i, hi, hx, h⟩

theorem isMaxSpec_left_transfer {L1 : List Pt} (X X' : List Pt) {i : Nat}
    (h : i + 1 < L1.length) :
    isMaxSpec (L1 ++ X) i = isMaxSpec (L1 ++ X') i := by
  have key : ∀ Y : List Pt, isMaxSpec (L1 ++ Y) i
      = ((decide (i = 0) || !decide (valAt L1 i < valAt L1 (i - 1))) &&
         (!decide (valAt L1 i < valAt L1 (i + 1)))) := by
    intro Y
    unfold isMaxSpec
    rw [valAt_append_left (show i < L1.length by omega),
      valAt_append_left (show i - 1 < L1.length by omega),
      valAt_append_left (show i + 1 < L1.length by omega)]
    have hd : decide (i = (L1 ++ Y).length - 1) = false := by
      simp only [List.length_append, decide_eq_false_iff_not]
      omega
    rw [hd]
    simp
  rw [key X, key X']

theorem isMaxSpec_right_transfer (X X' : List Pt) {L2 : List Pt} {j : Nat}
    (h1 : 1 ≤ j) (h2 : j < L2.length) :
    isMaxSpec (X ++ L2) (X.length + j) = isMaxSpec (X' ++ L2) (X'.length + j) := by
  have key : ∀ Y : List Pt, isMaxSpec (Y ++ L2) (Y.length + j)
      = ((!decide (valAt L2 j < valAt L2 (j - 1))) &&
         (decide (j = L2.length - 1) || !decide (valAt L2 j < valAt L2 (j + 1)))) := by
    intro Y
    unfold isMaxSpec
    rw [valAt_append_right (n := Y.length + j) (j := j) rfl,
      valAt_append_right (n := Y.length + j - 1) (j := j - 1) (by omega),
      valAt_append_right (n := Y.length + j + 1) (j := j + 1) (by omega)]
    have hd0 : decide (Y.length + j = 0) = false := by
      simp only [decide_eq_false_iff_not]
      omega
    have hd1 : decide (Y.length + j = (Y ++ L2).length - 1) = decide (j = L2.length - 1) := by
      apply decide_eq_decide.mpr
      simp only [List.length_append]
      omega
    rw [hd0, hd1]
    simp
  rw [key X, key X']

theorem mem_idx_of_ne_last {L1 : List Pt} {q : Pt} (hq : q ∈ L1)
    (hne : q ≠ L1.getD (L1.length - 1) dpt) :
    ∃ i, i + 1 < L1.length ∧ L1.getD i dpt = q := by
  obtain ⟨i, hi, hx⟩ := List.mem_iff_getElem.mp hq
  refine ⟨i, ?_, by rw [List.getD_eq_getElem _ _ hi]; exact hx⟩
  by_contra hcon
  have : i = L1.length - 1 := by omega
  apply hne
  rw [← List.getD_eq_getElem _ _ hi] at hx
  rw [← hx, this]

theorem mem_idx_of_ne_head {L2 : List Pt} {q : Pt} (hq : q ∈ L2)
    (hne : q ≠ L2.getD 0 dpt) :
    ∃ j, 1 ≤ j ∧ j < L2.length ∧ L2.getD j dpt = q := by
  obtain ⟨j, hj, hx⟩ := List.mem_iff_getElem.mp hq
  refine ⟨j, ?_, hj, by rw [List.getD_eq_getElem _ _ hj]; exact hx⟩
  by_contra hcon
  have : j = 0 := by omega
  apply hne
  rw [← List.getD_eq_getElem _ _ hj] at hx
  rw [← hx, this]

/-! ### Reducing the public operations on a decomposed state -/

theorem custom_insert_found_eq (L1 L2 : List Pt) (M : List Pt) {a w : Int} (v : Int)
    (hs : ArgSorted (L1 ++ (a, w) :: L2)) (hnequiv : equivalentP v w = false) :
    FunctionMaxima.custom_insert ⟨L1 ++ (a, w) :: L2, M⟩ a v =
      (let T := L1 ++ (a, w) :: (a, v) :: L2
       let st0 : MB := ⟨M, List.replicate 5 none, List.replicate 4 none⟩
       let st1 := conditional_addP T (L1.length + 1) L1.length 1 st0
       let st2 := conditional_addP T (multi_next T.length (L1.length + 1) L1.length)
         L1.length 2 st1
       let st3 := conditional_addP T (L1.length - 1) L1.length 3 st2
       let st4 := if maxFindP st3.maxima (a, w)
         then { st3 with to_erase := st3.to_erase.set 4 (some (a, w)) } else st3
       (⟨L1 ++ (a, v) :: L2, applyErase st4.to_erase st4.maxima⟩ : FunctionMaxima)) := by
  obtain ⟨hL1, hL2⟩ := argSorted_mid hs
  have hL1a : ∀ q ∈ L1, q.1 < a := hL1
  have hL2a : ∀ q ∈ L2, a < q.1 := hL2
  have hne1 : ∀ q ∈ L1, q.1 ≠ a := fun q hq => ne_of_lt (hL1a q hq)
  have hfind : find_arg (L1 ++ (a, w) :: L2) a = L1.length := by
    rw [find_arg_append hne1, find_arg_cons_eq rfl]
    omega
  have hlen : (L1 ++ (a, w) :: L2).length = L1.length + L2.length + 1 := by
    simp only [List.length_append, List.length_cons]
    omega
  have hval : valAt (L1 ++ (a, w) :: L2) L1.length = w := by
    rw [valAt_append_right (j := 0) (by omega)]
    simp [valAt]
  have hins : insertUB (L1 ++ (a, w) :: L2) (a, v) = (L1.length + 1, L1 ++ (a, w) :: (a, v) :: L2) :=
    insertUB_found hL1a hL2a rfl
  have hfound : (decide (L1.length ≠ L1.length + L2.length + 1)) = true := by
    simp only [decide_eq_true_eq]
    omega
  have hmp : multi_prev (L1.length + 1) L1.length = L1.length - 1 := by
    unfold multi_prev
    rw [if_pos (by omega)]
    omega
  have her : (L1 ++ (a, w) :: (a, v) :: L2).eraseIdx L1.length = L1 ++ (a, v) :: L2 :=
    eraseIdx_append_length
  have hgd : (L1 ++ (a, w) :: (a, v) :: L2).getD L1.length dpt = (a, w) :=
    getD_append_right_pt (j := 0) (by omega)
  have hgd2 : (L1 ++ (a, w) :: (a, v) :: L2)[L1.length]?.getD dpt = (a, w) := by
    rw [← List.getD_eq_getElem?_getD]
    exact hgd
  simp only [FunctionMaxima.custom_insert, hfind, hlen, hval, hins, hnequiv, hfound, hmp, her,
    hgd, hgd2, Bool.true_and, Bool.false_eq_true, if_false, ne_eq, Nat.succ_ne_zero,
    not_false_eq_true, if_true]

theorem custom_insert_notfound_eq (L1 L2 : List Pt) (M : List Pt) (a v : Int)
    (hL1 : ∀ q ∈ L1, q.1 < a) (hL2 : ∀ q ∈ L2, a < q.1) :
    FunctionMaxima.custom_insert ⟨L1 ++ L2, M⟩ a v =
      (let T := L1 ++ (a, v) :: L2
       let st0 : MB := ⟨M, List.replicate 5 none, List.replicate 4 none⟩
       let st1 := conditional_addP T L1.length T.length 1 st0
       let st2 := conditional_addP T (multi_next T.length L1.length T.length) T.length 2 st1
       let st3 := if L1.length ≠ 0 then
           conditional_addP T (multi_prev L1.length T.length) T.length 3 st2
         else st2
       (⟨T, applyErase st3.to_erase st3.maxima⟩ : FunctionMaxima)) := by
  have hne1 : ∀ q ∈ L1 ++ L2, q.1 ≠ a := by
    intro q hq
    rcases List.mem_append.mp hq with h | h
    · exact ne_of_lt (hL1 q h)
    · exact (ne_of_lt (hL2 q h)).symm
  have hfind : find_arg (L1 ++ L2) a = (L1 ++ L2).length := find_arg_eq_length.mpr hne1
  have hfoundF : (decide (find_arg (L1 ++ L2) a ≠ (L1 ++ L2).length)) = false := by
    simp [hfind]
  have hins : insertUB (L1 ++ L2) (a, v) = (L1.length, L1 ++ (a, v) :: L2) :=
    insertUB_notfound hL1 hL2
  simp only [FunctionMaxima.custom_insert, hfoundF, hins, Bool.false_and, Bool.false_eq_true,
    if_false, ne_eq]

theorem erase_found_eq (L1 L2 : List Pt) (M : List Pt) {a w : Int}
    (hs : ArgSorted (L1 ++ (a, w) :: L2)) :
    FunctionMaxima.erase ⟨L1 ++ (a, w) :: L2, M⟩ a =
      (let P := L1 ++ (a, w) :: L2
       let te0 := if maxFindP M (a, w) then (List.replicate 5 (none : Option Pt)).set 0 (some (a, w))
         else List.replicate 5 none
       let st1 : MB := ⟨M, te0, List.replicate 4 none⟩
       let st2 := conditional_addP P (L1.length + 1) L1.length 2 st1
       let st3 := conditional_addP P (L1.length - 1) L1.length 3 st2
       (⟨L1 ++ L2, applyErase st3.to_erase st3.maxima⟩ : FunctionMaxima)) := by
  obtain ⟨hL1, hL2⟩ := argSorted_mid hs
  have hL1a : ∀ q ∈ L1, q.1 < a := hL1
  have hne1 : ∀ q ∈ L1, q.1 ≠ a := fun q hq => ne_of_lt (hL1a q hq)
  have hfind : find_arg (L1 ++ (a, w) :: L2) a = L1.length := by
    rw [find_arg_append hne1, find_arg_cons_eq rfl]
    omega
  have hlen : (L1 ++ (a, w) :: L2).length = L1.length + L2.length + 1 := by
    simp only [List.length_append, List.length_cons]
    omega
  have hnlen : ¬ (L1.length = (L1 ++ (a, w) :: L2).length) := by
    rw [hlen]
    omega
  have hgd : (L1 ++ (a, w) :: L2).getD L1.length dpt = (a, w) :=
    getD_append_right_pt (j := 0) (by omega)
  have hgd2 : (L1 ++ (a, w) :: L2)[L1.length]?.getD dpt = (a, w) := by
    rw [← List.getD_eq_getElem?_getD]
    exact hgd
  have her : (L1 ++ (a, w) :: L2).eraseIdx L1.length = L1 ++ L2 :=
    eraseIdx_append_length
  simp only [FunctionMaxima.erase, hfind, hnlen, if_false, hgd, hgd2, her]

theorem erase_absent_eq (s : FunctionMaxima) (a : Int) (h : ∀ q ∈ s.points, q.1 ≠ a) :
    FunctionMaxima.erase s a = s := by
  have hfind : find_arg s.points a = s.points.length := find_arg_eq_length.mpr h
  simp only [FunctionMaxima.erase, hfind, if_true]

theorem custom_insert_noop_eq (s : FunctionMaxima) (a v : Int)
    (hj : find_arg s.points a ≠ s.points.length)
    (heq : equivalentP v (valAt s.points (find_arg s.points a)) = true) :
    FunctionMaxima.custom_insert s a v = s := by
  have hfound : (decide (find_arg s.points a ≠ s.points.length)) = true := by
    simpa using hj
  simp only [FunctionMaxima.custom_insert, hfound, heq, Bool.true_and, if_true]

/-! ### Invariant preservation through each mutation path -/

theorem custom_insert_found_inv (L1 L2 : List Pt) (M : List Pt) {a w : Int} (v : Int)
    (hs : ArgSorted (L1 ++ (a, w) :: L2)) (hM : MaxSorted M)
    (hmem : ∀ x : Pt, x ∈ M ↔ MaxSpecMem (L1 ++ (a, w) :: L2) x)
    (hnequiv : equivalentP v w = false) :
    (FunctionMaxima.custom_insert ⟨L1 ++ (a, w) :: L2, M⟩ a v).points = L1 ++ (a, v) :: L2 ∧
    MaxSorted (FunctionMaxima.custom_insert ⟨L1 ++ (a, w) :: L2, M⟩ a v).maxima ∧
    ∀ x : Pt, x ∈ (FunctionMaxima.custom_insert ⟨L1 ++ (a, w) :: L2, M⟩ a v).maxima
      ↔ MaxSpecMem (L1 ++ (a, v) :: L2) x := by
  obtain ⟨hL1, hL2⟩ := argSorted_mid hs
  have hL1a : ∀ q ∈ L1, q.1 < a := hL1
  have hL2a : ∀ q ∈ L2, a < q.1 := hL2
  have hvw : ((a, v) : Pt) ≠ (a, w) := by
    unfold equivalentP at hnequiv
    simp only [Bool.and_eq_false_iff, Bool.not_eq_false', decide_eq_true_eq] at hnequiv
    intro hh
    rw [Prod.mk.injEq] at hh
    rcases hnequiv with h | h
    · omega
    · omega
  rw [custom_insert_found_eq L1 L2 M v hs hnequiv]
  dsimp only
  set T := L1 ++ (a, w) :: (a, v) :: L2 with hT
  set F := L1 ++ (a, v) :: L2 with hF
  set P := L1 ++ (a, w) :: L2 with hP
  have hsF : ArgSorted F := argSorted_replace hs rfl
  have hlenT : T.length = L1.length + L2.length + 2 := by
    rw [hT]
    simp only [List.length_append, List.length_cons]
    omega
  have hlenF : F.length = L1.length + L2.length + 1 := by
    rw [hF]
    simp only [List.length_append, List.length_cons]
    omega
  set st0 : MB := ⟨M, List.replicate 5 none, List.replicate 4 none⟩ with hst0
  set st1 := conditional_addP T (L1.length + 1) L1.length 1 st0 with hst1
  set st2 := conditional_addP T (multi_next T.length (L1.length + 1) L1.length)
    L1.length 2 st1 with hst2
  set st3 := conditional_addP T (L1.length - 1) L1.length 3 st2 with hst3
  -- the three conditional_add_new_maximum calls, one slot each
  obtain ⟨hs1, hm1, he1, hr1, hle1, hlr1, hpe1, hpr1⟩ :=
    conditional_addP_spec T (L1.length + 1) L1.length 1 st0 hM (by simp [hst0])
      (by simp [hst0]) (by simp [hst0])
      (by simp [hst0])
  obtain ⟨hs2, hm2, he2, hr2, hle2, hlr2, hpe2, hpr2⟩ :=
    conditional_addP_spec T (multi_next T.length (L1.length + 1) L1.length) L1.length 2 st1 hs1
      (by rw [hle1]; simp [hst0]) (by rw [hlr1]; simp [hst0])
      (by rw [hpe1 2 (by omega)]; simp [hst0])
      (by rw [hpr1 2 (by omega)]; simp [hst0])
  obtain ⟨hs3, hm3, he3, hr3, hle3, hlr3, hpe3, hpr3⟩ :=
    conditional_addP_spec T (L1.length - 1) L1.length 3 st2 hs2
      (by rw [hle2, hle1]; simp [hst0]) (by rw [hlr2, hlr1]; simp [hst0])
      (by rw [hpe2 3 (by omega), hpe1 3 (by omega)]; simp [hst0])
      (by rw [hpr2 3 (by omega), hpr1 3 (by omega)]; simp [hst0])
  -- target points and their computed classifications
  have ht1 : T.getD (L1.length + 1) dpt = (a, v) := by
    rw [hT]
    rw [getD_append_right_pt (j := 1) (by omega)]
    rfl
  have htold : T.getD L1.length dpt = (a, w) := by
    rw [hT]
    rw [getD_append_right_pt (j := 0) (by omega)]
    rfl
  have hb1 : (is_maximumP T (L1.length + 1) L1.length = true) ↔ (isMaxSpec F L1.length = true) :=
    ismax_found_new L1 L2 (a, w) (a, v)
  have hg1 : ¬(L1.length + 1 = T.length ∨ L1.length + 1 = L1.length) := by
    rw [hlenT]
    omega
  have hnewP : ((a, v) : Pt) ∉ P := by
    rw [hP]
    intro hh
    rcases List.mem_append.mp hh with h | h
    · exact absurd rfl (ne_of_lt (hL1a _ h))
    · rcases List.mem_cons.mp h with h | h
      · exact hvw h
      · exact absurd rfl (ne_of_gt (hL2a _ h))
  have hnewM : ((a, v) : Pt) ∉ M := fun hh => hnewP (maxSpecMem_mem ((hmem _).mp hh))
  -- the right-neighbour stage
  set y := L2.getD 0 dpt with hy
  have hyarg : L2.length ≠ 0 → a < y.1 := by
    intro h
    refine hL2a y ?_
    rw [hy, List.getD_eq_getElem _ _ (by omega)]
    exact List.getElem_mem _
  have ht2n : L2.length = 0 → multi_next T.length (L1.length + 1) L1.length = T.length := by
    intro h
    unfold multi_next
    rw [if_pos]
    simp only [Bool.or_eq_true, decide_eq_true_eq]
    rw [hlenT]
    omega
  have ht2s : L2.length ≠ 0 → multi_next T.length (L1.length + 1) L1.length = L1.length + 2 := by
    intro h
    unfold multi_next
    rw [if_neg (by rw [hlenT]; simp only [Bool.or_eq_true, decide_eq_true_eq]; omega),
      if_neg (by omega)]
  have ht2 : L2.length ≠ 0 → T.getD (L1.length + 2) dpt = y := by
    intro h
    rw [hT, getD_append_right_pt (j := 2) (by omega), hy]
    rfl
  have hb2 : L2.length ≠ 0 →
      ((is_maximumP T (L1.length + 2) L1.length = true) ↔ (isMaxSpec F (L1.length + 1) = true)) := by
    intro h
    rcases L2 with _ | ⟨y0, L2t⟩
    · exact absurd rfl h
    · exact ismax_found_right L1 L2t (a, w) (a, v) y0
  -- the left-neighbour stage
  set xl := L1.getD (L1.length - 1) dpt with hxl
  have hxlarg : L1.length ≠ 0 → xl.1 < a := by
    intro h
    refine hL1a xl ?_
    rw [hxl, List.getD_eq_getElem _ _ (by omega)]
    exact List.getElem_mem _
  have ht3 : L1.length ≠ 0 → T.getD (L1.length - 1) dpt = xl := by
    intro h
    rw [hT, getD_append_left_pt (by omega), hxl]
  have hg3 : L1.length ≠ 0 → ¬(L1.length - 1 = T.length ∨ L1.length - 1 = L1.length) := by
    intro h
    rw [hlenT]
    omega
  have hg3' : L1.length = 0 → (L1.length - 1 = T.length ∨ L1.length - 1 = L1.length) := by
    intro h
    omega
  have hb3 : L1.length ≠ 0 →
      ((is_maximumP T (L1.length - 1) L1.length = true) ↔ (isMaxSpec F (L1.length - 1) = true)) := by
    intro h
    obtain ⟨L1t, xe, rfl⟩ : ∃ L1t xe, L1 = L1t ++ [xe] := by
      rcases List.eq_nil_or_concat L1 with hnil | hcc
      · exact absurd (by rw [hnil]; rfl) h
      · obtain ⟨L1t, xe, hcc⟩ := hcc
        exact ⟨L1t, xe, by rw [hcc, List.concat_eq_append]⟩
    have e1 : T = L1t ++ xe :: (a, w) :: (a, v) :: L2 := by
      rw [hT]
      simp
    have e2 : F = L1t ++ xe :: (a, v) :: L2 := by
      rw [hF]
      simp
    have e3 : (L1t ++ [xe]).length - 1 = L1t.length := by
      simp
    have e4 : (L1t ++ [xe]).length = L1t.length + 1 := by
      simp
    rw [e1, e2, e3, e4]
    exact ismax_found_left L1t L2 xe (a, w) (a, v)
  -- clean membership formulas for the three stages
  have hm1' : ∀ x : Pt, x ∈ st1.maxima ↔
      (x ∈ M ∨ (x = (a, v) ∧ isMaxSpec F L1.length = true)) := by
    intro x
    rw [hm1 x, ht1]
    show x ∈ M ∨ _ ↔ _
    constructor
    · rintro (hx | ⟨_, rfl, hb, hnx⟩)
      · exact Or.inl hx
      · exact Or.inr ⟨rfl, hb1.mp hb⟩
    · rintro (hx | ⟨rfl, hB⟩)
      · exact Or.inl hx
      · exact Or.inr ⟨hg1, rfl, hb1.mpr hB, hnewM⟩
  have hte1' : ∀ x : Pt, some x ∈ st1.to_erase ↔ False := by
    intro x
    rw [he1 x, ht1]
    show some x ∈ (List.replicate 5 none) ∨ _ ↔ False
    simp only [iff_false]
    rintro (hx | ⟨_, rfl, _, hx⟩)
    · exact some_not_mem_replicate hx
    · exact hnewM hx
  have hm2' : ∀ x : Pt, x ∈ st2.maxima ↔
      (x ∈ st1.maxima ∨ (L2.length ≠ 0 ∧ x = y ∧ isMaxSpec F (L1.length + 1) = true)) := by
    intro x
    rw [hm2 x]
    by_cases h2 : L2.length = 0
    · rw [ht2n h2]
      constructor
      · rintro (hx | ⟨hg, _⟩)
        · exact Or.inl hx
        · exact absurd (Or.inl rfl) hg
      · rintro (hx | ⟨h2', _⟩)
        · exact Or.inl hx
        · exact absurd h2 h2'
    · rw [ht2s h2, ht2 h2]
      constructor
      · rintro (hx | ⟨_, rfl, hb, _⟩)
        · exact Or.inl hx
        · exact Or.inr ⟨h2, rfl, (hb2 h2).mp hb⟩
      · rintro (hx | ⟨_, rfl, hB⟩)
        · exact Or.inl hx
        · by_cases hx1 : y ∈ st1.maxima
          · exact Or.inl hx1
          · exact Or.inr ⟨by rw [hlenT]; omega, rfl, (hb2 h2).mpr hB, hx1⟩
  have hte2' : ∀ x : Pt, some x ∈ st2.to_erase ↔
      (L2.length ≠ 0 ∧ x = y ∧ ¬(isMaxSpec F (L1.length + 1) = true) ∧ x ∈ st1.maxima) := by
    intro x
    rw [he2 x]
    by_cases h2 : L2.length = 0
    · rw [ht2n h2]
      constructor
      · rintro (hx | ⟨hg, _⟩)
        · exact absurd ((hte1' x).mp hx) id
        · exact absurd (Or.inl rfl) hg
      · rintro ⟨h2', _⟩
        exact absurd h2 h2'
    · rw [ht2s h2, ht2 h2]
      constructor
      · rintro (hx | ⟨_, rfl, hb, hx1⟩)
        · exact absurd ((hte1' x).mp hx) id
        · exact ⟨h2, rfl, fun hB => by rw [(hb2 h2).mpr hB] at hb; exact Bool.true_eq_false.mp hb, hx1⟩
      · rintro ⟨_, rfl, hnB, hx1⟩
        refine Or.inr ⟨by rw [hlenT]; omega, rfl, ?_, hx1⟩
        rcases hbool : is_maximumP T (L1.length + 2) L1.length with _ | _
        · rfl
        · exact absurd ((hb2 h2).mp hbool) hnB
  have hm3' : ∀ x : Pt, x ∈ st3.maxima ↔
      (x ∈ st2.maxima ∨ (L1.length ≠ 0 ∧ x = xl ∧ isMaxSpec F (L1.length - 1) = true)) := by
    intro x
    rw [hm3 x]
    by_cases h1 : L1.length = 0
    · constructor
      · rintro (hx | ⟨hg, _⟩)
        · exact Or.inl hx
        · exact absurd (hg3' h1) hg
      · rintro (hx | ⟨h1', _⟩)
        · exact Or.inl hx
        · exact absurd h1 h1'
    · rw [ht3 h1]
      constructor
      · rintro (hx | ⟨_, rfl, hb, _⟩)
        · exact Or.inl hx
        · exact Or.inr ⟨h1, rfl, (hb3 h1).mp hb⟩
      · rintro (hx | ⟨_, rfl, hB⟩)
        · exact Or.inl hx
        · by_cases hx2 : xl ∈ st2.maxima
          · exact Or.inl hx2
          · exact Or.inr ⟨hg3 h1, rfl, (hb3 h1).mpr hB, hx2⟩
  have hte3' : ∀ x : Pt, some x ∈ st3.to_erase ↔
      ((L2.length ≠ 0 ∧ x = y ∧ ¬(isMaxSpec F (L1.length + 1) = true) ∧ x ∈ st1.maxima) ∨
       (L1.length ≠ 0 ∧ x = xl ∧ ¬(isMaxSpec F (L1.length - 1) = true) ∧ x ∈ st2.maxima)) := by
    intro x
    rw [he3 x]
    by_cases h1 : L1.length = 0
    · constructor
      · rintro (hx | ⟨hg, _⟩)
        · exact Or.inl ((hte2' x).mp hx)
        · exact absurd (hg3' h1) hg
      · rintro (hx | ⟨h1', _⟩)
        · exact Or.inl ((hte2' x).mpr hx)
        · exact absurd h1 h1'
    · rw [ht3 h1]
      constructor
      · rintro (hx | ⟨_, rfl, hb, hx2⟩)
        · exact Or.inl ((hte2' x).mp hx)
        · refine Or.inr ⟨h1, rfl, fun hB => ?_, hx2⟩
          rw [(hb3 h1).mpr hB] at hb
          exact Bool.true_eq_false.mp hb
      · rintro (hx | ⟨_, rfl, hnB, hx2⟩)
        · exact Or.inl ((hte2' x).mpr hx)
        · refine Or.inr ⟨hg3 h1, rfl, ?_, hx2⟩
          rcases hbool : is_maximumP T (L1.length - 1) L1.length with _ | _
          · rfl
          · exact absurd ((hb3 h1).mp hbool) hnB
  -- monotone membership and the superseded point's entry
  have hmono12 : ∀ x : Pt, x ∈ st1.maxima → x ∈ st2.maxima := fun x h => (hm2' x).mpr (Or.inl h)
  have hmono23 : ∀ x : Pt, x ∈ st2.maxima → x ∈ st3.maxima := fun x h => (hm3' x).mpr (Or.inl h)
  have hmonoM1 : ∀ x : Pt, x ∈ M → x ∈ st1.maxima := fun x h => (hm1' x).mpr (Or.inl h)
  have hyne_old : L2.length ≠ 0 → y ≠ (a, w) := by
    intro h2 hh
    have := hyarg h2
    rw [hh] at this
    exact lt_irrefl a this
  have hyne_new : L2.length ≠ 0 → y ≠ (a, v) := by
    intro h2 hh
    have := hyarg h2
    rw [hh] at this
    exact lt_irrefl a this
  have hxlne_old : L1.length ≠ 0 → xl ≠ (a, w) := by
    intro h1 hh
    have := hxlarg h1
    rw [hh] at this
    exact lt_irrefl a this
  have hxlne_new : L1.length ≠ 0 → xl ≠ (a, v) := by
    intro h1 hh
    have := hxlarg h1
    rw [hh] at this
    exact lt_irrefl a this
  have hxlne_y : L1.length ≠ 0 → L2.length ≠ 0 → xl ≠ y := by
    intro h1 h2 hh
    have h := hxlarg h1
    rw [hh] at h
    exact absurd (lt_trans h (hyarg h2)) (lt_irrefl _)
  have hold3 : (((a, w) : Pt) ∈ st3.maxima) ↔ ((a, w) : Pt) ∈ M := by
    rw [hm3', hm2', hm1']
    constructor
    · rintro (((hx | ⟨hx, hB⟩) | ⟨h2, hx, _⟩) | ⟨h1, hx, _⟩)
      · exact hx
      · exact absurd hx.symm hvw
      · exact absurd hx.symm (hyne_old h2)
      · exact absurd hx.symm (hxlne_old h1)
    · intro hx
      exact Or.inl (Or.inl (Or.inl hx))
  -- geometry of the final list
  have hlenP : P.length = L1.length + L2.length + 1 := by
    rw [hP]
    simp only [List.length_append, List.length_cons]
    omega
  have hFgd1 : F.getD L1.length dpt = (a, v) := by
    rw [hF, getD_append_right_pt (j := 0) (by omega)]
    rfl
  have hFgdy : L2.length ≠ 0 → F.getD (L1.length + 1) dpt = y := by
    intro h
    rw [hF, getD_append_right_pt (j := 1) (by omega)]
    rw [hy]
    rfl
  have hFgdxl : L1.length ≠ 0 → F.getD (L1.length - 1) dpt = xl := by
    intro h
    rw [hF, getD_append_left_pt (by omega), hxl]
  have htr_left : ∀ x ∈ L1, x ≠ xl → (MaxSpecMem P x ↔ MaxSpecMem F x) := by
    intro x hxL hne
    obtain ⟨i, hi, hgd⟩ := mem_idx_of_ne_last hxL (by rw [← hxl]; exact hne)
    have hPi : P.getD i dpt = x := by
      rw [hP, getD_append_left_pt (by omega), hgd]
    have hFi : F.getD i dpt = x := by
      rw [hF, getD_append_left_pt (by omega), hgd]
    rw [maxSpecMem_iff_idx hs (by rw [hlenP]; omega) hPi,
      maxSpecMem_iff_idx hsF (by rw [hlenF]; omega) hFi]
    have htr := isMaxSpec_left_transfer ((a, w) :: L2) ((a, v) :: L2) hi
    rw [← hP, ← hF] at htr
    rw [htr]
  have htr_right : ∀ x ∈ L2, x ≠ y → (MaxSpecMem P x ↔ MaxSpecMem F x) := by
    intro x hxL hne
    obtain ⟨j, hj1, hj2, hgd⟩ := mem_idx_of_ne_head hxL (by rw [← hy]; exact hne)
    have hPr : P = (L1 ++ [(a, w)]) ++ L2 := by
      rw [hP]
      simp
    have hFr : F = (L1 ++ [(a, v)]) ++ L2 := by
      rw [hF]
      simp
    have hPi : P.getD (L1.length + 1 + j) dpt = x := by
      rw [hPr, getD_append_right_pt
        (show L1.length + 1 + j = (L1 ++ [(a, w)]).length + j by simp), hgd]
    have hFi : F.getD (L1.length + 1 + j) dpt = x := by
      rw [hFr, getD_append_right_pt
        (show L1.length + 1 + j = (L1 ++ [(a, v)]).length + j by simp), hgd]
    rw [maxSpecMem_iff_idx hs (by rw [hlenP]; omega) hPi,
      maxSpecMem_iff_idx hsF (by rw [hlenF]; omega) hFi]
    have htr := isMaxSpec_right_transfer (L1 ++ [(a, w)]) (L1 ++ [(a, v)]) hj1 hj2
    rw [← hPr, ← hFr] at htr
    rw [show (L1 ++ [(a, w)]).length + j = L1.length + 1 + j by simp,
      show (L1 ++ [(a, v)]).length + j = L1.length + 1 + j by simp] at htr
    rw [htr]
  have hxmemF : ∀ x : Pt, x ∈ F ↔ (x ∈ L1 ∨ x = (a, v) ∨ x ∈ L2) := by
    intro x
    rw [hF]
    simp
  have hxmemP : ∀ x : Pt, x ∈ P ↔ (x ∈ L1 ∨ x = (a, w) ∨ x ∈ L2) := by
    intro x
    rw [hP]
    simp
  have hcore : ∀ x : Pt,
      ((x ∈ st3.maxima ∧ ∀ p : Pt,
          ((p = (a, w) ∧ ((a, w) : Pt) ∈ M) ∨ some p ∈ st3.to_erase) → x ≠ p)
        ↔ MaxSpecMem F x) := by
    intro x
    constructor
    · rintro ⟨hx3, hner⟩
      rcases (hm3' x).mp hx3 with hx2 | ⟨h1, hxeq, hB3⟩
      · rcases (hm2' x).mp hx2 with hx1 | ⟨h2, hxeq, hB2⟩
        · rcases (hm1' x).mp hx1 with hxM | ⟨hxeq, hB1⟩
          · have hxP : x ∈ P := maxSpecMem_mem ((hmem x).mp hxM)
            rcases (hxmemP x).mp hxP with hxL1 | hxold | hxL2
            · have h1 : L1.length ≠ 0 := by
                intro hh
                rw [List.length_eq_zero] at hh
                rw [hh] at hxL1
                exact absurd hxL1 (List.not_mem_nil x)
              by_cases hxxl : x = xl
              · have hB3 : isMaxSpec F (L1.length - 1) = true := by
                  by_contra hnB
                  exact hner x (Or.inr ((hte3' x).mpr (Or.inr ⟨h1, hxxl, hnB, hx2⟩))) rfl
                exact (maxSpecMem_iff_idx hsF (by rw [hlenF]; omega)
                  ((hFgdxl h1).trans hxxl.symm)).mpr hB3
              · exact (htr_left x hxL1 hxxl).mp ((hmem x).mp hxM)
            · exact absurd hxold (hner (a, w) (Or.inl ⟨rfl, hxold ▸ hxM⟩))
            · have h2 : L2.length ≠ 0 := by
                intro hh
                rw [List.length_eq_zero] at hh
                rw [hh] at hxL2
                exact absurd hxL2 (List.not_mem_nil x)
              by_cases hxy : x = y
              · have hB2 : isMaxSpec F (L1.length + 1) = true := by
                  by_contra hnB
                  exact hner x (Or.inr ((hte3' x).mpr (Or.inl ⟨h2, hxy, hnB, hx1⟩))) rfl
                exact (maxSpecMem_iff_idx hsF (by rw [hlenF]; omega)
                  ((hFgdy h2).trans hxy.symm)).mpr hB2
              · exact (htr_right x hxL2 hxy).mp ((hmem x).mp hxM)
          · exact (maxSpecMem_iff_idx hsF (by rw [hlenF]; omega)
              (hFgd1.trans hxeq.symm)).mpr hB1
        · exact (maxSpecMem_iff_idx hsF (by rw [hlenF]; omega)
            ((hFgdy h2).trans hxeq.symm)).mpr hB2
      · exact (maxSpecMem_iff_idx hsF (by rw [hlenF]; omega)
          ((hFgdxl h1).trans hxeq.symm)).mpr hB3
    · intro hMF
      have hxF : x ∈ F := maxSpecMem_mem hMF
      rcases (hxmemF x).mp hxF with hxL1 | hxnew | hxL2
      · have h1 : L1.length ≠ 0 := by
          intro hh
          rw [List.length_eq_zero] at hh
          rw [hh] at hxL1
          exact absurd hxL1 (List.not_mem_nil x)
        have hxarg : x.1 < a := hL1a x hxL1
        have hnotold : x ≠ (a, w) := by
          intro hh
          rw [hh] at hxarg
          exact lt_irrefl a hxarg
        have hnoty : ∀ h2 : L2.length ≠ 0, x ≠ y := by
          intro h2 hh
          rw [hh] at hxarg
          exact absurd (lt_trans (hyarg h2) hxarg) (lt_irrefl a)
        by_cases hxxl : x = xl
        · have hB3 : isMaxSpec F (L1.length - 1) = true :=
            (maxSpecMem_iff_idx hsF (by rw [hlenF]; omega)
              ((hFgdxl h1).trans hxxl.symm)).mp hMF
          refine ⟨(hm3' x).mpr (Or.inr ⟨h1, hxxl, hB3⟩), ?_⟩
          rintro p (⟨hpeq, _⟩ | hp)
          · exact fun hh => hnotold (hh.trans hpeq)
          · rcases (hte3' p).mp hp with ⟨h2, hpeq, _, _⟩ | ⟨_, _, hnB3, _⟩
            · exact fun hh => hnoty h2 (hh.trans hpeq)
            · exact fun _ => absurd hB3 hnB3
        · have hMP : MaxSpecMem P x := (htr_left x hxL1 hxxl).mpr hMF
          have hxM : x ∈ M := (hmem x).mpr hMP
          refine ⟨hmono23 x (hmono12 x (hmonoM1 x hxM)), ?_⟩
          rintro p (⟨hpeq, _⟩ | hp)
          · exact fun hh => hnotold (hh.trans hpeq)
          · rcases (hte3' p).mp hp with ⟨h2, hpeq, _, _⟩ | ⟨_, hpeq, _, _⟩
            · exact fun hh => hnoty h2 (hh.trans hpeq)
            · exact fun hh => hxxl (hh.trans hpeq)
      · have hB1 : isMaxSpec F L1.length = true :=
          (maxSpecMem_iff_idx hsF (by rw [hlenF]; omega) (hFgd1.trans hxnew.symm)).mp hMF
        refine ⟨hmono23 x (hmono12 x ((hm1' x).mpr (Or.inr ⟨hxnew, hB1⟩))), ?_⟩
        rintro p (⟨hpeq, _⟩ | hp)
        · exact fun hh => hvw ((hxnew.symm.trans hh).trans hpeq)
        · rcases (hte3' p).mp hp with ⟨h2, hpeq, _, _⟩ | ⟨h1, hpeq, _, _⟩
          · exact fun hh => (hyne_new h2) (hpeq ▸ (hh.symm.trans hxnew))
          · exact fun hh => (hxlne_new h1) (hpeq ▸ (hh.symm.trans hxnew))
      · have h2 : L2.length ≠ 0 := by
          intro hh
          rw [List.length_eq_zero] at hh
          rw [hh] at hxL2
          exact absurd hxL2 (List.not_mem_nil x)
        have hxarg : a < x.1 := hL2a x hxL2
        have hnotold : x ≠ (a, w) := by
          intro hh
          rw [hh] at hxarg
          exact lt_irrefl a hxarg
        have hnotxl : ∀ h1 : L1.length ≠ 0, x ≠ xl := by
          intro h1 hh
          rw [hh] at hxarg
          exact absurd (lt_trans hxarg (hxlarg h1)) (lt_irrefl _)
        by_cases hxy : x = y
        · have hB2 : isMaxSpec F (L1.length + 1) = true :=
            (maxSpecMem_iff_idx hsF (by rw [hlenF]; omega)
              ((hFgdy h2).trans hxy.symm)).mp hMF
          refine ⟨(hm3' x).mpr (Or.inl ((hm2' x).mpr (Or.inr ⟨h2, hxy, hB2⟩))), ?_⟩
          rintro p (⟨hpeq, _⟩ | hp)
          · exact fun hh => hnotold (hh.trans hpeq)
          · rcases (hte3' p).mp hp with ⟨_, _, hnB2, _⟩ | ⟨h1, hpeq, _, _⟩
            · exact fun _ => absurd hB2 hnB2
            · exact fun hh => hnotxl h1 (hh.trans hpeq)
        · have hMP : MaxSpecMem P x := (htr_right x hxL2 hxy).mpr hMF
          have hxM : x ∈ M := (hmem x).mpr hMP
          refine ⟨hmono23 x (hmono12 x (hmonoM1 x hxM)), ?_⟩
          rintro p (⟨hpeq, _⟩ | hp)
          · exact fun hh => hnotold (hh.trans hpeq)
          · rcases (hte3' p).mp hp with ⟨_, hpeq, _, _⟩ | ⟨h1, hpeq, _, _⟩
            · exact fun hh => hxy (hh.trans hpeq)
            · exact fun hh => hnotxl h1 (hh.trans hpeq)
  -- slot 4 and the commit phase
  have h4len : 4 < st3.to_erase.length := by
    rw [hle3, hle2, hle1]
    simp [hst0]
  have h4none : st3.to_erase.getD 4 none = none := by
    rw [hpe3 4 (by omega), hpe2 4 (by omega), hpe1 4 (by omega)]
    simp [hst0]
  by_cases hb4 : maxFindP st3.maxima (a, w) = true
  · rw [if_pos hb4]
    have holdM : ((a, w) : Pt) ∈ M := hold3.mp (maxFindP_iff.mp hb4)
    refine ⟨rfl, maxSorted_applyErase hs3, ?_⟩
    have hte4 : ∀ x : Pt, some x ∈ st3.to_erase.set 4 (some (a, w)) ↔
        ((x = (a, w) ∧ ((a, w) : Pt) ∈ M) ∨ some x ∈ st3.to_erase) := by
      intro x
      rw [some_mem_set h4len h4none]
      constructor
      · rintro (rfl | hx)
        · exact Or.inl ⟨rfl, holdM⟩
        · exact Or.inr hx
      · rintro (⟨rfl, _⟩ | hx)
        · exact Or.inl rfl
        · exact Or.inr hx
    intro x
    rw [mem_applyErase (maxSorted_nodup hs3)]
    constructor
    · rintro ⟨hx3, hner⟩
      exact (hcore x).mp ⟨hx3, fun p hp => hner p ((hte4 p).mpr hp)⟩
    · intro h
      obtain ⟨hx3, hner⟩ := (hcore x).mpr h
      exact ⟨hx3, fun p hp => hner p ((hte4 p).mp hp)⟩
  · rw [if_neg hb4]
    have holdM : ((a, w) : Pt) ∉ M := fun hh => hb4 (maxFindP_iff.mpr (hold3.mpr hh))
    refine ⟨rfl, maxSorted_applyErase hs3, ?_⟩
    have hte4 : ∀ x : Pt, some x ∈ st3.to_erase ↔
        ((x = (a, w) ∧ ((a, w) : Pt) ∈ M) ∨ some x ∈ st3.to_erase) := by
      intro x
      constructor
      · exact fun hx => Or.inr hx
      · rintro (⟨rfl, hx⟩ | hx)
        · exact absurd hx holdM
        · exact hx
    intro x
    rw [mem_applyErase (maxSorted_nodup hs3)]
    constructor
    · rintro ⟨hx3, hner⟩
      exact (hcore x).mp ⟨hx3, fun p hp => hner p ((hte4 p).mpr hp)⟩
    · intro h
      obtain ⟨hx3, hner⟩ := (hcore x).mpr h
      exact ⟨hx3, fun p hp => hner p ((hte4 p).mp hp)⟩

theorem custom_insert_notfound_inv (L1 L2 : List Pt) (M : List Pt) (a v : Int)
    (hs : ArgSorted (L1 ++ L2)) (hM : MaxSorted M)
    (hL1a : ∀ q ∈ L1, q.1 < a) (hL2a : ∀ q ∈ L2, a < q.1)
    (hmem : ∀ x : Pt, x ∈ M ↔ MaxSpecMem (L1 ++ L2) x) :
    (FunctionMaxima.custom_insert ⟨L1 ++ L2, M⟩ a v).points = L1 ++ (a, v) :: L2 ∧
    MaxSorted (FunctionMaxima.custom_insert ⟨L1 ++ L2, M⟩ a v).maxima ∧
    ∀ x : Pt, x ∈ (FunctionMaxima.custom_insert ⟨L1 ++ L2, M⟩ a v).maxima
      ↔ MaxSpecMem (L1 ++ (a, v) :: L2) x := by
  rw [custom_insert_notfound_eq L1 L2 M a v hL1a hL2a]
  dsimp only
  set F := L1 ++ (a, v) :: L2 with hF
  set P := L1 ++ L2 with hP
  have hsF : ArgSorted F := argSorted_insert_mid hL1a hL2a hs
  have hlenF : F.length = L1.length + L2.length + 1 := by
    rw [hF]
    simp only [List.length_append, List.length_cons]
    omega
  have hlenP : P.length = L1.length + L2.length := by
    rw [hP]
    simp only [List.length_append]
  set st0 : MB := ⟨M, List.replicate 5 none, List.replicate 4 none⟩ with hst0
  set st1 := conditional_addP F L1.length F.length 1 st0 with hst1
  set st2 := conditional_addP F (multi_next F.length L1.length F.length) F.length 2 st1 with hst2
  set st3 := if L1.length ≠ 0 then
      conditional_addP F (multi_prev L1.length F.length) F.length 3 st2
    else st2 with hst3
  obtain ⟨hs1, hm1, he1, hr1, hle1, hlr1, hpe1, hpr1⟩ :=
    conditional_addP_spec F L1.length F.length 1 st0 hM (by simp [hst0])
      (by simp [hst0]) (by simp [hst0]) (by simp [hst0])
  obtain ⟨hs2, hm2, he2, hr2, hle2, hlr2, hpe2, hpr2⟩ :=
    conditional_addP_spec F (multi_next F.length L1.length F.length) F.length 2 st1 hs1
      (by rw [hle1]; simp [hst0]) (by rw [hlr1]; simp [hst0])
      (by rw [hpe1 2 (by omega)]; simp [hst0])
      (by rw [hpr1 2 (by omega)]; simp [hst0])
  -- target points and classifications
  have ht1 : F.getD L1.length dpt = (a, v) := by
    rw [hF, getD_append_right_pt (j := 0) (by omega)]
    rfl
  have hb1 : (is_maximumP F L1.length F.length = true) ↔ (isMaxSpec F L1.length = true) :=
    ismax_notfound_new L1 L2 (a, v)
  have hg1 : ¬(L1.length = F.length ∨ L1.length = F.length) := by
    rw [hlenF]
    omega
  have hnewP : ((a, v) : Pt) ∉ P := by
    rw [hP]
    intro hh
    rcases List.mem_append.mp hh with h | h
    · exact absurd rfl (ne_of_lt (hL1a _ h))
    · exact absurd rfl (ne_of_gt (hL2a _ h))
  have hnewM : ((a, v) : Pt) ∉ M := fun hh => hnewP (maxSpecMem_mem ((hmem _).mp hh))
  set y := L2.getD 0 dpt with hy
  have hyarg : L2.length ≠ 0 → a < y.1 := by
    intro h
    refine hL2a y ?_
    rw [hy, List.getD_eq_getElem _ _ (by omega)]
    exact List.getElem_mem _
  have ht2n : L2.length = 0 → multi_next F.length L1.length F.length = F.length := by
    intro h
    unfold multi_next
    rw [if_pos]
    simp only [Bool.or_eq_true, decide_eq_true_eq]
    rw [hlenF]
    omega
  have ht2s : L2.length ≠ 0 → multi_next F.length L1.length F.length = L1.length + 1 := by
    intro h
    unfold multi_next
    rw [if_neg (by rw [hlenF]; simp only [Bool.or_eq_true, decide_eq_true_eq]; omega),
      if_neg (by rw [hlenF]; omega)]
  have ht2 : L2.length ≠ 0 → F.getD (L1.length + 1) dpt = y := by
    intro h
    rw [hF, getD_append_right_pt (j := 1) (by omega)]
    rw [hy]
    rfl
  have hb2 : L2.length ≠ 0 →
      ((is_maximumP F (L1.length + 1) F.length = true) ↔ (isMaxSpec F (L1.length + 1) = true)) := by
    intro h
    obtain ⟨y0, L2t, hL2c⟩ : ∃ y0 L2t, L2 = y0 :: L2t := by
      rcases L2 with _ | ⟨y0, L2t⟩
      · exact absurd rfl h
      · exact ⟨y0, L2t, rfl⟩
    have e1 : F = L1 ++ (a, v) :: y0 :: L2t := by
      rw [hF, hL2c]
    rw [show F.length = (L1 ++ (a, v) :: y0 :: L2t).length by rw [e1]]
    rw [e1]
    exact ismax_notfound_right L1 L2t (a, v) y0
  set xl := L1.getD (L1.length - 1) dpt with hxl
  have hxlarg : L1.length ≠ 0 → xl.1 < a := by
    intro h
    refine hL1a xl ?_
    rw [hxl, List.getD_eq_getElem _ _ (by omega)]
    exact List.getElem_mem _
  have ht3idx : L1.length ≠ 0 → multi_prev L1.length F.length = L1.length - 1 := by
    intro h
    unfold multi_prev
    rw [if_neg (by rw [hlenF]; omega)]
  have ht3 : L1.length ≠ 0 → F.getD (L1.length - 1) dpt = xl := by
    intro h
    rw [hF, getD_append_left_pt (by omega), hxl]
  have hg3 : L1.length ≠ 0 → ¬(L1.length - 1 = F.length ∨ L1.length - 1 = F.length) := by
    intro h
    rw [hlenF]
    omega
  have hb3 : L1.length ≠ 0 →
      ((is_maximumP F (L1.length - 1) F.length = true) ↔ (isMaxSpec F (L1.length - 1) = true)) := by
    intro h
    obtain ⟨L1t, xe, hcc⟩ : ∃ L1t xe, L1 = L1t ++ [xe] := by
      rcases List.eq_nil_or_concat L1 with hnil | hcc
      · exact absurd (by rw [hnil]; rfl) h
      · obtain ⟨L1t, xe, hcc⟩ := hcc
        exact ⟨L1t, xe, by rw [hcc, List.concat_eq_append]⟩
    have e1 : F = L1t ++ xe :: (a, v) :: L2 := by
      rw [hF, hcc]
      simp
    have e2 : L1.length - 1 = L1t.length := by
      rw [hcc]
      simp
    rw [show F.length = (L1t ++ xe :: (a, v) :: L2).length by rw [e1]]
    rw [e1, e2]
    exact ismax_notfound_left L1t L2 xe (a, v)
  -- clean membership formulas
  have hm1' : ∀ x : Pt, x ∈ st1.maxima ↔
      (x ∈ M ∨ (x = (a, v) ∧ isMaxSpec F L1.length = true)) := by
    intro x
    rw [hm1 x, ht1]
    show x ∈ M ∨ _ ↔ _
    constructor
    · rintro (hx | ⟨_, hxeq, hb, hnx⟩)
      · exact Or.inl hx
      · exact Or.inr ⟨hxeq, hb1.mp hb⟩
    · rintro (hx | ⟨hxeq, hB⟩)
      · exact Or.inl hx
      · exact Or.inr ⟨hg1, hxeq, hb1.mpr hB, fun hh => hnewM (hxeq ▸ hh)⟩
  have hte1' : ∀ x : Pt, some x ∈ st1.to_erase ↔ False := by
    intro x
    rw [he1 x, ht1]
    show some x ∈ (List.replicate 5 none) ∨ _ ↔ False
    simp only [iff_false]
    rintro (hx | ⟨_, hxeq, _, hx⟩)
    · exact some_not_mem_replicate hx
    · exact hnewM (hxeq ▸ hx)
  have hm2' : ∀ x : Pt, x ∈ st2.maxima ↔
      (x ∈ st1.maxima ∨ (L2.length ≠ 0 ∧ x = y ∧ isMaxSpec F (L1.length + 1) = true)) := by
    intro x
    rw [hm2 x]
    by_cases h2 : L2.length = 0
    · rw [ht2n h2]
      constructor
      · rintro (hx | ⟨hg, _⟩)
        · exact Or.inl hx
        · exact absurd (Or.inl rfl) hg
      · rintro (hx | ⟨h2', _⟩)
        · exact Or.inl hx
        · exact absurd h2 h2'
    · rw [ht2s h2, ht2 h2]
      constructor
      · rintro (hx | ⟨_, hxeq, hb, _⟩)
        · exact Or.inl hx
        · exact Or.inr ⟨h2, hxeq, (hb2 h2).mp hb⟩
      · rintro (hx | ⟨_, hxeq, hB⟩)
        · exact Or.inl hx
        · by_cases hx1 : x ∈ st1.maxima
          · exact Or.inl hx1
          · exact Or.inr ⟨by rw [hlenF]; omega, hxeq, (hb2 h2).mpr hB, hx1⟩
  have hte2' : ∀ x : Pt, some x ∈ st2.to_erase ↔
      (L2.length ≠ 0 ∧ x = y ∧ ¬(isMaxSpec F (L1.length + 1) = true) ∧ x ∈ st1.maxima) := by
    intro x
    rw [he2 x]
    by_cases h2 : L2.length = 0
    · rw [ht2n h2]
      constructor
      · rintro (hx | ⟨hg, _⟩)
        · exact absurd ((hte1' x).mp hx) id
        · exact absurd (Or.inl rfl) hg
      · rintro ⟨h2', _⟩
        exact absurd h2 h2'
    · rw [ht2s h2, ht2 h2]
      constructor
      · rintro (hx | ⟨_, hxeq, hb, hx1⟩)
        · exact absurd ((hte1' x).mp hx) id
        · exact ⟨h2, hxeq, fun hB => by rw [(hb2 h2).mpr hB] at hb; exact Bool.true_eq_false.mp hb, hx1⟩
      · rintro ⟨_, hxeq, hnB, hx1⟩
        refine Or.inr ⟨by rw [hlenF]; omega, hxeq, ?_, hx1⟩
        rcases hbool : is_maximumP F (L1.length + 1) F.length with _ | _
        · rfl
        · exact absurd ((hb2 h2).mp hbool) hnB
  have hst3facts : MaxSorted st3.maxima ∧
      (∀ x : Pt, x ∈ st3.maxima ↔
        (x ∈ st2.maxima ∨ (L1.length ≠ 0 ∧ x = xl ∧ isMaxSpec F (L1.length - 1) = true))) ∧
      (∀ x : Pt, some x ∈ st3.to_erase ↔
        (some x ∈ st2.to_erase ∨
          (L1.length ≠ 0 ∧ x = xl ∧ ¬(isMaxSpec F (L1.length - 1) = true) ∧ x ∈ st2.maxima))) := by
    by_cases h1 : L1.length = 0
    · rw [hst3, if_neg (by omega)]
      refine ⟨hs2, ?_, ?_⟩
      · intro x
        constructor
        · exact fun hx => Or.inl hx
        · rintro (hx | ⟨h1', _⟩)
          · exact hx
          · exact absurd h1 h1'
      · intro x
        constructor
        · exact fun hx => Or.inl hx
        · rintro (hx | ⟨h1', _⟩)
          · exact hx
          · exact absurd h1 h1'
    · rw [hst3, if_pos h1, ht3idx h1]
      obtain ⟨hs3, hm3, he3, hr3, hle3, hlr3, hpe3, hpr3⟩ :=
        conditional_addP_spec F (L1.length - 1) F.length 3 st2 hs2
          (by rw [hle2, hle1]; simp [hst0]) (by rw [hlr2, hlr1]; simp [hst0])
          (by rw [hpe2 3 (by omega), hpe1 3 (by omega)]; simp [hst0])
          (by rw [hpr2 3 (by omega), hpr1 3 (by omega)]; simp [hst0])
      refine ⟨hs3, ?_, ?_⟩
      · intro x
        rw [hm3 x, ht3 h1]
        constructor
        · rintro (hx | ⟨_, hxeq, hb, _⟩)
          · exact Or.inl hx
          · exact Or.inr ⟨h1, hxeq, (hb3 h1).mp hb⟩
        · rintro (hx | ⟨_, hxeq, hB⟩)
          · exact Or.inl hx
          · by_cases hx2 : x ∈ st2.maxima
            · exact Or.inl hx2
            · exact Or.inr ⟨hg3 h1, hxeq, (hb3 h1).mpr hB, hx2⟩
      · intro x
        rw [he3 x, ht3 h1]
        constructor
        · rintro (hx | ⟨_, hxeq, hb, hx2⟩)
          · exact Or.inl hx
          · refine Or.inr ⟨h1, hxeq, fun hB => ?_, hx2⟩
            rw [(hb3 h1).mpr hB] at hb
            exact Bool.true_eq_false.mp hb
        · rintro (hx | ⟨_, hxeq, hnB, hx2⟩)
          · exact Or.inl hx
          · refine Or.inr ⟨hg3 h1, hxeq, ?_, hx2⟩
            rcases hbool : is_maximumP F (L1.length - 1) F.length with _ | _
            · rfl
            · exact absurd ((hb3 h1).mp hbool) hnB
  obtain ⟨hs3', hm3', hte3pre⟩ := hst3facts
  have hte3' : ∀ x : Pt, some x ∈ st3.to_erase ↔
      ((L2.length ≠ 0 ∧ x = y ∧ ¬(isMaxSpec F (L1.length + 1) = true) ∧ x ∈ st1.maxima) ∨
       (L1.length ≠ 0 ∧ x = xl ∧ ¬(isMaxSpec F (L1.length - 1) = true) ∧ x ∈ st2.maxima)) := by
    intro x
    rw [hte3pre x]
    constructor
    · rintro (hx | hx)
      · exact Or.inl ((hte2' x).mp hx)
      · exact Or.inr hx
    · rintro (hx | hx)
      · exact Or.inl ((hte2' x).mpr hx)
      · exact Or.inr hx
  have hmono12 : ∀ x : Pt, x ∈ st1.maxima → x ∈ st2.maxima := fun x h => (hm2' x).mpr (Or.inl h)
  have hmono23 : ∀ x : Pt, x ∈ st2.maxima → x ∈ st3.maxima := fun x h => (hm3' x).mpr (Or.inl h)
  have hmonoM1 : ∀ x : Pt, x ∈ M → x ∈ st1.maxima := fun x h => (hm1' x).mpr (Or.inl h)
  have hyne_new : L2.length ≠ 0 → y ≠ (a, v) := by
    intro h2 hh
    have := hyarg h2
    rw [hh] at this
    exact lt_irrefl a this
  have hxlne_new : L1.length ≠ 0 → xl ≠ (a, v) := by
    intro h1 hh
    have := hxlarg h1
    rw [hh] at this
    exact lt_irrefl a this
  -- geometry of the final list
  have hFgd1 : F.getD L1.length dpt = (a, v) := ht1
  have htr_left : ∀ x ∈ L1, x ≠ xl → (MaxSpecMem P x ↔ MaxSpecMem F x) := by
    intro x hxL hne
    obtain ⟨i, hi, hgd⟩ := mem_idx_of_ne_last hxL (by rw [← hxl]; exact hne)
    have hPi : P.getD i dpt = x := by
      rw [hP, getD_append_left_pt (by omega), hgd]
    have hFi : F.getD i dpt = x := by
      rw [hF, getD_append_left_pt (by omega), hgd]
    rw [maxSpecMem_iff_idx hs (by rw [hlenP]; omega) hPi,
      maxSpecMem_iff_idx hsF (by rw [hlenF]; omega) hFi]
    have htr := isMaxSpec_left_transfer L2 ((a, v) :: L2) hi
    rw [← hP, ← hF] at htr
    rw [htr]
  have htr_right : ∀ x ∈ L2, x ≠ y → (MaxSpecMem P x ↔ MaxSpecMem F x) := by
    intro x hxL hne
    obtain ⟨j, hj1, hj2, hgd⟩ := mem_idx_of_ne_head hxL (by rw [← hy]; exact hne)
    have hFr : F = (L1 ++ [(a, v)]) ++ L2 := by
      rw [hF]
      simp
    have hPi : P.getD (L1.length + j) dpt = x := by
      rw [hP, getD_append_right_pt (show L1.length + j = L1.length + j from rfl), hgd]
    have hFi : F.getD (L1.length + 1 + j) dpt = x := by
      rw [hFr, getD_append_right_pt
        (show L1.length + 1 + j = (L1 ++ [(a, v)]).length + j by simp), hgd]
    rw [maxSpecMem_iff_idx hs (by rw [hlenP]; omega) hPi,
      maxSpecMem_iff_idx hsF (by rw [hlenF]; omega) hFi]
    have htr := isMaxSpec_right_transfer L1 (L1 ++ [(a, v)]) hj1 hj2
    rw [← hP, ← hFr] at htr
    rw [show (L1 ++ [(a, v)]).length + j = L1.length + 1 + j by simp] at htr
    rw [htr]
  have hxmemF : ∀ x : Pt, x ∈ F ↔ (x ∈ L1 ∨ x = (a, v) ∨ x ∈ L2) := by
    intro x
    rw [hF]
    simp
  have hxmemP : ∀ x : Pt, x ∈ P ↔ (x ∈ L1 ∨ x ∈ L2) := by
    intro x
    rw [hP]
    simp
  refine ⟨rfl, maxSorted_applyErase hs3', ?_⟩
  intro x
  rw [mem_applyErase (maxSorted_nodup hs3')]
  constructor
  · rintro ⟨hx3, hner⟩
    rcases (hm3' x).mp hx3 with hx2 | ⟨h1, hxeq, hB3⟩
    · rcases (hm2' x).mp hx2 with hx1 | ⟨h2, hxeq, hB2⟩
      · rcases (hm1' x).mp hx1 with hxM | ⟨hxeq, hB1⟩
        · have hxP : x ∈ P := maxSpecMem_mem ((hmem x).mp hxM)
          rcases (hxmemP x).mp hxP with hxL1 | hxL2
          · have h1 : L1.length ≠ 0 := by
              intro hh
              rw [List.length_eq_zero] at hh
              rw [hh] at hxL1
              exact absurd hxL1 (List.not_mem_nil x)
            by_cases hxxl : x = xl
            · have hB3 : isMaxSpec F (L1.length - 1) = true := by
                by_contra hnB
                exact hner x ((hte3' x).mpr (Or.inr ⟨h1, hxxl, hnB, hx2⟩)) rfl
              exact (maxSpecMem_iff_idx hsF (by rw [hlenF]; omega)
                ((ht3 h1).trans hxxl.symm)).mpr hB3
            · exact (htr_left x hxL1 hxxl).mp ((hmem x).mp hxM)
          · have h2 : L2.length ≠ 0 := by
              intro hh
              rw [List.length_eq_zero] at hh
              rw [hh] at hxL2
              exact absurd hxL2 (List.not_mem_nil x)
            by_cases hxy : x = y
            · have hB2 : isMaxSpec F (L1.length + 1) = true := by
                by_contra hnB
                exact hner x ((hte3' x).mpr (Or.inl ⟨h2, hxy, hnB, hx1⟩)) rfl
              exact (maxSpecMem_iff_idx hsF (by rw [hlenF]; omega)
                ((ht2 h2).trans hxy.symm)).mpr hB2
            · exact (htr_right x hxL2 hxy).mp ((hmem x).mp hxM)
        · exact (maxSpecMem_iff_idx hsF (by rw [hlenF]; omega)
            (hFgd1.trans hxeq.symm)).mpr hB1
      · exact (maxSpecMem_iff_idx hsF (by rw [hlenF]; omega)
          ((ht2 h2).trans hxeq.symm)).mpr hB2
    · exact (maxSpecMem_iff_idx hsF (by rw [hlenF]; omega)
        ((ht3 h1).trans hxeq.symm)).mpr hB3
  · intro hMF
    have hxF : x ∈ F := maxSpecMem_mem hMF
    rcases (hxmemF x).mp hxF with hxL1 | hxnew | hxL2
    · have h1 : L1.length ≠ 0 := by
        intro hh
        rw [List.length_eq_zero] at hh
        rw [hh] at hxL1
        exact absurd hxL1 (List.not_mem_nil x)
      have hxarg : x.1 < a := hL1a x hxL1
      have hnoty : ∀ h2 : L2.length ≠ 0, x ≠ y := by
        intro h2 hh
        rw [hh] at hxarg
        exact absurd (lt_trans (hyarg h2) hxarg) (lt_irrefl a)
      by_cases hxxl : x = xl
      · have hB3 : isMaxSpec F (L1.length - 1) = true :=
          (maxSpecMem_iff_idx hsF (by rw [hlenF]; omega)
            ((ht3 h1).trans hxxl.symm)).mp hMF
        refine ⟨(hm3' x).mpr (Or.inr ⟨h1, hxxl, hB3⟩), ?_⟩
        intro p hp
        rcases (hte3' p).mp hp with ⟨h2, hpeq, _, _⟩ | ⟨_, _, hnB3, _⟩
        · exact fun hh => hnoty h2 (hh.trans hpeq)
        · exact fun _ => absurd hB3 hnB3
      · have hMP : MaxSpecMem P x := (htr_left x hxL1 hxxl).mpr hMF
        have hxM : x ∈ M := (hmem x).mpr hMP
        refine ⟨hmono23 x (hmono12 x (hmonoM1 x hxM)), ?_⟩
        intro p hp
        rcases (hte3' p).mp hp with ⟨h2, hpeq, _, _⟩ | ⟨_, hpeq, _, _⟩
        · exact fun hh => hnoty h2 (hh.trans hpeq)
        · exact fun hh => hxxl (hh.trans hpeq)
    · have hB1 : isMaxSpec F L1.length = true :=
        (maxSpecMem_iff_idx hsF (by rw [hlenF]; omega) (hFgd1.trans hxnew.symm)).mp hMF
      refine ⟨hmono23 x (hmono12 x ((hm1' x).mpr (Or.inr ⟨hxnew, hB1⟩))), ?_⟩
      intro p hp
      rcases (hte3' p).mp hp with ⟨h2, hpeq, _, _⟩ | ⟨h1, hpeq, _, _⟩
      · exact fun hh => (hyne_new h2) (hpeq ▸ (hh.symm.trans hxnew))
      · exact fun hh => (hxlne_new h1) (hpeq ▸ (hh.symm.trans hxnew))
    · have h2 : L2.length ≠ 0 := by
        intro hh
        rw [List.length_eq_zero] at hh
        rw [hh] at hxL2
        exact absurd hxL2 (List.not_mem_nil x)
      have hxarg : a < x.1 := hL2a x hxL2
      have hnotxl : ∀ h1 : L1.length ≠ 0, x ≠ xl := by
        intro h1 hh
        rw [hh] at hxarg
        exact absurd (lt_trans hxarg (hxlarg h1)) (lt_irrefl _)
      by_cases hxy : x = y
      · have hB2 : isMaxSpec F (L1.length + 1) = true :=
          (maxSpecMem_iff_idx hsF (by rw [hlenF]; omega)
            ((ht2 h2).trans hxy.symm)).mp hMF
        refine ⟨(hm3' x).mpr (Or.inl ((hm2' x).mpr (Or.inr ⟨h2, hxy, hB2⟩))), ?_⟩
        intro p hp
        rcases (hte3' p).mp hp with ⟨_, _, hnB2, _⟩ | ⟨h1, hpeq, _, _⟩
        · exact fun _ => absurd hB2 hnB2
        · exact fun hh => hnotxl h1 (hh.trans hpeq)
      · have hMP : MaxSpecMem P x := (htr_right x hxL2 hxy).mpr hMF
        have hxM : x ∈ M := (hmem x).mpr hMP
        refine ⟨hmono23 x (hmono12 x (hmonoM1 x hxM)), ?_⟩
        intro p hp
        rcases (hte3' p).mp hp with ⟨_, hpeq, _, _⟩ | ⟨h1, hpeq, _, _⟩
        · exact fun hh => hxy (hh.trans hpeq)
        · exact fun hh => hnotxl h1 (hh.trans hpeq)

theorem erase_found_inv (L1 L2 : List Pt) (M : List Pt) {a w : Int}
    (hs : ArgSorted (L1 ++ (a, w) :: L2)) (hM : MaxSorted M)
    (hmem : ∀ x : Pt, x ∈ M ↔ MaxSpecMem (L1 ++ (a, w) :: L2) x) :
    (FunctionMaxima.erase ⟨L1 ++ (a, w) :: L2, M⟩ a).points = L1 ++ L2 ∧
    MaxSorted (FunctionMaxima.erase ⟨L1 ++ (a, w) :: L2, M⟩ a).maxima ∧
    ∀ x : Pt, x ∈ (FunctionMaxima.erase ⟨L1 ++ (a, w) :: L2, M⟩ a).maxima
      ↔ MaxSpecMem (L1 ++ L2) x := by
  obtain ⟨hL1, hL2⟩ := argSorted_mid hs
  have hL1a : ∀ q ∈ L1, q.1 < a := hL1
  have hL2a : ∀ q ∈ L2, a < q.1 := hL2
  rw [erase_found_eq L1 L2 M hs]
  dsimp only
  set P := L1 ++ (a, w) :: L2 with hP
  set F := L1 ++ L2 with hF
  have hsF : ArgSorted F := argSorted_drop_mid hs
  have hlenP : P.length = L1.length + L2.length + 1 := by
    rw [hP]
    simp only [List.length_append, List.length_cons]
    omega
  have hlenF : F.length = L1.length + L2.length := by
    rw [hF]
    simp only [List.length_append]
  set te0 := (if maxFindP M (a, w) then
    (List.replicate 5 (none : Option Pt)).set 0 (some (a, w))
    else List.replicate 5 none) with hte0def
  set st1 : MB := ⟨M, te0, List.replicate 4 none⟩ with hst1
  set st2 := conditional_addP P (L1.length + 1) L1.length 2 st1 with hst2
  set st3 := conditional_addP P (L1.length - 1) L1.length 3 st2 with hst3
  have hte0len : te0.length = 5 := by
    rw [hte0def]
    split_ifs
    · simp
    · simp
  have hte0slot : ∀ j, j ≠ 0 → te0.getD j none = none := by
    intro j hj
    rw [hte0def]
    split_ifs
    · rw [getD_set_ne_slot (fun hh => hj hh.symm)]
      exact getD_replicate_none
    · exact getD_replicate_none
  have hte0mem : ∀ x : Pt, some x ∈ te0 ↔ (x = (a, w) ∧ ((a, w) : Pt) ∈ M) := by
    intro x
    rw [hte0def]
    by_cases hf : maxFindP M (a, w) = true
    · rw [if_pos hf]
      rw [some_mem_set (by simp) getD_replicate_none]
      constructor
      · rintro (rfl | hx)
        · exact ⟨rfl, maxFindP_iff.mp hf⟩
        · exact absurd hx some_not_mem_replicate
      · rintro ⟨rfl, _⟩
        exact Or.inl rfl
    · rw [if_neg hf]
      constructor
      · intro hx
        exact absurd hx some_not_mem_replicate
      · rintro ⟨rfl, hx⟩
        exact absurd (maxFindP_iff.mpr hx) hf
  obtain ⟨hs2, hm2, he2, hr2, hle2, hlr2, hpe2, hpr2⟩ :=
    conditional_addP_spec P (L1.length + 1) L1.length 2 st1 hM
      (by show 2 < te0.length; rw [hte0len]; omega) (by simp [hst1])
      (by show te0.getD 2 none = none; exact hte0slot 2 (by omega)) (by simp [hst1])
  obtain ⟨hs3, hm3, he3, hr3, hle3, hlr3, hpe3, hpr3⟩ :=
    conditional_addP_spec P (L1.length - 1) L1.length 3 st2 hs2
      (by rw [hle2]; show 3 < te0.length; rw [hte0len]; omega)
      (by rw [hlr2]; simp [hst1])
      (by rw [hpe2 3 (by omega)]; exact hte0slot 3 (by omega))
      (by rw [hpr2 3 (by omega)]; simp [hst1])
  -- targets and classifications
  set y := L2.getD 0 dpt with hy
  have hyarg : L2.length ≠ 0 → a < y.1 := by
    intro h
    refine hL2a y ?_
    rw [hy, List.getD_eq_getElem _ _ (by omega)]
    exact List.getElem_mem _
  have hg2n : L2.length = 0 → (L1.length + 1 = P.length ∨ L1.length + 1 = L1.length) := by
    intro h
    rw [hlenP]
    omega
  have hg2 : L2.length ≠ 0 → ¬(L1.length + 1 = P.length ∨ L1.length + 1 = L1.length) := by
    intro h
    rw [hlenP]
    omega
  have ht2 : L2.length ≠ 0 → P.getD (L1.length + 1) dpt = y := by
    intro h
    rw [hP, getD_append_right_pt (j := 1) (by omega)]
    rw [hy]
    rfl
  have hb2 : L2.length ≠ 0 →
      ((is_maximumP P (L1.length + 1) L1.length = true) ↔ (isMaxSpec F L1.length = true)) := by
    intro h
    obtain ⟨y0, L2t, hL2c⟩ : ∃ y0 L2t, L2 = y0 :: L2t := by
      rcases L2 with _ | ⟨y0, L2t⟩
      · exact absurd rfl h
      · exact ⟨y0, L2t, rfl⟩
    have e1 : P = L1 ++ (a, w) :: y0 :: L2t := by
      rw [hP, hL2c]
    have e2 : F = L1 ++ y0 :: L2t := by
      rw [hF, hL2c]
    rw [e1, e2]
    exact ismax_erase_right L1 L2t (a, w) y0
  set xl := L1.getD (L1.length - 1) dpt with hxl
  have hxlarg : L1.length ≠ 0 → xl.1 < a := by
    intro h
    refine hL1a xl ?_
    rw [hxl, List.getD_eq_getElem _ _ (by omega)]
    exact List.getElem_mem _
  have hg3n : L1.length = 0 → (L1.length - 1 = P.length ∨ L1.length - 1 = L1.length) := by
    intro h
    omega
  have hg3 : L1.length ≠ 0 → ¬(L1.length - 1 = P.length ∨ L1.length - 1 = L1.length) := by
    intro h
    rw [hlenP]
    omega
  have ht3 : L1.length ≠ 0 → P.getD (L1.length - 1) dpt = xl := by
    intro h
    rw [hP, getD_append_left_pt (by omega), hxl]
  have ht3F : L1.length ≠ 0 → F.getD (L1.length - 1) dpt = xl := by
    intro h
    rw [hF, getD_append_left_pt (by omega), hxl]
  have hb3 : L1.length ≠ 0 →
      ((is_maximumP P (L1.length - 1) L1.length = true) ↔ (isMaxSpec F (L1.length - 1) = true)) := by
    intro h
    obtain ⟨L1t, xe, hcc⟩ : ∃ L1t xe, L1 = L1t ++ [xe] := by
      rcases List.eq_nil_or_concat L1 with hnil | hcc
      · exact absurd (by rw [hnil]; rfl) h
      · obtain ⟨L1t, xe, hcc⟩ := hcc
        exact ⟨L1t, xe, by rw [hcc, List.concat_eq_append]⟩
    have e1 : P = L1t ++ xe :: (a, w) :: L2 := by
      rw [hP, hcc]
      simp
    have e2 : F = L1t ++ xe :: L2 := by
      rw [hF, hcc]
      simp
    have e3 : L1.length - 1 = L1t.length := by
      rw [hcc]
      simp
    have e4 : L1.length = L1t.length + 1 := by
      rw [hcc]
      simp
    rw [e1, e2, e3, e4]
    exact ismax_erase_left L1t L2 xe (a, w)
  have hFgdy : L2.length ≠ 0 → F.getD L1.length dpt = y := by
    intro h
    rw [hF, getD_append_right_pt (j := 0) (by omega)]
  -- clean membership formulas
  have hm2' : ∀ x : Pt, x ∈ st2.maxima ↔
      (x ∈ M ∨ (L2.length ≠ 0 ∧ x = y ∧ isMaxSpec F L1.length = true)) := by
    intro x
    rw [hm2 x]
    show x ∈ M ∨ _ ↔ _
    by_cases h2 : L2.length = 0
    · constructor
      · rintro (hx | ⟨hg, _⟩)
        · exact Or.inl hx
        · exact absurd (hg2n h2) hg
      · rintro (hx | ⟨h2', _⟩)
        · exact Or.inl hx
        · exact absurd h2 h2'
    · rw [ht2 h2]
      constructor
      · rintro (hx | ⟨_, hxeq, hb, _⟩)
        · exact Or.inl hx
        · exact Or.inr ⟨h2, hxeq, (hb2 h2).mp hb⟩
      · rintro (hx | ⟨_, hxeq, hB⟩)
        · exact Or.inl hx
        · by_cases hx1 : x ∈ M
          · exact Or.inl hx1
          · exact Or.inr ⟨hg2 h2, hxeq, (hb2 h2).mpr hB, hx1⟩
  have hte2' : ∀ x : Pt, some x ∈ st2.to_erase ↔
      ((x = (a, w) ∧ ((a, w) : Pt) ∈ M) ∨
       (L2.length ≠ 0 ∧ x = y ∧ ¬(isMaxSpec F L1.length = true) ∧ x ∈ M)) := by
    intro x
    rw [he2 x]
    show some x ∈ te0 ∨ _ ↔ _
    by_cases h2 : L2.length = 0
    · constructor
      · rintro (hx | ⟨hg, _⟩)
        · exact Or.inl ((hte0mem x).mp hx)
        · exact absurd (hg2n h2) hg
      · rintro (hx | ⟨h2', _⟩)
        · exact Or.inl ((hte0mem x).mpr hx)
        · exact absurd h2 h2'
    · rw [ht2 h2]
      constructor
      · rintro (hx | ⟨_, hxeq, hb, hx1⟩)
        · exact Or.inl ((hte0mem x).mp hx)
        · refine Or.inr ⟨h2, hxeq, fun hB => ?_, hx1⟩
          rw [(hb2 h2).mpr hB] at hb
          exact Bool.true_eq_false.mp hb
      · rintro (hx | ⟨_, hxeq, hnB, hx1⟩)
        · exact Or.inl ((hte0mem x).mpr hx)
        · refine Or.inr ⟨hg2 h2, hxeq, ?_, hx1⟩
          rcases hbool : is_maximumP P (L1.length + 1) L1.length with _ | _
          · rfl
          · exact absurd ((hb2 h2).mp hbool) hnB
  have hm3' : ∀ x : Pt, x ∈ st3.maxima ↔
      (x ∈ st2.maxima ∨ (L1.length ≠ 0 ∧ x = xl ∧ isMaxSpec F (L1.length - 1) = true)) := by
    intro x
    rw [hm3 x]
    by_cases h1 : L1.length = 0
    · constructor
      · rintro (hx | ⟨hg, _⟩)
        · exact Or.inl hx
        · exact absurd (hg3n h1) hg
      · rintro (hx | ⟨h1', _⟩)
        · exact Or.inl hx
        · exact absurd h1 h1'
    · rw [ht3 h1]
      constructor
      · rintro (hx | ⟨_, hxeq, hb, _⟩)
        · exact Or.inl hx
        · exact Or.inr ⟨h1, hxeq, (hb3 h1).mp hb⟩
      · rintro (hx | ⟨_, hxeq, hB⟩)
        · exact Or.inl hx
        · by_cases hx2 : x ∈ st2.maxima
          · exact Or.inl hx2
          · exact Or.inr ⟨hg3 h1, hxeq, (hb3 h1).mpr hB, hx2⟩
  have hte3' : ∀ x : Pt, some x ∈ st3.to_erase ↔
      (((x = (a, w) ∧ ((a, w) : Pt) ∈ M) ∨
        (L2.length ≠ 0 ∧ x = y ∧ ¬(isMaxSpec F L1.length = true) ∧ x ∈ M)) ∨
       (L1.length ≠ 0 ∧ x = xl ∧ ¬(isMaxSpec F (L1.length - 1) = true) ∧ x ∈ st2.maxima)) := by
    intro x
    rw [he3 x]
    by_cases h1 : L1.length = 0
    · constructor
      · rintro (hx | ⟨hg, _⟩)
        · exact Or.inl ((hte2' x).mp hx)
        · exact absurd (hg3n h1) hg
      · rintro (hx | ⟨h1', _⟩)
        · exact Or.inl ((hte2' x).mpr hx)
        · exact absurd h1 h1'
    · rw [ht3 h1]
      constructor
      · rintro (hx | ⟨_, hxeq, hb, hx2⟩)
        · exact Or.inl ((hte2' x).mp hx)
        · refine Or.inr ⟨h1, hxeq, fun hB => ?_, hx2⟩
          rw [(hb3 h1).mpr hB] at hb
          exact Bool.true_eq_false.mp hb
      · rintro (hx | ⟨_, hxeq, hnB, hx2⟩)
        · exact Or.inl ((hte2' x).mpr hx)
        · refine Or.inr ⟨hg3 h1, hxeq, ?_, hx2⟩
          rcases hbool : is_maximumP P (L1.length - 1) L1.length with _ | _
          · rfl
          · exact absurd ((hb3 h1).mp hbool) hnB
  have hmono23 : ∀ x : Pt, x ∈ st2.maxima → x ∈ st3.maxima := fun x h => (hm3' x).mpr (Or.inl h)
  have hmonoM2 : ∀ x : Pt, x ∈ M → x ∈ st2.maxima := fun x h => (hm2' x).mpr (Or.inl h)
  -- transfer for untouched points
  have htr_left : ∀ x ∈ L1, x ≠ xl → (MaxSpecMem P x ↔ MaxSpecMem F x) := by
    intro x hxL hne
    obtain ⟨i, hi, hgd⟩ := mem_idx_of_ne_last hxL (by rw [← hxl]; exact hne)
    have hPi : P.getD i dpt = x := by
      rw [hP, getD_append_left_pt (by omega), hgd]
    have hFi : F.getD i dpt = x := by
      rw [hF, getD_append_left_pt (by omega), hgd]
    rw [maxSpecMem_iff_idx hs (by rw [hlenP]; omega) hPi,
      maxSpecMem_iff_idx hsF (by rw [hlenF]; omega) hFi]
    have htr := isMaxSpec_left_transfer ((a, w) :: L2) L2 hi
    rw [← hP, ← hF] at htr
    rw [htr]
  have htr_right : ∀ x ∈ L2, x ≠ y → (MaxSpecMem P x ↔ MaxSpecMem F x) := by
    intro x hxL hne
    obtain ⟨j, hj1, hj2, hgd⟩ := mem_idx_of_ne_head hxL (by rw [← hy]; exact hne)
    have hPr : P = (L1 ++ [(a, w)]) ++ L2 := by
      rw [hP]
      simp
    have hPi : P.getD (L1.length + 1 + j) dpt = x := by
      rw [hPr, getD_append_right_pt
        (show L1.length + 1 + j = (L1 ++ [(a, w)]).length + j by simp), hgd]
    have hFi : F.getD (L1.length + j) dpt = x := by
      rw [hF, getD_append_right_pt (show L1.length + j = L1.length + j from rfl), hgd]
    rw [maxSpecMem_iff_idx hs (by rw [hlenP]; omega) hPi,
      maxSpecMem_iff_idx hsF (by rw [hlenF]; omega) hFi]
    have htr := isMaxSpec_right_transfer (L1 ++ [(a, w)]) L1 hj1 hj2
    rw [← hPr, ← hF] at htr
    rw [show (L1 ++ [(a, w)]).length + j = L1.length + 1 + j by simp] at htr
    rw [htr]
  have hxmemF : ∀ x : Pt, x ∈ F ↔ (x ∈ L1 ∨ x ∈ L2) := by
    intro x
    rw [hF]
    simp
  have hxmemP : ∀ x : Pt, x ∈ P ↔ (x ∈ L1 ∨ x = (a, w) ∨ x ∈ L2) := by
    intro x
    rw [hP]
    simp
  refine ⟨rfl, maxSorted_applyErase hs3, ?_⟩
  intro x
  rw [mem_applyErase (maxSorted_nodup hs3)]
  constructor
  · rintro ⟨hx3, hner⟩
    rcases (hm3' x).mp hx3 with hx2 | ⟨h1, hxeq, hB3⟩
    · rcases (hm2' x).mp hx2 with hxM | ⟨h2, hxeq, hB2⟩
      · have hxP : x ∈ P := maxSpecMem_mem ((hmem x).mp hxM)
        rcases (hxmemP x).mp hxP with hxL1 | hxold | hxL2
        · have h1 : L1.length ≠ 0 := by
            intro hh
            rw [List.length_eq_zero] at hh
            rw [hh] at hxL1
            exact absurd hxL1 (List.not_mem_nil x)
          by_cases hxxl : x = xl
          · have hB3 : isMaxSpec F (L1.length - 1) = true := by
              by_contra hnB
              exact hner x ((hte3' x).mpr (Or.inr ⟨h1, hxxl, hnB, hx2⟩)) rfl
            exact (maxSpecMem_iff_idx hsF (by rw [hlenF]; omega)
              ((ht3F h1).trans hxxl.symm)).mpr hB3
          · exact (htr_left x hxL1 hxxl).mp ((hmem x).mp hxM)
        · exact absurd hxold (hner (a, w) ((hte3' (a, w)).mpr
            (Or.inl (Or.inl ⟨rfl, hxold ▸ hxM⟩))))
        · have h2 : L2.length ≠ 0 := by
            intro hh
            rw [List.length_eq_zero] at hh
            rw [hh] at hxL2
            exact absurd hxL2 (List.not_mem_nil x)
          by_cases hxy : x = y
          · have hB2 : isMaxSpec F L1.length = true := by
              by_contra hnB
              exact hner x ((hte3' x).mpr (Or.inl (Or.inr ⟨h2, hxy, hnB, hxM⟩))) rfl
            exact (maxSpecMem_iff_idx hsF (by rw [hlenF]; omega)
              ((hFgdy h2).trans hxy.symm)).mpr hB2
          · exact (htr_right x hxL2 hxy).mp ((hmem x).mp hxM)
      · exact (maxSpecMem_iff_idx hsF (by rw [hlenF]; omega)
          ((hFgdy h2).trans hxeq.symm)).mpr hB2
    · exact (maxSpecMem_iff_idx hsF (by rw [hlenF]; omega)
        ((ht3F h1).trans hxeq.symm)).mpr hB3
  · intro hMF
    have hxF : x ∈ F := maxSpecMem_mem hMF
    rcases (hxmemF x).mp hxF with hxL1 | hxL2
    · have h1 : L1.length ≠ 0 := by
        intro hh
        rw [List.length_eq_zero] at hh
        rw [hh] at hxL1
        exact absurd hxL1 (List.not_mem_nil x)
      have hxarg : x.1 < a := hL1a x hxL1
      have hnotold : x ≠ (a, w) := by
        intro hh
        rw [hh] at hxarg
        exact lt_irrefl a hxarg
      have hnoty : ∀ h2 : L2.length ≠ 0, x ≠ y := by
        intro h2 hh
        rw [hh] at hxarg
        exact absurd (lt_trans (hyarg h2) hxarg) (lt_irrefl a)
      by_cases hxxl : x = xl
      · have hB3 : isMaxSpec F (L1.length - 1) = true :=
          (maxSpecMem_iff_idx hsF (by rw [hlenF]; omega)
            ((ht3F h1).trans hxxl.symm)).mp hMF
        refine ⟨(hm3' x).mpr (Or.inr ⟨h1, hxxl, hB3⟩), ?_⟩
        intro p hp
        rcases (hte3' p).mp hp with (⟨hpeq, _⟩ | ⟨h2, hpeq, _, _⟩) | ⟨_, _, hnB3, _⟩
        · exact fun hh => hnotold (hh.trans hpeq)
        · exact fun hh => hnoty h2 (hh.trans hpeq)
        · exact fun _ => absurd hB3 hnB3
      · have hMP : MaxSpecMem P x := (htr_left x hxL1 hxxl).mpr hMF
        have hxM : x ∈ M := (hmem x).mpr hMP
        refine ⟨hmono23 x (hmonoM2 x hxM), ?_⟩
        intro p hp
        rcases (hte3' p).mp hp with (⟨hpeq, _⟩ | ⟨h2, hpeq, _, _⟩) | ⟨_, hpeq, _, _⟩
        · exact fun hh => hnotold (hh.trans hpeq)
        · exact fun hh => hnoty h2 (hh.trans hpeq)
        · exact fun hh => hxxl (hh.trans hpeq)
    · have h2 : L2.length ≠ 0 := by
        intro hh
        rw [List.length_eq_zero] at hh
        rw [hh] at hxL2
        exact absurd hxL2 (List.not_mem_nil x)
      have hxarg : a < x.1 := hL2a x hxL2
      have hnotold : x ≠ (a, w) := by
        intro hh
        rw [hh] at hxarg
        exact lt_irrefl a hxarg
      have hnotxl : ∀ h1 : L1.length ≠ 0, x ≠ xl := by
        intro h1 hh
        rw [hh] at hxarg
        exact absurd (lt_trans hxarg (hxlarg h1)) (lt_irrefl _)
      by_cases hxy : x = y
      · have hB2 : isMaxSpec F L1.length = true :=
          (maxSpecMem_iff_idx hsF (by rw [hlenF]; omega)
            ((hFgdy h2).trans hxy.symm)).mp hMF
        refine ⟨hmono23 x ((hm2' x).mpr (Or.inr ⟨h2, hxy, hB2⟩)), ?_⟩
        intro p hp
        rcases (hte3' p).mp hp with (⟨hpeq, _⟩ | ⟨_, _, hnB2, _⟩) | ⟨h1, hpeq, _, _⟩
        · exact fun hh => hnotold (hh.trans hpeq)
        · exact fun _ => absurd hB2 hnB2
        · exact fun hh => hnotxl h1 (hh.trans hpeq)
      · have hMP : MaxSpecMem P x := (htr_right x hxL2 hxy).mpr hMF
        have hxM : x ∈ M := (hmem x).mpr hMP
        refine ⟨hmono23 x (hmonoM2 x hxM), ?_⟩
        intro p hp
        rcases (hte3' p).mp hp with (⟨hpeq, _⟩ | ⟨_, hpeq, _, _⟩) | ⟨h1, hpeq, _, _⟩
        · exact fun hh => hnotold (hh.trans hpeq)
        · exact fun hh => hxy (hh.trans hpeq)
        · exact fun hh => hnotxl h1 (hh.trans hpeq)

/-! ### The representation invariant is preserved by every public call -/

theorem repInv_empty : RepInv FunctionMaxima.empty := by
  refine ⟨List.Pairwise.nil, List.Pairwise.nil, ?_⟩
  intro x
  constructor
  · intro hx
    exact absurd hx (List.not_mem_nil x)
  · rintro ⟨i, hi, _⟩
    simp [FunctionMaxima.empty] at hi

theorem repInv_set_value (s : FunctionMaxima) (a v : Int) (h : RepInv s) :
    RepInv (FunctionMaxima.set_value s a v) := by
  obtain ⟨pts, M⟩ := s
  obtain ⟨hsort, hMsort, hmem⟩ := h
  show RepInv (FunctionMaxima.custom_insert ⟨pts, M⟩ a v)
  by_cases hj : find_arg pts a = pts.length
  · have hnone : ∀ q ∈ pts, q.1 ≠ a := find_arg_eq_length.mp hj
    obtain ⟨L1, L2, rfl, hL1a, hL2a⟩ := split_not_mem hsort hnone
    obtain ⟨hpt, hmx, hmm⟩ := custom_insert_notfound_inv L1 L2 M a v hsort hMsort hL1a hL2a hmem
    refine ⟨?_, hmx, ?_⟩
    · rw [hpt]
      exact argSorted_insert_mid hL1a hL2a hsort
    · intro x
      rw [hpt]
      exact hmm x
  · have hlt : find_arg pts a < pts.length := lt_of_le_of_ne (find_arg_le pts a) hj
    obtain ⟨L1, p, L2, hdec, hparg, hfj⟩ := find_arg_lt_decomp hlt
    have hp : p = (a, p.2) := by
      rw [← hparg]
    subst hdec
    rw [hp] at hsort hmem ⊢
    obtain ⟨hL1a, hL2a⟩ := argSorted_mid hsort
    have hfind : find_arg (L1 ++ (a, p.2) :: L2) a = L1.length := by
      rw [find_arg_append (fun q hq => ne_of_lt (hL1a q hq)), find_arg_cons_eq rfl]
      omega
    have hlen2 : (L1 ++ (a, p.2) :: L2).length = L1.length + L2.length + 1 := by
      simp only [List.length_append, List.length_cons]
      omega
    have hval : valAt (L1 ++ (a, p.2) :: L2) L1.length = p.2 := by
      rw [valAt_append_right (j := 0) (by omega)]
      rfl
    by_cases heq : equivalentP v p.2 = true
    · rw [custom_insert_noop_eq ⟨L1 ++ (a, p.2) :: L2, M⟩ a v
        (by show find_arg (L1 ++ (a, p.2) :: L2) a ≠ _; rw [hfind, hlen2]; omega)
        (by show equivalentP v (valAt (L1 ++ (a, p.2) :: L2) (find_arg (L1 ++ (a, p.2) :: L2) a)) = true
            rw [hfind, hval]
            exact heq)]
      exact ⟨hsort, hMsort, hmem⟩
    · have hneq : equivalentP v p.2 = false := (Bool.not_eq_true _) ▸ heq
      obtain ⟨hpt, hmx, hmm⟩ := custom_insert_found_inv L1 L2 M v hsort hMsort hmem hneq
      refine ⟨?_, hmx, ?_⟩
      · rw [hpt]
        exact argSorted_replace hsort rfl
      · intro x
        rw [hpt]
        exact hmm x

theorem repInv_erase (s : FunctionMaxima) (a : Int) (h : RepInv s) :
    RepInv (FunctionMaxima.erase s a) := by
  obtain ⟨pts, M⟩ := s
  obtain ⟨hsort, hMsort, hmem⟩ := h
  by_cases hj : find_arg pts a = pts.length
  · have hnone : ∀ q ∈ pts, q.1 ≠ a := find_arg_eq_length.mp hj
    rw [erase_absent_eq ⟨pts, M⟩ a hnone]
    exact ⟨hsort, hMsort, hmem⟩
  · have hlt : find_arg pts a < pts.length := lt_of_le_of_ne (find_arg_le pts a) hj
    obtain ⟨L1, p, L2, hdec, hparg, hfj⟩ := find_arg_lt_decomp hlt
    have hp : p = (a, p.2) := by
      rw [← hparg]
    subst hdec
    rw [hp] at hsort hmem ⊢
    obtain ⟨hpt, hmx, hmm⟩ := erase_found_inv L1 L2 M hsort hMsort hmem
    refine ⟨?_, hmx, ?_⟩
    · rw [hpt]
      exact argSorted_drop_mid hsort
    · intro x
      rw [hpt]
      exact hmm x

theorem reachable_repInv {s : FunctionMaxima} (h : FunctionMaxima.Reachable s) : RepInv s := by
  induction h with
  | empty => exact repInv_empty
  | step_set s' a v _ ih => exact repInv_set_value s' a v ih
  | step_erase s' a _ ih => exact repInv_erase s' a ih

/-! ### Auxiliary characterisations of `value_at` -/

theorem value_at_ok_iff {s : FunctionMaxima} {a w : Int} :
    FunctionMaxima.value_at s a = Except.ok w ↔
      (find_arg s.points a ≠ s.points.length ∧ valAt s.points (find_arg s.points a) = w) := by
  unfold FunctionMaxima.value_at
  dsimp only
  split_ifs with h
  · simp [h]
  · simp [h]

theorem value_at_error_iff {s : FunctionMaxima} {a : Int} :
    FunctionMaxima.value_at s a = Except.error FunctionMaxima.InvalidArg.mk ↔
      find_arg s.points a = s.points.length := by
  unfold FunctionMaxima.value_at
  dsimp only
  split_ifs with h
  · simp [h]
  · simp [h]

theorem arg_absent_iff {s : FunctionMaxima} {a : Int} :
    (∀ q ∈ s.points, q.1 ≠ a) ↔ (∀ w : Int, ((a, w) : Pt) ∉ s.points) := by
  constructor
  · intro h w hw
    exact h (a, w) hw rfl
  · intro h q hq hqa
    exact h q.2 (by rw [show ((a, q.2) : Pt) = q from by rw [← hqa]]; exact hq)

/-- C8: `value_at(a)` fails with the `InvalidArg` error exactly when `a` has no
defined value; when defined it returns the stored value.  (The embedding of
`value_at` is a pure function of the object, so it mutates nothing.) -/
theorem value_at_spec (s : FunctionMaxima) (a : Int) :
    ((FunctionMaxima.value_at s a = Except.error FunctionMaxima.InvalidArg.mk)
      ↔ ∀ w : Int, ((a, w) : Pt) ∉ s.points) ∧
    (∀ w : Int, FunctionMaxima.value_at s a = Except.ok w → ((a, w) : Pt) ∈ s.points) := by
  constructor
  · rw [value_at_error_iff, find_arg_eq_length]
    exact arg_absent_iff
  · intro w hw
    obtain ⟨hne, hval⟩ := value_at_ok_iff.mp hw
    have hlt : find_arg s.points a < s.points.length :=
      lt_of_le_of_ne (find_arg_le s.points a) hne
    obtain ⟨L1, p, L2, hdec, hparg, hfj⟩ := find_arg_lt_decomp hlt
    have hget : s.points.getD (find_arg s.points a) dpt = p := by
      rw [hfj, hdec, getD_append_right_pt (j := 0) (by omega)]
      rfl
    have : ((a, w) : Pt) = p := by
      rw [← hparg, ← hval]
      rw [valAt, hget]
    rw [this, hdec]
    simp

/-- C8 witness. -/
theorem value_at_spec_witness :
    ((2 : Int), (2 : Int)) ∈
      (FunctionMaxima.set_value (FunctionMaxima.set_value FunctionMaxima.empty 1 1) 2 2).points :=
  (value_at_spec (FunctionMaxima.set_value (FunctionMaxima.set_value FunctionMaxima.empty 1 1) 2 2)
    2).2 2 (by decide)

/-- C7: the concrete scenario chain A–D of the specification: `set_value(1,1)`,
`set_value(2,2)`, `set_value(3,1)`, `erase(2)`, with the exact point sequences
and maxima sequences after each step. -/
theorem scenario_chain :
    (FunctionMaxima.set_value FunctionMaxima.empty 1 1).points = [(1, 1)] ∧
    (FunctionMaxima.set_value FunctionMaxima.empty 1 1).maxima = [(1, 1)] ∧
    (FunctionMaxima.set_value (FunctionMaxima.set_value FunctionMaxima.empty 1 1) 2 2).points
      = [(1, 1), (2, 2)] ∧
    (FunctionMaxima.set_value (FunctionMaxima.set_value FunctionMaxima.empty 1 1) 2 2).maxima
      = [(2, 2)] ∧
    (FunctionMaxima.set_value (FunctionMaxima.set_value
      (FunctionMaxima.set_value FunctionMaxima.empty 1 1) 2 2) 3 1).points
      = [(1, 1), (2, 2), (3, 1)] ∧
    (FunctionMaxima.set_value (FunctionMaxima.set_value
      (FunctionMaxima.set_value FunctionMaxima.empty 1 1) 2 2) 3 1).maxima
      = [(2, 2)] ∧
    (FunctionMaxima.erase (FunctionMaxima.set_value (FunctionMaxima.set_value
      (FunctionMaxima.set_value FunctionMaxima.empty 1 1) 2 2) 3 1) 2).points
      = [(1, 1), (3, 1)] ∧
    (FunctionMaxima.erase (FunctionMaxima.set_value (FunctionMaxima.set_value
      (FunctionMaxima.set_value FunctionMaxima.empty 1 1) 2 2) 3 1) 2).maxima
      = [(1, 1), (3, 1)] := by
  decide

/-- C4: `set_value(a, v)` with `a` already mapped to a `w` equivalent to `v`
(neither `v < w` nor `w < v`) is a no-op: the call returns the object
unchanged, so `size()`, the point sequence and the maxima sequence are all
identical to before the call. -/
theorem set_value_equiv_noop (s : FunctionMaxima) (a v w : Int)
    (hw : FunctionMaxima.value_at s a = Except.ok w)
    (h1 : ¬ v < w) (h2 : ¬ w < v) :
    FunctionMaxima.set_value s a v = s := by
  obtain ⟨hne, hval⟩ := value_at_ok_iff.mp hw
  apply custom_insert_noop_eq s a v hne
  rw [hval]
  unfold equivalentP
  simp [h1, h2]

/-- C4 witness. -/
theorem set_value_equiv_noop_witness :
    FunctionMaxima.set_value (FunctionMaxima.set_value FunctionMaxima.empty 1 5) 1 5
      = FunctionMaxima.set_value FunctionMaxima.empty 1 5 :=
  set_value_equiv_noop (FunctionMaxima.set_value FunctionMaxima.empty 1 5) 1 5 5
    (by decide) (by decide) (by decide)

/-- C1: after every completed public call, the maxima view holds exactly the
stored points whose defined argument-adjacent neighbours are not greater:
`p` is in the maxima view iff `p` is stored at some position of the
argument-sorted point sequence and the left neighbour is absent or not
greater, and the right neighbour is absent or not greater; no other point is
in the maxima view. -/
theorem maxima_view_invariant (s : FunctionMaxima) (h : FunctionMaxima.Reachable s) :
    ∀ p : Pt, p ∈ s.maxima ↔ MaxSpecMem s.points p :=
  (reachable_repInv h).2.2

/-- C1 witness. -/
theorem maxima_view_invariant_witness :
    ((2 : Int), (2 : Int)) ∈
      (FunctionMaxima.set_value (FunctionMaxima.set_value FunctionMaxima.empty 1 1) 2 2).maxima :=
  (maxima_view_invariant _
    (FunctionMaxima.Reachable.step_set _ 2 2
      (FunctionMaxima.Reachable.step_set _ 1 1 FunctionMaxima.Reachable.empty))
    (2, 2)).mpr (by decide)

/-! ### A point attaining the greatest value is always a local maximum -/

theorem exists_max_val : ∀ l : List Pt, l ≠ [] → ∃ p ∈ l, ∀ r ∈ l, r.2 ≤ p.2 := by
  intro l
  induction l with
  | nil => intro h; exact absurd rfl h
  | cons q rest ih =>
    intro _
    rcases rest with _ | ⟨r0, rest'⟩
    · exact ⟨q, List.mem_cons_self _ _, by
        intro r hr
        rcases List.mem_cons.mp hr with rfl | hr
        · exact le_refl _
        · exact absurd hr (List.not_mem_nil r)⟩
    · obtain ⟨p, hp, hmax⟩ := ih (by simp)
      by_cases hc : q.2 ≤ p.2
      · refine ⟨p, List.mem_cons_of_mem _ hp, ?_⟩
        intro r hr
        rcases List.mem_cons.mp hr with rfl | hr
        · exact hc
        · exact hmax r hr
      · refine ⟨q, List.mem_cons_self _ _, ?_⟩
        intro r hr
        rcases List.mem_cons.mp hr with rfl | hr
        · exact le_refl _
        · exact le_trans (hmax r hr) (le_of_not_le hc)

theorem isMaxSpec_of_argmax {l : List Pt} {i : Nat} (hi : i < l.length)
    (hmax : ∀ r ∈ l, r.2 ≤ (l.getD i dpt).2) : isMaxSpec l i = true := by
  unfold isMaxSpec
  simp only [Bool.and_eq_true, Bool.or_eq_true, decide_eq_true_eq, Bool.not_eq_true',
    decide_eq_false_iff_not]
  constructor
  · by_cases h0 : i = 0
    · exact Or.inl h0
    · refine Or.inr (not_lt_of_ge ?_)
      show valAt l (i - 1) ≤ valAt l i
      exact hmax (l.getD (i - 1) dpt)
        (by rw [List.getD_eq_getElem _ _ (by omega)]; exact List.getElem_mem _)
  · by_cases h1 : i = l.length - 1
    · exact Or.inl h1
    · refine Or.inr (not_lt_of_ge ?_)
      show valAt l (i + 1) ≤ valAt l i
      exact hmax (l.getD (i + 1) dpt)
        (by rw [List.getD_eq_getElem _ _ (by omega)]; exact List.getElem_mem _)

theorem argmax_mem_maxima (s : FunctionMaxima) (h : FunctionMaxima.Reachable s)
    {p : Pt} (hp : p ∈ s.points) (hmax : ∀ r ∈ s.points, r.2 ≤ p.2) : p ∈ s.maxima := by
  obtain ⟨i, hi, hget⟩ := List.mem_iff_getElem.mp hp
  have hgd : s.points.getD i dpt = p := by
    rw [List.getD_eq_getElem _ _ hi]
    exact hget
  refine ((reachable_repInv h).2.2 p).mpr ⟨i, hi, hgd, isMaxSpec_of_argmax hi ?_⟩
  rw [hgd]
  exact hmax

/-- C9: after every completed public call on a non-empty function, the maxima
view is non-empty: a stored point attaining the greatest value qualifies as a
local maximum. -/
theorem maxima_nonempty (s : FunctionMaxima) (h : FunctionMaxima.Reachable s)
    (hne : s.points ≠ []) : s.maxima ≠ [] := by
  obtain ⟨p, hp, hmax⟩ := exists_max_val s.points hne
  have hpm : p ∈ s.maxima := argmax_mem_maxima s h hp hmax
  intro hnil
  rw [hnil] at hpm
  exact absurd hpm (List.not_mem_nil p)

/-- C9 witness. -/
theorem maxima_nonempty_witness :
    (FunctionMaxima.set_value FunctionMaxima.empty 1 1).maxima ≠ [] :=
  maxima_nonempty (FunctionMaxima.set_value FunctionMaxima.empty 1 1)
    (FunctionMaxima.Reachable.step_set _ 1 1 FunctionMaxima.Reachable.empty)
    (by decide)

/-- C6: iterating the maxima view yields the maxima sorted by `compare_maxima`
(value descending, ties by argument ascending), and its first element attains
the greatest value currently present in the function. -/
theorem maxima_iteration_order (s : FunctionMaxima) (h : FunctionMaxima.Reachable s) :
    s.maxima.Pairwise MaxLt ∧
    (∀ p ∈ s.points, ∀ q : Pt, s.maxima.head? = some q → ¬ q.2 < p.2) := by
  have hinv := reachable_repInv h
  refine ⟨hinv.2.1, ?_⟩
  intro p hp q hq
  have hne : s.points ≠ [] := by
    intro hnil
    rw [hnil] at hp
    exact absurd hp (List.not_mem_nil p)
  obtain ⟨pm, hpm, hmax⟩ := exists_max_val s.points hne
  have hpmm : pm ∈ s.maxima := argmax_mem_maxima s h hpm hmax
  obtain ⟨m0, rest, hm⟩ : ∃ m0 rest, s.maxima = m0 :: rest := by
    rcases hsm : s.maxima with _ | ⟨m0, rest⟩
    · rw [hsm] at hq
      simp at hq
    · exact ⟨m0, rest, rfl⟩
  rw [hm] at hq hpmm
  have hq0 : m0 = q := by
    simpa using hq
  rw [hq0] at hm hpmm
  have hqge : pm.2 ≤ q.2 := by
    rcases List.mem_cons.mp hpmm with rfl | hrest
    · exact le_refl _
    · have hpw : List.Pairwise MaxLt (q :: rest) := by
        have hx := hinv.2.1
        rw [hm] at hx
        exact hx
      rw [List.pairwise_cons] at hpw
      have hlt : MaxLt q pm := hpw.1 pm hrest
      rw [MaxLt, cmpMaxP_iff] at hlt
      rcases hlt with hlt | ⟨heq, _⟩
      · exact le_of_lt hlt
      · exact le_of_eq heq.symm
  exact fun hlt => absurd (lt_of_le_of_lt (le_trans (hmax p hp) hqge) hlt) (lt_irrefl _)

/-- C6 witness. -/
theorem maxima_iteration_order_witness :
    ¬ (((2 : Int), (2 : Int)) : Pt).2 < (((1 : Int), (1 : Int)) : Pt).2 :=
  (maxima_iteration_order
    (FunctionMaxima.set_value (FunctionMaxima.set_value FunctionMaxima.empty 1 1) 2 2)
    (FunctionMaxima.Reachable.step_set _ 2 2
      (FunctionMaxima.Reachable.step_set _ 1 1 FunctionMaxima.Reachable.empty))).2
    (1, 1) (by decide) (2, 2) (by decide)

/-! ### The effect of the public calls on the point sequence -/

theorem set_value_points_shape (s : FunctionMaxima) (a v : Int) (h : RepInv s) :
    ((∀ w : Int, ((a, w) : Pt) ∉ s.points) ∧
      ∃ L1 L2, s.points = L1 ++ L2 ∧ (∀ q ∈ L1, q.1 < a) ∧ (∀ q ∈ L2, a < q.1) ∧
        (FunctionMaxima.set_value s a v).points = L1 ++ (a, v) :: L2) ∨
    ((∃ w : Int, ((a, w) : Pt) ∈ s.points) ∧
      ∃ L1 w L2, s.points = L1 ++ ((a, w) : Pt) :: L2 ∧
        (∀ q ∈ L1, q.1 < a) ∧ (∀ q ∈ L2, a < q.1) ∧
        (FunctionMaxima.set_value s a v).points = L1 ++ (a, v) :: L2) := by
  obtain ⟨pts, M⟩ := s
  obtain ⟨hsort, hMsort, hmem⟩ := h
  by_cases hj : find_arg pts a = pts.length
  · have hnone : ∀ q ∈ pts, q.1 ≠ a := find_arg_eq_length.mp hj
    obtain ⟨L1, L2, rfl, hL1a, hL2a⟩ := split_not_mem hsort hnone
    obtain ⟨hpt, _, _⟩ := custom_insert_notfound_inv L1 L2 M a v hsort hMsort hL1a hL2a hmem
    exact Or.inl ⟨(arg_absent_iff (s := ⟨L1 ++ L2, M⟩)).mp hnone, L1, L2, rfl, hL1a, hL2a, hpt⟩
  · have hlt : find_arg pts a < pts.length := lt_of_le_of_ne (find_arg_le pts a) hj
    obtain ⟨L1, p, L2, hdec, hparg, hfj⟩ := find_arg_lt_decomp hlt
    have hp : p = (a, p.2) := by
      rw [← hparg]
    subst hdec
    rw [hp] at hsort hmem ⊢
    obtain ⟨hL1a, hL2a⟩ := argSorted_mid hsort
    have hL1a' : ∀ q ∈ L1, q.1 < a := hL1a
    have hL2a' : ∀ q ∈ L2, a < q.1 := hL2a
    refine Or.inr ⟨⟨p.2, by simp⟩, L1, p.2, L2, rfl, hL1a', hL2a', ?_⟩
    by_cases heq : equivalentP v p.2 = true
    · have hvw : v = p.2 := by
        unfold equivalentP at heq
        simp only [Bool.and_eq_true, Bool.not_eq_true', decide_eq_false_iff_not] at heq
        omega
      have hfind : find_arg (L1 ++ (a, p.2) :: L2) a = L1.length := by
        rw [find_arg_append (fun q hq => ne_of_lt (hL1a' q hq)), find_arg_cons_eq rfl]
        omega
      have hlen2 : (L1 ++ (a, p.2) :: L2).length = L1.length + L2.length + 1 := by
        simp only [List.length_append, List.length_cons]
        omega
      have hval : valAt (L1 ++ (a, p.2) :: L2) L1.length = p.2 := by
        rw [valAt_append_right (j := 0) (by omega)]
        rfl
      rw [show FunctionMaxima.set_value ⟨L1 ++ (a, p.2) :: L2, M⟩ a v
          = ⟨L1 ++ (a, p.2) :: L2, M⟩ from custom_insert_noop_eq _ a v
            (by rw [hfind, hlen2]; omega) (by rw [hfind, hval]; exact heq)]
      rw [hvw]
    · have hneq : equivalentP v p.2 = false := (Bool.not_eq_true _) ▸ heq
      obtain ⟨hpt, _, _⟩ := custom_insert_found_inv L1 L2 M v hsort hMsort hmem hneq
      exact hpt

theorem erase_points_shape (s : FunctionMaxima) (a : Int) (h : RepInv s) :
    ((∀ w : Int, ((a, w) : Pt) ∉ s.points) ∧ FunctionMaxima.erase s a = s) ∨
    ((∃ w : Int, ((a, w) : Pt) ∈ s.points) ∧
      ∃ L1 w L2, s.points = L1 ++ ((a, w) : Pt) :: L2 ∧
        (∀ q ∈ L1, q.1 < a) ∧ (∀ q ∈ L2, a < q.1) ∧
        (FunctionMaxima.erase s a).points = L1 ++ L2) := by
  obtain ⟨pts, M⟩ := s
  obtain ⟨hsort, hMsort, hmem⟩ := h
  by_cases hj : find_arg pts a = pts.length
  · have hnone : ∀ q ∈ pts, q.1 ≠ a := find_arg_eq_length.mp hj
    exact Or.inl ⟨(arg_absent_iff (s := ⟨pts, M⟩)).mp hnone, erase_absent_eq ⟨pts, M⟩ a hnone⟩
  · have hlt : find_arg pts a < pts.length := lt_of_le_of_ne (find_arg_le pts a) hj
    obtain ⟨L1, p, L2, hdec, hparg, hfj⟩ := find_arg_lt_decomp hlt
    have hp : p = (a, p.2) := by
      rw [← hparg]
    subst hdec
    rw [hp] at hsort hmem ⊢
    obtain ⟨hL1a, hL2a⟩ := argSorted_mid hsort
    obtain ⟨hpt, _, _⟩ := erase_found_inv L1 L2 M hsort hMsort hmem
    exact Or.inr ⟨⟨p.2, by simp⟩, L1, p.2, L2, rfl, hL1a, hL2a, hpt⟩

/-- C5: after a (successful) `set_value(a, v)`, `value_at(a)` returns a value
equivalent to `v` (the embedded call with the total comparison always
completes). -/
theorem set_value_roundtrip (s : FunctionMaxima) (a v : Int)
    (h : FunctionMaxima.Reachable s) :
    ∃ w : Int, FunctionMaxima.value_at (FunctionMaxima.set_value s a v) a = Except.ok w ∧
      ¬ w < v ∧ ¬ v < w := by
  have hinv := reachable_repInv h
  refine ⟨v, ?_, lt_irrefl v, lt_irrefl v⟩
  have key : ∃ L1 L2 : List Pt, (∀ q ∈ L1, q.1 < a) ∧ (∀ q ∈ L2, a < q.1) ∧
      (FunctionMaxima.set_value s a v).points = L1 ++ (a, v) :: L2 := by
    rcases set_value_points_shape s a v hinv with ⟨_, L1, L2, _, h1, h2, hpt⟩ |
      ⟨_, L1, w, L2, _, h1, h2, hpt⟩
    · exact ⟨L1, L2, h1, h2, hpt⟩
    · exact ⟨L1, L2, h1, h2, hpt⟩
  obtain ⟨L1, L2, h1, h2, hpt⟩ := key
  rw [value_at_ok_iff, hpt]
  have hfind : find_arg (L1 ++ (a, v) :: L2) a = L1.length := by
    rw [find_arg_append (fun q hq => ne_of_lt (h1 q hq)), find_arg_cons_eq rfl]
    omega
  have hlen2 : (L1 ++ (a, v) :: L2).length = L1.length + L2.length + 1 := by
    simp only [List.length_append, List.length_cons]
    omega
  refine ⟨by rw [hfind, hlen2]; omega, ?_⟩
  rw [hfind, valAt_append_right (j := 0) (by omega)]
  rfl

/-- C5 witness. -/
theorem set_value_roundtrip_witness :
    ∃ w : Int, FunctionMaxima.value_at
        (FunctionMaxima.set_value FunctionMaxima.empty 7 3) 7 = Except.ok w ∧
      ¬ w < 3 ∧ ¬ (3 : Int) < w :=
  set_value_roundtrip FunctionMaxima.empty 7 3 FunctionMaxima.Reachable.empty

/-- C10: `size()` arithmetic (and `size()` is a total function of the object,
with no failure mode): a successful `set_value(a, v)` keeps `size()` unchanged
when `a` was defined and grows it by exactly one when `a` was absent; a
successful `erase(a)` shrinks `size()` by exactly one when `a` was present and
keeps it unchanged when absent. -/
theorem size_arithmetic (s : FunctionMaxima) (a v : Int)
    (h : FunctionMaxima.Reachable s) :
    ((∃ w : Int, FunctionMaxima.value_at s a = Except.ok w) →
      FunctionMaxima.size (FunctionMaxima.set_value s a v) = FunctionMaxima.size s) ∧
    (FunctionMaxima.value_at s a = Except.error FunctionMaxima.InvalidArg.mk →
      FunctionMaxima.size (FunctionMaxima.set_value s a v) = FunctionMaxima.size s + 1) ∧
    ((∃ w : Int, FunctionMaxima.value_at s a = Except.ok w) →
      FunctionMaxima.size (FunctionMaxima.erase s a) + 1 = FunctionMaxima.size s) ∧
    (FunctionMaxima.value_at s a = Except.error FunctionMaxima.InvalidArg.mk →
      FunctionMaxima.size (FunctionMaxima.erase s a) = FunctionMaxima.size s) := by
  have hinv := reachable_repInv h
  have habsent : FunctionMaxima.value_at s a = Except.error FunctionMaxima.InvalidArg.mk ↔
      (∀ w : Int, ((a, w) : Pt) ∉ s.points) := by
    rw [value_at_error_iff, find_arg_eq_length]
    exact arg_absent_iff
  have hpresent : (∃ w : Int, FunctionMaxima.value_at s a = Except.ok w) →
      ∃ w : Int, ((a, w) : Pt) ∈ s.points := by
    rintro ⟨w, hw⟩
    exact ⟨w, (value_at_spec s a).2 w hw⟩
  refine ⟨?_, ?_, ?_, ?_⟩
  · intro hok
    rcases set_value_points_shape s a v hinv with ⟨habs, _⟩ |
      ⟨_, L1, w, L2, hold, _, _, hpt⟩
    · obtain ⟨w, hw⟩ := hpresent hok
      exact absurd hw (habs w)
    · unfold FunctionMaxima.size
      rw [hpt, hold]
      simp
  · intro herr
    rcases set_value_points_shape s a v hinv with ⟨_, L1, L2, hold, _, _, hpt⟩ |
      ⟨⟨w, hw⟩, _⟩
    · unfold FunctionMaxima.size
      rw [hpt, hold]
      simp
      omega
    · exact absurd hw (habsent.mp herr w)
  · intro hok
    rcases erase_points_shape s a hinv with ⟨habs, _⟩ |
      ⟨_, L1, w, L2, hold, _, _, hpt⟩
    · obtain ⟨w, hw⟩ := hpresent hok
      exact absurd hw (habs w)
    · unfold FunctionMaxima.size
      rw [hpt, hold]
      simp
      omega
  · intro herr
    rcases erase_points_shape s a hinv with ⟨_, heq⟩ | ⟨⟨w, hw⟩, _⟩
    · rw [heq]
    · exact absurd hw (habsent.mp herr w)

/-- C10 witness. -/
theorem size_arithmetic_witness :
    FunctionMaxima.size (FunctionMaxima.set_value
      (FunctionMaxima.set_value FunctionMaxima.empty 1 1) 2 2)
      = FunctionMaxima.size (FunctionMaxima.set_value FunctionMaxima.empty 1 1) + 1 :=
  (size_arithmetic (FunctionMaxima.set_value FunctionMaxima.empty 1 1) 2 2
    (FunctionMaxima.Reachable.step_set _ 1 1 FunctionMaxima.Reachable.empty)).2.1 (by decide)

/-! ### Bridging the instrumented calls to the plain ones, and the rollback payloads -/

theorem vltE_ok {k : Option Nat} {v w : Int} {n : Nat} {b : Bool} {n' : Nat}
    (h : vltE k v w n = Except.ok (b, n')) : b = decide (v < w) := by
  by_cases hk : k = some n
  · rw [vltE, if_pos hk] at h
    exact absurd h (by simp)
  · rw [vltE, if_neg hk] at h
    simp only [Except.ok.injEq, Prod.mk.injEq] at h
    exact h.1.symm

theorem vltE_err {k : Option Nat} {v w : Int} {n : Nat} {e : Nat}
    (h : vltE k v w n = Except.error e) : k = some e := by
  by_cases hk : k = some n
  · rw [vltE, if_pos hk] at h
    simp only [Except.error.injEq] at h
    rw [hk, h]
  · rw [vltE, if_neg hk] at h
    exact absurd h (by simp)

theorem vltE_none (v w : Int) (n : Nat) :
    vltE none v w n = Except.ok (decide (v < w), n + 1) := by
  rw [vltE, if_neg (by simp)]

theorem equivalentE_ok {k : Option Nat} {v w : Int} {n : Nat} {b : Bool} {n' : Nat}
    (h : equivalentE k v w n = Except.ok (b, n')) : b = equivalentP v w := by
  unfold equivalentE at h
  cases h1 : vltE k v w n with
  | error e => rw [h1] at h; exact absurd h (by simp)
  | ok p =>
    obtain ⟨b1, n1⟩ := p
    rw [h1] at h
    have hb1 := vltE_ok h1
    cases b1 with
    | true =>
      dsimp only at h
      simp only [Except.ok.injEq, Prod.mk.injEq] at h
      rw [← h.1, equivalentP, ← hb1]
      simp
    | false =>
      dsimp only at h
      cases h2 : vltE k w v n1 with
      | error e => rw [h2] at h; exact absurd h (by simp)
      | ok q =>
        obtain ⟨b2, n2⟩ := q
        rw [h2] at h
        have hb2 := vltE_ok h2
        cases b2 with
        | true =>
          dsimp only at h
          simp only [Except.ok.injEq, Prod.mk.injEq] at h
          rw [← h.1, equivalentP, ← hb1, ← hb2]
          simp
        | false =>
          dsimp only at h
          simp only [Except.ok.injEq, Prod.mk.injEq] at h
          rw [← h.1, equivalentP, ← hb1, ← hb2]
          simp

theorem equivalentE_err {k : Option Nat} {v w : Int} {n : Nat} {e : Nat}
    (h : equivalentE k v w n = Except.error e) : k = some e := by
  unfold equivalentE at h
  cases h1 : vltE k v w n with
  | error e1 =>
    rw [h1] at h
    simp only [Except.error.injEq] at h
    exact h ▸ vltE_err h1
  | ok p =>
    obtain ⟨b1, n1⟩ := p
    rw [h1] at h
    cases b1 with
    | true =>
      dsimp only at h
      exact absurd h (by simp)
    | false =>
      dsimp only at h
      cases h2 : vltE k w v n1 with
      | error e2 =>
        rw [h2] at h
        simp only [Except.error.injEq] at h
        exact h ▸ vltE_err h2
      | ok q =>
        obtain ⟨b2, n2⟩ := q
        rw [h2] at h
        cases b2 with
        | true =>
          dsimp only at h
          exact absurd h (by simp)
        | false =>
          dsimp only at h
          exact absurd h (by simp)

theorem greater_than_nextE_ok {k : Option Nat} {l : List Pt} {p prev n : Nat}
    {b : Bool} {n' : Nat}
    (h : greater_than_nextE k l p prev n = Except.ok (b, n')) :
    b = greater_than_nextP l p prev := by
  unfold greater_than_nextE at h
  unfold greater_than_nextP
  by_cases hend : multi_is_ending l.length p prev = true
  · rw [if_pos hend] at h
    rw [if_pos hend]
    simp only [Except.ok.injEq, Prod.mk.injEq] at h
    exact h.1.symm
  · rw [if_neg hend] at h
    rw [if_neg hend]
    cases h1 : vltE k (valAt l p) (valAt l (multi_next l.length p prev)) n with
    | error e => rw [h1] at h; exact absurd h (by simp)
    | ok q =>
      obtain ⟨b1, n1⟩ := q
      rw [h1] at h
      dsimp only at h
      simp only [Except.ok.injEq, Prod.mk.injEq] at h
      rw [← h.1, vltE_ok h1]

theorem greater_than_nextE_err {k : Option Nat} {l : List Pt} {p prev n : Nat} {e : Nat}
    (h : greater_than_nextE k l p prev n = Except.error e) : k = some e := by
  unfold greater_than_nextE at h
  by_cases hend : multi_is_ending l.length p prev = true
  · rw [if_pos hend] at h
    exact absurd h (by simp)
  · rw [if_neg hend] at h
    cases h1 : vltE k (valAt l p) (valAt l (multi_next l.length p prev)) n with
    | error e1 =>
      rw [h1] at h
      simp only [Except.error.injEq] at h
      exact h ▸ vltE_err h1
    | ok q =>
      obtain ⟨b1, n1⟩ := q
      rw [h1] at h
      dsimp only at h
      exact absurd h (by simp)

theorem greater_than_prevE_ok {k : Option Nat} {l : List Pt} {p prev n : Nat}
    {b : Bool} {n' : Nat}
    (h : greater_than_prevE k l p prev n = Except.ok (b, n')) :
    b = greater_than_prevP l p prev := by
  unfold greater_than_prevE at h
  unfold greater_than_prevP
  by_cases hbeg : multi_is_beginning p prev = true
  · rw [if_pos hbeg] at h
    rw [if_pos hbeg]
    simp only [Except.ok.injEq, Prod.mk.injEq] at h
    exact h.1.symm
  · rw [if_neg hbeg] at h
    rw [if_neg hbeg]
    cases h1 : vltE k (valAt l p) (valAt l (multi_prev p prev)) n with
    | error e => rw [h1] at h; exact absurd h (by simp)
    | ok q =>
      obtain ⟨b1, n1⟩ := q
      rw [h1] at h
      dsimp only at h
      simp only [Except.ok.injEq, Prod.mk.injEq] at h
      rw [← h.1, vltE_ok h1]

theorem greater_than_prevE_err {k : Option Nat} {l : List Pt} {p prev n : Nat} {e : Nat}
    (h : greater_than_prevE k l p prev n = Except.error e) : k = some e := by
  unfold greater_than_prevE at h
  by_cases hbeg : multi_is_beginning p prev = true
  · rw [if_pos hbeg] at h
    exact absurd h (by simp)
  · rw [if_neg hbeg] at h
    cases h1 : vltE k (valAt l p) (valAt l (multi_prev p prev)) n with
    | error e1 =>
      rw [h1] at h
      simp only [Except.error.injEq] at h
      exact h ▸ vltE_err h1
    | ok q =>
      obtain ⟨b1, n1⟩ := q
      rw [h1] at h
      dsimp only at h
      exact absurd h (by simp)

theorem is_maximumE_ok {k : Option Nat} {l : List Pt} {p prev n : Nat}
    {b : Bool} {n' : Nat}
    (h : is_maximumE k l p prev n = Except.ok (b, n')) :
    b = is_maximumP l p prev := by
  unfold is_maximumE at h
  unfold is_maximumP
  cases h1 : greater_than_prevE k l p prev n with
  | error e => rw [h1] at h; exact absurd h (by simp)
  | ok q =>
    obtain ⟨b1, n1⟩ := q
    rw [h1] at h
    have hb1 := greater_than_prevE_ok h1
    cases b1 with
    | false =>
      dsimp only at h
      simp only [Except.ok.injEq, Prod.mk.injEq] at h
      rw [← h.1, ← hb1]
      simp
    | true =>
      dsimp only at h
      rw [← hb1]
      simp only [Bool.true_and]
      exact greater_than_nextE_ok h

theorem is_maximumE_err {k : Option Nat} {l : List Pt} {p prev n : Nat} {e : Nat}
    (h : is_maximumE k l p prev n = Except.error e) : k = some e := by
  unfold is_maximumE at h
  cases h1 : greater_than_prevE k l p prev n with
  | error e1 =>
    rw [h1] at h
    simp only [Except.error.injEq] at h
    exact h ▸ greater_than_prevE_err h1
  | ok q =>
    obtain ⟨b1, n1⟩ := q
    rw [h1] at h
    cases b1 with
    | false =>
      dsimp only at h
      exact absurd h (by simp)
    | true =>
      dsimp only at h
      exact greater_than_nextE_err h

theorem cmpMaxE_ok {k : Option Nat} {l r : Pt} {n : Nat} {b : Bool} {n' : Nat}
    (h : cmpMaxE k l r n = Except.ok (b, n')) : b = cmpMaxP l r := by
  unfold cmpMaxE at h
  unfold cmpMaxP
  cases h1 : vltE k r.2 l.2 n with
  | error e => rw [h1] at h; exact absurd h (by simp)
  | ok q =>
    obtain ⟨b1, n1⟩ := q
    rw [h1] at h
    have hb1 := (vltE_ok h1).symm
    cases b1 with
    | true =>
      dsimp only at h
      simp only [Except.ok.injEq, Prod.mk.injEq] at h
      rw [if_pos (of_decide_eq_true hb1)]
      exact h.1.symm
    | false =>
      dsimp only at h
      rw [if_neg (of_decide_eq_false hb1)]
      cases h2 : vltE k l.2 r.2 n1 with
      | error e => rw [h2] at h; exact absurd h (by simp)
      | ok q2 =>
        obtain ⟨b2, n2⟩ := q2
        rw [h2] at h
        have hb2 := (vltE_ok h2).symm
        cases b2 with
        | true =>
          dsimp only at h
          simp only [Except.ok.injEq, Prod.mk.injEq] at h
          rw [if_pos (of_decide_eq_true hb2)]
          exact h.1.symm
        | false =>
          dsimp only at h
          simp only [Except.ok.injEq, Prod.mk.injEq] at h
          rw [if_neg (of_decide_eq_false hb2)]
          exact h.1.symm

theorem cmpMaxE_err {k : Option Nat} {l r : Pt} {n : Nat} {e : Nat}
    (h : cmpMaxE k l r n = Except.error e) : k = some e := by
  unfold cmpMaxE at h
  cases h1 : vltE k r.2 l.2 n with
  | error e1 =>
    rw [h1] at h
    simp only [Except.error.injEq] at h
    exact h ▸ vltE_err h1
  | ok q =>
    obtain ⟨b1, n1⟩ := q
    rw [h1] at h
    cases b1 with
    | true =>
      dsimp only at h
      exact absurd h (by simp)
    | false =>
      dsimp only at h
      cases h2 : vltE k l.2 r.2 n1 with
      | error e2 =>
        rw [h2] at h
        simp only [Except.error.injEq] at h
        exact h ▸ vltE_err h2
      | ok q2 =>
        obtain ⟨b2, n2⟩ := q2
        rw [h2] at h
        cases b2 with
        | true =>
          dsimp only at h
          exact absurd h (by simp)
        | false =>
          dsimp only at h
          exact absurd h (by simp)

theorem maxFindE_ok {k : Option Nat} {p : Pt} :
    ∀ {m : List Pt} {n : Nat} {b : Bool} {n' : Nat},
      maxFindE k m p n = Except.ok (b, n') → b = maxFindP m p := by
  intro m
  induction m with
  | nil =>
    intro n b n' h
    unfold maxFindE at h
    simp only [Except.ok.injEq, Prod.mk.injEq] at h
    rw [← h.1]
    simp [maxFindP]
  | cons q rest ih =>
    intro n b n' h
    unfold maxFindE at h
    cases h1 : cmpMaxE k q p n with
    | error e => rw [h1] at h; exact absurd h (by simp)
    | ok r1 =>
      obtain ⟨c1, n1⟩ := r1
      rw [h1] at h
      dsimp only at h
      cases h2 : cmpMaxE k p q n1 with
      | error e => rw [h2] at h; exact absurd h (by simp)
      | ok r2 =>
        obtain ⟨c2, n2⟩ := r2
        rw [h2] at h
        dsimp only at h
        have hc1 := cmpMaxE_ok h1
        have hc2 := cmpMaxE_ok h2
        by_cases hcc : (!c1 && !c2) = true
        · rw [if_pos hcc] at h
          simp only [Except.ok.injEq, Prod.mk.injEq] at h
          rw [← h.1]
          have : (!cmpMaxP q p && !cmpMaxP p q) = true := by
            rw [← hc1, ← hc2]
            exact hcc
          simp [maxFindP, List.any_cons, this]
        · rw [if_neg hcc] at h
          have : (!cmpMaxP q p && !cmpMaxP p q) = false := by
            rw [← hc1, ← hc2]
            exact (Bool.not_eq_true _) ▸ hcc
          rw [ih h]
          simp [maxFindP, List.any_cons, this]

theorem maxFindE_err {k : Option Nat} {p : Pt} :
    ∀ {m : List Pt} {n : Nat} {e : Nat},
      maxFindE k m p n = Except.error e → k = some e := by
  intro m
  induction m with
  | nil =>
    intro n e h
    unfold maxFindE at h
    exact absurd h (by simp)
  | cons q rest ih =>
    intro n e h
    unfold maxFindE at h
    cases h1 : cmpMaxE k q p n with
    | error e1 =>
      rw [h1] at h
      simp only [Except.error.injEq] at h
      exact h ▸ cmpMaxE_err h1
    | ok r1 =>
      obtain ⟨c1, n1⟩ := r1
      rw [h1] at h
      dsimp only at h
      cases h2 : cmpMaxE k p q n1 with
      | error e2 =>
        rw [h2] at h
        simp only [Except.error.injEq] at h
        exact h ▸ cmpMaxE_err h2
      | ok r2 =>
        obtain ⟨c2, n2⟩ := r2
        rw [h2] at h
        dsimp only at h
        by_cases hcc : (!c1 && !c2) = true
        · rw [if_pos hcc] at h
          exact absurd h (by simp)
        · rw [if_neg hcc] at h
          exact ih h

theorem maxInsertE_ok {k : Option Nat} {p : Pt} :
    ∀ {m : List Pt} {n : Nat} {m1 : List Pt} {n' : Nat},
      maxInsertE k m p n = Except.ok (m1, n') → m1 = maxInsertP m p := by
  intro m
  induction m with
  | nil =>
    intro n m1 n' h
    unfold maxInsertE at h
    simp only [Except.ok.injEq, Prod.mk.injEq] at h
    rw [← h.1]
    rfl
  | cons q rest ih =>
    intro n m1 n' h
    unfold maxInsertE at h
    cases h1 : cmpMaxE k p q n with
    | error e => rw [h1] at h; exact absurd h (by simp)
    | ok r1 =>
      obtain ⟨c1, n1⟩ := r1
      rw [h1] at h
      have hc1 := cmpMaxE_ok h1
      cases c1 with
      | true =>
        dsimp only at h
        simp only [Except.ok.injEq, Prod.mk.injEq] at h
        rw [← h.1, maxInsertP, if_pos hc1.symm]
      | false =>
        dsimp only at h
        cases h2 : maxInsertE k rest p n1 with
        | error e => rw [h2] at h; exact absurd h (by simp)
        | ok r2 =>
          obtain ⟨rest1, n2⟩ := r2
          rw [h2] at h
          dsimp only at h
          simp only [Except.ok.injEq, Prod.mk.injEq] at h
          rw [← h.1, maxInsertP, if_neg (by rw [← hc1]; simp), ih h2]

theorem maxInsertE_err {k : Option Nat} {p : Pt} :
    ∀ {m : List Pt} {n : Nat} {e : Nat},
      maxInsertE k m p n = Except.error e → k = some e := by
  intro m
  induction m with
  | nil =>
    intro n e h
    unfold maxInsertE at h
    exact absurd h (by simp)
  | cons q rest ih =>
    intro n e h
    unfold maxInsertE at h
    cases h1 : cmpMaxE k p q n with
    | error e1 =>
      rw [h1] at h
      simp only [Except.error.injEq] at h
      exact h ▸ cmpMaxE_err h1
    | ok r1 =>
      obtain ⟨c1, n1⟩ := r1
      rw [h1] at h
      cases c1 with
      | true =>
        dsimp only at h
        exact absurd h (by simp)
      | false =>
        dsimp only at h
        cases h2 : maxInsertE k rest p n1 with
        | error e2 =>
          rw [h2] at h
          simp only [Except.error.injEq] at h
          exact h ▸ ih h2
        | ok r2 =>
          obtain ⟨rest1, n2⟩ := r2
          rw [h2] at h
          dsimp only at h
          exact absurd h (by simp)

theorem conditional_addE_ok {k : Option Nat} {pts : List Pt} {it prev i : Nat}
    {st : MB} {n : Nat} {st' : MB} {n' : Nat}
    (h : conditional_addE k pts it prev i st n = Except.ok (st', n')) :
    st' = conditional_addP pts it prev i st := by
  unfold conditional_addE at h
  unfold conditional_addP
  by_cases hguard : it = pts.length || it = prev
  · rw [if_pos hguard] at h
    rw [if_pos (by simpa using hguard)]
    simp only [Except.ok.injEq, Prod.mk.injEq] at h
    exact h.1.symm
  · rw [if_neg hguard] at h
    rw [if_neg (by simpa using hguard)]
    dsimp only at h ⊢
    cases h1 : is_maximumE k pts it prev n with
    | error e => rw [h1] at h; exact absurd h (by simp)
    | ok r1 =>
      obtain ⟨b1, n1⟩ := r1
      rw [h1] at h
      have hb1 := is_maximumE_ok h1
      cases b1 with
      | true =>
        dsimp only at h
        rw [if_pos hb1.symm]
        cases h2 : maxFindE k st.maxima (pts.getD it dpt) n1 with
        | error e => rw [h2] at h; exact absurd h (by simp)
        | ok r2 =>
          obtain ⟨b2, n2⟩ := r2
          rw [h2] at h
          have hb2 := maxFindE_ok h2
          cases b2 with
          | true =>
            dsimp only at h
            simp only [Except.ok.injEq, Prod.mk.injEq] at h
            rw [if_neg (by rw [← hb2]; simp)]
            exact h.1.symm
          | false =>
            dsimp only at h
            cases h3 : maxInsertE k st.maxima (pts.getD it dpt) n2 with
            | error e => rw [h3] at h; exact absurd h (by simp)
            | ok r3 =>
              obtain ⟨m1, n3⟩ := r3
              rw [h3] at h
              dsimp only at h
              simp only [Except.ok.injEq, Prod.mk.injEq] at h
              rw [if_pos (by rw [← hb2]; rfl)]
              rw [← h.1, maxInsertE_ok h3]
      | false =>
        dsimp only at h
        rw [if_neg (by rw [← hb1]; simp)]
        cases h2 : maxFindE k st.maxima (pts.getD it dpt) n1 with
        | error e => rw [h2] at h; exact absurd h (by simp)
        | ok r2 =>
          obtain ⟨b2, n2⟩ := r2
          rw [h2] at h
          have hb2 := maxFindE_ok h2
          cases b2 with
          | false =>
            dsimp only at h
            simp only [Except.ok.injEq, Prod.mk.injEq] at h
            rw [if_neg (by rw [← hb2]; simp)]
            exact h.1.symm
          | true =>
            dsimp only at h
            cases h3 : maxFindE k st.maxima (pts.getD it dpt) n2 with
            | error e => rw [h3] at h; exact absurd h (by simp)
            | ok r3 =>
              obtain ⟨b3, n3⟩ := r3
              rw [h3] at h
              dsimp only at h
              simp only [Except.ok.injEq, Prod.mk.injEq] at h
              rw [if_pos hb2.symm]
              exact h.1.symm

theorem conditional_addE_err {k : Option Nat} {pts : List Pt} {it prev i : Nat}
    {st : MB} {n : Nat} {e : Nat}
    (h : conditional_addE k pts it prev i st n = Except.error e) : k = some e := by
  unfold conditional_addE at h
  by_cases hguard : it = pts.length || it = prev
  · rw [if_pos hguard] at h
    exact absurd h (by simp)
  · rw [if_neg hguard] at h
    dsimp only at h
    cases h1 : is_maximumE k pts it prev n with
    | error e1 =>
      rw [h1] at h
      simp only [Except.error.injEq] at h
      exact h ▸ is_maximumE_err h1
    | ok r1 =>
      obtain ⟨b1, n1⟩ := r1
      rw [h1] at h
      cases b1 with
      | true =>
        dsimp only at h
        cases h2 : maxFindE k st.maxima (pts.getD it dpt) n1 with
        | error e2 =>
          rw [h2] at h
          simp only [Except.error.injEq] at h
          exact h ▸ maxFindE_err h2
        | ok r2 =>
          obtain ⟨b2, n2⟩ := r2
          rw [h2] at h
          cases b2 with
          | true =>
            dsimp only at h
            exact absurd h (by simp)
          | false =>
            dsimp only at h
            cases h3 : maxInsertE k st.maxima (pts.getD it dpt) n2 with
            | error e3 =>
              rw [h3] at h
              simp only [Except.error.injEq] at h
              exact h ▸ maxInsertE_err h3
            | ok r3 =>
              obtain ⟨m1, n3⟩ := r3
              rw [h3] at h
              dsimp only at h
              exact absurd h (by simp)
      | false =>
        dsimp only at h
        cases h2 : maxFindE k st.maxima (pts.getD it dpt) n1 with
        | error e2 =>
          rw [h2] at h
          simp only [Except.error.injEq] at h
          exact h ▸ maxFindE_err h2
        | ok r2 =>
          obtain ⟨b2, n2⟩ := r2
          rw [h2] at h
          cases b2 with
          | false =>
            dsimp only at h
            exact absurd h (by simp)
          | true =>
            dsimp only at h
            cases h3 : maxFindE k st.maxima (pts.getD it dpt) n2 with
            | error e3 =>
              rw [h3] at h
              simp only [Except.error.injEq] at h
              exact h ▸ maxFindE_err h3
            | ok r3 =>
              obtain ⟨b3, n3⟩ := r3
              rw [h3] at h
              dsimp only at h
              exact absurd h (by simp)

theorem applyErase_replicate_none {nn : Nat} {m : List Pt} :
    applyErase (List.replicate nn (none : Option Pt)) m = m := by
  induction nn with
  | zero => rfl
  | succ nn ih =>
    rw [List.replicate_succ]
    exact ih

theorem eraseIdx_insertUB (p : Pt) : ∀ (l : List Pt),
    (insertUB l p).2.eraseIdx (insertUB l p).1 = l := by
  intro l
  induction l with
  | nil => rfl
  | cons q rest ih =>
    unfold insertUB
    by_cases hlt : p.1 < q.1
    · rw [if_pos hlt]
      rfl
    · rw [if_neg hlt]
      dsimp only
      rw [List.eraseIdx_cons_succ, ih]

theorem rollback_pres (pts : List Pt) (it prev i : Nat) (st : MB) (M0 : List Pt)
    (hsort : MaxSorted st.maxima)
    (hi_r : i < st.to_rollback.length)
    (hnone_r : st.to_rollback.getD i none = none)
    (hRB : applyErase st.to_rollback st.maxima = M0) :
    applyErase (conditional_addP pts it prev i st).to_rollback
      (conditional_addP pts it prev i st).maxima = M0 := by
  unfold conditional_addP
  by_cases hguard : it = pts.length ∨ it = prev
  · rw [if_pos (by simpa using hguard)]
    exact hRB
  · rw [if_neg (by simpa using hguard)]
    dsimp only
    by_cases hmax : is_maximumP pts it prev = true
    · rw [if_pos hmax]
      by_cases hfind : maxFindP st.maxima (pts.getD it dpt) = true
      · rw [if_neg (by rw [hfind]; decide)]
        exact hRB
      · have hf : maxFindP st.maxima (pts.getD it dpt) = false := (Bool.not_eq_true _) ▸ hfind
        rw [if_pos (by rw [hf]; rfl)]
        have hq : pts.getD it dpt ∉ st.maxima := fun hm => hfind (maxFindP_iff.mpr hm)
        show applyErase (st.to_rollback.set i (some (pts.getD it dpt)))
          (maxInsertP st.maxima (pts.getD it dpt)) = M0
        have hs1 : MaxSorted (maxInsertP st.maxima (pts.getD it dpt)) :=
          maxSorted_maxInsertP hsort hq
        refine maxSorted_ext (maxSorted_applyErase hs1) (hRB ▸ maxSorted_applyErase hsort) ?_
        intro x
        rw [← hRB]
        rw [mem_applyErase (maxSorted_nodup hs1), mem_applyErase (maxSorted_nodup hsort)]
        constructor
        · rintro ⟨hx1, hx2⟩
          have hxq : x ≠ pts.getD it dpt :=
            hx2 _ (some_mem_set hi_r hnone_r |>.mpr (Or.inl rfl))
          rcases mem_maxInsertP.mp hx1 with rfl | hx1'
          · exact absurd rfl hxq
          · exact ⟨hx1', fun q' hq' => hx2 q'
              ((some_mem_set hi_r hnone_r).mpr (Or.inr hq'))⟩
        · rintro ⟨hx1, hx2⟩
          have hxq : x ≠ pts.getD it dpt := fun hh => hq (hh ▸ hx1)
          refine ⟨mem_maxInsertP.mpr (Or.inr hx1), ?_⟩
          intro q' hq'
          rcases (some_mem_set hi_r hnone_r).mp hq' with rfl | hq''
          · exact hxq
          · exact hx2 q' hq''
    · rw [if_neg hmax]
      by_cases hfind : maxFindP st.maxima (pts.getD it dpt) = true
      · rw [if_pos hfind]
        exact hRB
      · rw [if_neg hfind]
        exact hRB

theorem stageE_chain (pts : List Pt) (it prev i : Nat) (st : MB) (M0 : List Pt)
    (hsort : MaxSorted st.maxima)
    (hle : st.to_erase.length = 5) (hlr : st.to_rollback.length = 4)
    (hi : i < 4)
    (hne : st.to_erase.getD i none = none) (hnr : st.to_rollback.getD i none = none)
    (hRB : applyErase st.to_rollback st.maxima = M0) :
    MaxSorted (conditional_addP pts it prev i st).maxima ∧
    (conditional_addP pts it prev i st).to_erase.length = 5 ∧
    (conditional_addP pts it prev i st).to_rollback.length = 4 ∧
    (∀ j, j ≠ i → (conditional_addP pts it prev i st).to_erase.getD j none
        = st.to_erase.getD j none) ∧
    (∀ j, j ≠ i → (conditional_addP pts it prev i st).to_rollback.getD j none
        = st.to_rollback.getD j none) ∧
    applyErase (conditional_addP pts it prev i st).to_rollback
      (conditional_addP pts it prev i st).maxima = M0 := by
  obtain ⟨h1, _, _, _, h5, h6, h7, h8⟩ :=
    conditional_addP_spec pts it prev i st hsort (by omega) (by omega) hne hnr
  exact ⟨h1, by rw [h5, hle], by rw [h6, hlr],
    h7, h8, rollback_pres pts it prev i st M0 hsort (by omega) hnr hRB⟩

theorem custom_insertE_error (k : Option Nat) (s : FunctionMaxima) (a v : Int)
    (hM : MaxSorted s.maxima) {e : Nat} {t : FunctionMaxima}
    (h : custom_insertE k s a v = Except.error (e, t)) :
    k = some e ∧ t = s := by
  obtain ⟨P, M⟩ := s
  have hM' : MaxSorted M := hM
  unfold custom_insertE at h
  dsimp only at h
  have hrest : ((insertUB P (a, v)).2).eraseIdx ((insertUB P (a, v)).1) = P :=
    eraseIdx_insertUB (a, v) P
  by_cases hfd : find_arg P a ≠ P.length
  · have hd : decide (find_arg P a ≠ P.length) = true := by simpa using hfd
    simp only [hd, if_true] at h
    generalize hpv : (insertUB P (a, v)).2 = pts at h hrest
    generalize hiv : (insertUB P (a, v)).1 = itI at h hrest
    cases hE0 : equivalentE k v (valAt P (find_arg P a)) 0 with
    | error e1 =>
      rw [hE0] at h
      dsimp only at h
      simp only [Except.error.injEq, Prod.mk.injEq] at h
      exact ⟨h.1 ▸ equivalentE_err hE0, h.2.symm⟩
    | ok r0 =>
      obtain ⟨b0, n0⟩ := r0
      rw [hE0] at h
      cases b0 with
      | true =>
        dsimp only at h
        exact absurd h (by simp)
      | false =>
        dsimp only at h
        cases h1 : conditional_addE k pts itI (find_arg P a) 1
            ⟨M, List.replicate 5 none, List.replicate 4 none⟩ n0 with
        | error e1 =>
          rw [h1] at h
          dsimp only at h
          simp only [Except.error.injEq, Prod.mk.injEq] at h
          refine ⟨h.1 ▸ conditional_addE_err h1, ?_⟩
          rw [← h.2, catchRB]
          dsimp only
          rw [hrest, applyErase_replicate_none]
        | ok r1 =>
          obtain ⟨st1, n1⟩ := r1
          rw [h1] at h
          dsimp only at h
          have hst1 := conditional_addE_ok h1
          obtain ⟨hS1, hLe1, hLr1, hge1, hgr1, hRB1⟩ :=
            stageE_chain pts itI (find_arg P a) 1
              ⟨M, List.replicate 5 none, List.replicate 4 none⟩ M hM'
              (by simp) (by simp) (by omega)
              getD_replicate_none getD_replicate_none applyErase_replicate_none
          rw [← hst1] at hS1 hLe1 hLr1 hge1 hgr1 hRB1
          cases h2 : conditional_addE k pts (multi_next pts.length itI (find_arg P a))
              (find_arg P a) 2 st1 n1 with
          | error e2 =>
            rw [h2] at h
            dsimp only at h
            simp only [Except.error.injEq, Prod.mk.injEq] at h
            refine ⟨h.1 ▸ conditional_addE_err h2, ?_⟩
            rw [← h.2, catchRB]
            rw [hrest, hRB1]
          | ok r2 =>
            obtain ⟨st2, n2⟩ := r2
            rw [h2] at h
            dsimp only at h
            have hst2 := conditional_addE_ok h2
            obtain ⟨hS2, hLe2, hLr2, hge2, hgr2, hRB2⟩ :=
              stageE_chain pts (multi_next pts.length itI (find_arg P a))
                (find_arg P a) 2 st1 M hS1 hLe1 hLr1 (by omega)
                ((hge1 2 (by omega)).trans getD_replicate_none)
                ((hgr1 2 (by omega)).trans getD_replicate_none) hRB1
            rw [← hst2] at hS2 hLe2 hLr2 hge2 hgr2 hRB2
            by_cases hit0 : itI ≠ 0
            · rw [if_pos hit0] at h
              cases h3 : conditional_addE k pts (multi_prev itI (find_arg P a))
                  (find_arg P a) 3 st2 n2 with
              | error e3 =>
                rw [h3] at h
                dsimp only at h
                simp only [Except.error.injEq, Prod.mk.injEq] at h
                refine ⟨h.1 ▸ conditional_addE_err h3, ?_⟩
                rw [← h.2, catchRB]
                rw [hrest, hRB2]
              | ok r3 =>
                obtain ⟨st3, n3⟩ := r3
                rw [h3] at h
                dsimp only at h
                have hst3 := conditional_addE_ok h3
                obtain ⟨hS3, hLe3, hLr3, hge3, hgr3, hRB3⟩ :=
                  stageE_chain pts (multi_prev itI (find_arg P a))
                    (find_arg P a) 3 st2 M hS2 hLe2 hLr2 (by omega)
                    ((hge2 3 (by omega)).trans ((hge1 3 (by omega)).trans getD_replicate_none))
                    ((hgr2 3 (by omega)).trans ((hgr1 3 (by omega)).trans getD_replicate_none))
                    hRB2
                rw [← hst3] at hS3 hLe3 hLr3 hge3 hgr3 hRB3
                cases h4 : maxFindE k st3.maxima (pts.getD (find_arg P a) dpt) n3 with
                | error e4 =>
                  rw [h4] at h
                  dsimp only at h
                  simp only [Except.error.injEq, Prod.mk.injEq] at h
                  refine ⟨h.1 ▸ maxFindE_err h4, ?_⟩
                  rw [← h.2, catchRB]
                  rw [hrest, hRB3]
                | ok r4 =>
                  obtain ⟨b4, n4⟩ := r4
                  rw [h4] at h
                  dsimp only at h
                  exact absurd h (by simp)
            · rw [if_neg hit0] at h
              dsimp only at h
              cases h4 : maxFindE k st2.maxima (pts.getD (find_arg P a) dpt) n2 with
              | error e4 =>
                rw [h4] at h
                dsimp only at h
                simp only [Except.error.injEq, Prod.mk.injEq] at h
                refine ⟨h.1 ▸ maxFindE_err h4, ?_⟩
                rw [← h.2, catchRB]
                rw [hrest, hRB2]
              | ok r4 =>
                obtain ⟨b4, n4⟩ := r4
                rw [h4] at h
                dsimp only at h
                exact absurd h (by simp)
  · have hd : decide (find_arg P a ≠ P.length) = false := by simpa using hfd
    simp only [hd, Bool.false_eq_true, if_false] at h
    generalize hpv : (insertUB P (a, v)).2 = pts at h hrest
    generalize hiv : (insertUB P (a, v)).1 = itI at h hrest
    cases h1 : conditional_addE k pts itI pts.length 1
        ⟨M, List.replicate 5 none, List.replicate 4 none⟩ 0 with
    | error e1 =>
      rw [h1] at h
      dsimp only at h
      simp only [Except.error.injEq, Prod.mk.injEq] at h
      refine ⟨h.1 ▸ conditional_addE_err h1, ?_⟩
      rw [← h.2, catchRB]
      dsimp only
      rw [hrest, applyErase_replicate_none]
    | ok r1 =>
      obtain ⟨st1, n1⟩ := r1
      rw [h1] at h
      dsimp only at h
      have hst1 := conditional_addE_ok h1
      obtain ⟨hS1, hLe1, hLr1, hge1, hgr1, hRB1⟩ :=
        stageE_chain pts itI pts.length 1
          ⟨M, List.replicate 5 none, List.replicate 4 none⟩ M hM'
          (by simp) (by simp) (by omega)
          getD_replicate_none getD_replicate_none applyErase_replicate_none
      rw [← hst1] at hS1 hLe1 hLr1 hge1 hgr1 hRB1
      cases h2 : conditional_addE k pts (multi_next pts.length itI pts.length)
          pts.length 2 st1 n1 with
      | error e2 =>
        rw [h2] at h
        dsimp only at h
        simp only [Except.error.injEq, Prod.mk.injEq] at h
        refine ⟨h.1 ▸ conditional_addE_err h2, ?_⟩
        rw [← h.2, catchRB]
        rw [hrest, hRB1]
      | ok r2 =>
        obtain ⟨st2, n2⟩ := r2
        rw [h2] at h
        dsimp only at h
        have hst2 := conditional_addE_ok h2
        obtain ⟨hS2, hLe2, hLr2, hge2, hgr2, hRB2⟩ :=
          stageE_chain pts (multi_next pts.length itI pts.length)
            pts.length 2 st1 M hS1 hLe1 hLr1 (by omega)
            ((hge1 2 (by omega)).trans getD_replicate_none)
            ((hgr1 2 (by omega)).trans getD_replicate_none) hRB1
        rw [← hst2] at hS2 hLe2 hLr2 hge2 hgr2 hRB2
        by_cases hit0 : itI ≠ 0
        · rw [if_pos hit0] at h
          cases h3 : conditional_addE k pts (multi_prev itI pts.length)
              pts.length 3 st2 n2 with
          | error e3 =>
            rw [h3] at h
            dsimp only at h
            simp only [Except.error.injEq, Prod.mk.injEq] at h
            refine ⟨h.1 ▸ conditional_addE_err h3, ?_⟩
            rw [← h.2, catchRB]
            rw [hrest, hRB2]
          | ok r3 =>
            obtain ⟨st3, n3⟩ := r3
            rw [h3] at h
            dsimp only at h
            exact absurd h (by simp)
        · rw [if_neg hit0] at h
          dsimp only at h
          exact absurd h (by simp)

theorem eraseE_error (k : Option Nat) (s : FunctionMaxima) (a : Int)
    (hM : MaxSorted s.maxima) {e : Nat} {t : FunctionMaxima}
    (h : eraseE k s a = Except.error (e, t)) : k = some e ∧ t = s := by
  obtain ⟨P, M⟩ := s
  have hM' : MaxSorted M := hM
  unfold eraseE at h
  dsimp only at h
  by_cases hit : find_arg P a = P.length
  · rw [if_pos hit] at h
    exact absurd h (by simp)
  · rw [if_neg hit] at h
    cases hf : maxFindE k M (P.getD (find_arg P a) dpt) 0 with
    | error e0 =>
      rw [hf] at h
      dsimp only at h
      simp only [Except.error.injEq, Prod.mk.injEq] at h
      exact ⟨h.1 ▸ maxFindE_err hf, h.2.symm⟩
    | ok r0 =>
      obtain ⟨f2, n0⟩ := r0
      rw [hf] at h
      dsimp only at h
      have hlen5 : (if f2 = true
          then (List.replicate 5 (none : Option Pt)).set 0 (some (P.getD (find_arg P a) dpt))
          else List.replicate 5 none).length = 5 := by
        split_ifs <;> simp
      have hget2 : (if f2 = true
          then (List.replicate 5 (none : Option Pt)).set 0 (some (P.getD (find_arg P a) dpt))
          else List.replicate 5 none).getD 2 none = none := by
        split_ifs
        · exact (getD_set_ne_slot (by omega)).trans getD_replicate_none
        · exact getD_replicate_none
      generalize hteq : (if f2 = true
          then (List.replicate 5 (none : Option Pt)).set 0 (some (P.getD (find_arg P a) dpt))
          else List.replicate 5 none) = te0 at h hlen5 hget2
      cases h1 : conditional_addE k P (find_arg P a + 1) (find_arg P a) 2
          ⟨M, te0, List.replicate 4 none⟩ n0 with
      | error e1 =>
        rw [h1] at h
        dsimp only at h
        simp only [Except.error.injEq, Prod.mk.injEq] at h
        refine ⟨h.1 ▸ conditional_addE_err h1, ?_⟩
        rw [← h.2, applyErase_replicate_none]
      | ok r1 =>
        obtain ⟨st2, n2⟩ := r1
        rw [h1] at h
        dsimp only at h
        have hst2 := conditional_addE_ok h1
        obtain ⟨hS2, hLe2, hLr2, hge2, hgr2, hRB2⟩ :=
          stageE_chain P (find_arg P a + 1) (find_arg P a) 2
            ⟨M, te0, List.replicate 4 none⟩ M hM' hlen5 (by simp) (by omega)
            hget2 getD_replicate_none applyErase_replicate_none
        rw [← hst2] at hS2 hLe2 hLr2 hge2 hgr2 hRB2
        cases h2 : conditional_addE k P (find_arg P a - 1) (find_arg P a) 3 st2 n2 with
        | error e2 =>
          rw [h2] at h
          dsimp only at h
          simp only [Except.error.injEq, Prod.mk.injEq] at h
          refine ⟨h.1 ▸ conditional_addE_err h2, ?_⟩
          rw [← h.2, hRB2]
        | ok r2 =>
          obtain ⟨st3, n3⟩ := r2
          rw [h2] at h
          dsimp only at h
          exact absurd h (by simp)

theorem eraseE_none_ok (s : FunctionMaxima) (a : Int) :
    eraseE none s a = Except.ok (FunctionMaxima.erase s a) := by
  obtain ⟨P, M⟩ := s
  unfold eraseE FunctionMaxima.erase
  dsimp only
  by_cases hit : find_arg P a = P.length
  · rw [if_pos hit, if_pos hit]
  · rw [if_neg hit, if_neg hit]
    cases hf : maxFindE none M (P.getD (find_arg P a) dpt) 0 with
    | error e0 => exact absurd (maxFindE_err hf) (by simp)
    | ok r0 =>
      obtain ⟨f2, n0⟩ := r0
      dsimp only
      rw [maxFindE_ok hf]
      generalize hteq : (if maxFindP M (P.getD (find_arg P a) dpt) = true
          then (List.replicate 5 (none : Option Pt)).set 0 (some (P.getD (find_arg P a) dpt))
          else List.replicate 5 none) = te0
      cases h1 : conditional_addE none P (find_arg P a + 1) (find_arg P a) 2
          ⟨M, te0, List.replicate 4 none⟩ n0 with
      | error e1 => exact absurd (conditional_addE_err h1) (by simp)
      | ok r1 =>
        obtain ⟨st2, n2⟩ := r1
        dsimp only
        rw [conditional_addE_ok h1]
        cases h2 : conditional_addE none P (find_arg P a - 1) (find_arg P a) 3
            (conditional_addP P (find_arg P a + 1) (find_arg P a) 2
              ⟨M, te0, List.replicate 4 none⟩) n2 with
        | error e2 => exact absurd (conditional_addE_err h2) (by simp)
        | ok r2 =>
          obtain ⟨st3, n3⟩ := r2
          dsimp only
          rw [conditional_addE_ok h2]

/-- C2: exception atomicity.  If the user-supplied `<` on `V` throws on its
`k`-th invocation during `set_value(a, v)` or `erase(a)` (on any reachable
state), the exception surfaced to the caller is exactly that `k`-th
invocation's exception, and the state the caller observes afterwards — both
the point sequence and the maxima sequence, content and order — is exactly
the pre-call state. -/
theorem exception_atomicity (s : FunctionMaxima) (a v : Int) (k : Nat)
    (h : FunctionMaxima.Reachable s) :
    (∀ e t, set_valueE (some k) s a v = Except.error (e, t) → e = k ∧ t = s) ∧
    (∀ e t, eraseE (some k) s a = Except.error (e, t) → e = k ∧ t = s) := by
  have hM : MaxSorted s.maxima := (reachable_repInv h).2.1
  constructor
  · intro e t ht
    obtain ⟨hk, hts⟩ := custom_insertE_error (some k) s a v hM ht
    exact ⟨(Option.some.inj hk).symm, hts⟩
  · intro e t ht
    obtain ⟨hk, hts⟩ := eraseE_error (some k) s a hM ht
    exact ⟨(Option.some.inj hk).symm, hts⟩

/-- C2 witness. -/
theorem exception_atomicity_witness :
    (∀ e t, set_valueE (some 0) (FunctionMaxima.set_value FunctionMaxima.empty 1 1) 1 2
        = Except.error (e, t) → e = 0 ∧ t = FunctionMaxima.set_value FunctionMaxima.empty 1 1) ∧
    (∀ e t, eraseE (some 0) (FunctionMaxima.set_value FunctionMaxima.empty 1 1) 1
        = Except.error (e, t) → e = 0 ∧ t = FunctionMaxima.set_value FunctionMaxima.empty 1 1) :=
  exception_atomicity (FunctionMaxima.set_value FunctionMaxima.empty 1 1) 1 2 0
    (FunctionMaxima.Reachable.step_set _ 1 1 FunctionMaxima.Reachable.empty)

/-- C3 counterexample: `erase` does have a failure mode.  On the reachable
state with points `[(1,1),(2,2)]` and maxima `[(2,2)]`, calling `erase(2)`
with a value comparison that throws on its first invocation propagates that
exception to the caller (the state is rolled back, but the call fails). -/
theorem erase_never_fails_cex :
    eraseE (some 0)
      (FunctionMaxima.set_value (FunctionMaxima.set_value FunctionMaxima.empty 1 1) 2 2) 2
      = Except.error (0,
          FunctionMaxima.set_value (FunctionMaxima.set_value FunctionMaxima.empty 1 1) 2 2) := by
  decide

/-- C3 (amended): when no user comparison throws, `erase(a)` always completes:
it returns normally (removing `a` if present), it is a no-op when `a` is
absent, and afterwards `value_at(a)` fails with the `InvalidArg` error.  (The
unamended claim "erase never fails" is false: a throwing `V` comparison makes
`erase` propagate the exception, see the counterexample.) -/
theorem erase_total_spec (s : FunctionMaxima) (a : Int)
    (h : FunctionMaxima.Reachable s) :
    eraseE none s a = Except.ok (FunctionMaxima.erase s a) ∧
    ((∀ w : Int, ((a, w) : Pt) ∉ s.points) → FunctionMaxima.erase s a = s) ∧
    FunctionMaxima.value_at (FunctionMaxima.erase s a) a
      = Except.error FunctionMaxima.InvalidArg.mk := by
  refine ⟨eraseE_none_ok s a, ?_, ?_⟩
  · intro habs
    exact erase_absent_eq s a (arg_absent_iff.mpr habs)
  · have hinv := reachable_repInv h
    rcases erase_points_shape s a hinv with ⟨habs, heq⟩ | ⟨_, L1, w, L2, hold, h1, h2, hpt⟩
    · rw [heq, value_at_error_iff, find_arg_eq_length]
      exact arg_absent_iff.mpr habs
    · rw [value_at_error_iff, hpt, find_arg_eq_length]
      intro q hq
      rcases List.mem_append.mp hq with hql | hqr
      · exact ne_of_lt (h1 q hql)
      · exact (ne_of_lt (h2 q hqr)).symm

/-- C3 witness (for the amended statement). -/
theorem erase_total_spec_witness :
    eraseE none FunctionMaxima.empty 5 = Except.ok (FunctionMaxima.erase FunctionMaxima.empty 5) ∧
    ((∀ w : Int, ((5, w) : Pt) ∉ FunctionMaxima.empty.points) →
      FunctionMaxima.erase FunctionMaxima.empty 5 = FunctionMaxima.empty) ∧
    FunctionMaxima.value_at (FunctionMaxima.erase FunctionMaxima.empty 5) 5
      = Except.error FunctionMaxima.InvalidArg.mk :=
  erase_total_spec FunctionMaxima.empty 5 FunctionMaxima.Reachable.empty
